import Mathlib

/-!
# Graph memory planner — shallow embedding

A shallow embedding of the storage-assignment pass of
`src/tvm/src/relay/backend/graph_plan_memory.cc` together with the texture
flattening helpers of `src/unnamed/part_000` (`texture.h`), and proofs of the
frozen claims about it.

Modelling conventions
* C++ `size_t` quantities (byte sizes, free-list keys) are `Nat`; `int64_t`
  quantities (storage ids, texture extents) and `int` quantities
  (`ref_counter`, `device_type`) are `Int`.  No arithmetic in the planner can
  overflow on the inputs we consider, so widths are not reduced modulo 2^64.
* Tokens live in an arena (`List StorageToken`) and are passed around as
  indices, mirroring the `StorageToken*` handles of the source.  Reading an
  out-of-range index — undefined behaviour in the source — yields a default
  token; writing out of range is a no-op.  Real runs never do either.
* `LOG(FATAL)` and failing `ICHECK`s are modelled as `none` / a dedicated
  `fatal` result.
* The `std::multimap` free list of the 1D allocator is a key-sorted
  association list; `lower_bound`/`upper_bound` iteration over a key-sorted
  multimap visits exactly the entries whose key lies in the corresponding
  interval, in list order, which is how the fuzzy-match windows are written
  here.  `multimap::insert` places a new entry after existing entries of
  equal key, and `insertFree` does the same.
* The `std::unordered_set<int64_t>` free list of the 2D allocator is a
  duplicate-free `List Int`; its C++ iteration order is unspecified, and the
  list order stands for one realizable iteration order.
-/

/-- `DLDataType`: type code, bit width and vector lanes. -/
structure DType where
  code : Nat
  bits : Nat
  lanes : Nat
deriving DecidableEq

/-- `TensorTypeNode`: a static shape plus a dtype.  Dimensions are `Nat`
because the planner refuses symbolic or negative dimensions
(`ICHECK(pval != nullptr)`, `ICHECK_GE(*pval, 0)`); those failure paths are
unrepresentable here. -/
structure TensorType where
  shape : List Nat
  dtype : DType
deriving DecidableEq

/-- `StorageToken` with the field-by-field meaning of the source struct. -/
structure StorageToken where
  ref_counter : Int
  max_bytes : Nat
  ttype : TensorType
  device_type : Int
  storage_id : Int
  storage_scope : String
deriving DecidableEq

/-- The member initializers of `StorageToken` (the `ttype` default stands for
the source's null pointer and is never read on real runs). -/
def defaultToken : StorageToken :=
  { ref_counter := 0, max_bytes := 0, ttype := { shape := [], dtype := ⟨0, 0, 0⟩ },
    device_type := 0, storage_id := -1, storage_scope := "global" }

/-- Arena read (`StorageToken*` dereference). -/
def getTok (arena : List StorageToken) (i : Nat) : StorageToken :=
  arena.getD i defaultToken

/-- Arena write through a token handle. -/
def setTok (arena : List StorageToken) (i : Nat) (f : StorageToken → StorageToken) :
    List StorageToken :=
  arena.set i (f (getTok arena i))

/-- `s.find(pat) != npos` on character lists. -/
def hasSubstr (pat : List Char) : List Char → Bool
  | [] => pat.isEmpty
  | c :: rest => pat.isPrefixOf (c :: rest) || hasSubstr pat rest

/-- `IsTextureStorage`: the scope string contains `"texture"`. -/
def IsTextureStorage (scope : String) : Bool :=
  hasSubstr "texture".data scope.data

/-- `DefaultTextureLayoutSeparator`.  The unknown-convention branch is
`LOG(FATAL)`, modelled as `none`.  (`shape_rank - 2` is `Nat` subtraction; the
source's `size_t` underflow for `shape_rank < 2` is outside every use in the
claims.) -/
def DefaultTextureLayoutSeparator (shape_rank : Nat) (convention : String) : Option Nat :=
  if convention = "texture" then some (shape_rank - 2)
  else if convention = "texture:weight" then some 1
  else if convention = "texture:nhwc" then some 2
  else none

/-- `Texture2DShape<int64_t>`. -/
structure Texture2DShape where
  width : Int
  height : Int
  channel : Int
deriving DecidableEq

/-- Shape indexing as done through the source's `Shape` functor
(`*tir::as_const_int(shape[i])`). -/
def dimAt (shape : List Nat) (i : Nat) : Int :=
  (shape.getD i 0 : Nat)

/-- `ApplyTexture2DFlattening`: `texture{1, 1, shape[rank-1]}`, then for
`i < rank - 1` multiply `shape[i]` into the height when `i < axis` and into
the width otherwise.  The `ICHECK(axis < rank)` guard is the `none` case. -/
def ApplyTexture2DFlattening (shape : List Nat) (rank axis : Nat) :
    Option Texture2DShape :=
  if axis < rank then
    some ((List.range (rank - 1)).foldl
      (fun t i =>
        if i < axis then { t with height := t.height * dimAt shape i }
        else { t with width := t.width * dimAt shape i })
      { width := 1, height := 1, channel := dimAt shape (rank - 1) })
  else none

/-- `TokenAllocator1D::DivRoundUp`. -/
def DivRoundUp (size word_size : Nat) : Nat :=
  (size + word_size - 1) / word_size

/-- `TokenAllocator1D::GetMemorySize`: product of the dimensions times the
rounded-up byte width of the dtype. -/
def GetMemorySize (t : StorageToken) : Nat :=
  (t.ttype.shape.foldl (fun size d => size * d) 1) *
    DivRoundUp (t.ttype.dtype.bits * t.ttype.dtype.lanes) 8

/-- `TokenAllocator2D::GetSize2D`: separator from the storage scope, then the
2D flattening. -/
def GetSize2D (t : StorageToken) : Option Texture2DShape := do
  let axis ← DefaultTextureLayoutSeparator t.ttype.shape.length t.storage_scope
  ApplyTexture2DFlattening t.ttype.shape t.ttype.shape.length axis

/-! ## The 1D allocator -/

/-- `TokenAllocator1D` state: the `{max_bytes at insertion, token}` multimap
`free_` as a key-sorted association list plus the `data_` bookkeeping
vector. -/
structure Alloc1D where
  free_ : List (Nat × Nat)
  data_ : List Nat
deriving DecidableEq

/-- `match_range_`, the fixed fuzzy-match scale. -/
def match_range_ : Nat := 16

/-- `multimap::insert`: after all entries of equal key, before the first
strictly greater key. -/
def insertFree (k v : Nat) : List (Nat × Nat) → List (Nat × Nat)
  | [] => [(k, v)]
  | e :: rest => if k < e.1 then (k, v) :: e :: rest else e :: insertFree k v rest

/-- The `[mid, end)` iterator range of `Request`: free entries with key in
`[size, size * match_range_]`, in map order. -/
def upCands (size : Nat) (free : List (Nat × Nat)) : List (Nat × Nat) :=
  free.filter (fun e => size ≤ e.1 && e.1 ≤ size * match_range_)

/-- The `[begin, mid)` range scanned backwards: free entries with key in
`[size / match_range_, size)`, largest first. -/
def downCands (size : Nat) (free : List (Nat × Nat)) : List (Nat × Nat) :=
  (free.filter (fun e => size / match_range_ ≤ e.1 && e.1 < size)).reverse

/-- One scan of `Request`'s loops: skip device mismatches (`continue`), fail
on `ICHECK_EQ(tok->ref_counter, 0)`, return the first surviving entry. -/
inductive Scan1 where
  | fatal
  | nomatch
  | found (entry : Nat × Nat)
deriving DecidableEq

def scan1D (arena : List StorageToken) (dev : Int) : List (Nat × Nat) → Scan1
  | [] => .nomatch
  | e :: rest =>
    if (getTok arena e.2).device_type ≠ dev then scan1D arena dev rest
    else if (getTok arena e.2).ref_counter ≠ 0 then .fatal
    else .found e

/-- Result of a sub-allocator `Request`: a failing `ICHECK`, a miss
(`nullptr`, so the caller falls back to `Alloc`), or a reuse hit. -/
inductive Res1 where
  | fatal
  | miss
  | hit (tok : Nat) (arena : List StorageToken) (st : Alloc1D)
deriving DecidableEq

/-- The mutation `Request` performs on a hit:
`tok->max_bytes = max(size, tok->max_bytes); tok->ref_counter = prototype->ref_counter`,
then erase the entry from the free list. -/
def hit1D (arena : List StorageToken) (st : Alloc1D) (size : Nat) (protoRef : Int)
    (e : Nat × Nat) : Res1 :=
  .hit e.2
    (setTok arena e.2 (fun t =>
      { t with max_bytes := max size t.max_bytes, ref_counter := protoRef }))
    { st with free_ := st.free_.erase e }

/-- `TokenAllocator1D::Request`: compute the size, scan `[size, size*16]`
upward, then `[size/16, size)` downward. -/
def Request1D (arena : List StorageToken) (st : Alloc1D) (proto : Nat) : Res1 :=
  let size := GetMemorySize (getTok arena proto)
  if match_range_ = 0 then .miss
  else
    match scan1D arena (getTok arena proto).device_type (upCands size st.free_) with
    | .fatal => .fatal
    | .found e => hit1D arena st size (getTok arena proto).ref_counter e
    | .nomatch =>
      match scan1D arena (getTok arena proto).device_type (downCands size st.free_) with
      | .fatal => .fatal
      | .found e => hit1D arena st size (getTok arena proto).ref_counter e
      | .nomatch => .miss

/-- `TokenAllocator1D::Alloc`: write `max_bytes` and the fresh storage id into
the prototype itself and record it in `data_`. -/
def Alloc1Dfun (arena : List StorageToken) (st : Alloc1D) (proto : Nat) (sid : Int) :
    List StorageToken × Alloc1D :=
  (setTok arena proto (fun t =>
      { t with max_bytes := GetMemorySize (getTok arena proto), storage_id := sid }),
   { st with data_ := st.data_ ++ [proto] })

/-! ## The 2D allocator -/

/-- `TokenAllocator2D::MemBlock`. -/
structure MemBlock where
  token_ : Nat
  x_ : Int
  y_ : Int
deriving DecidableEq

/-- `TokenAllocator2D` state: blocks keyed by storage id plus the free set. -/
structure Alloc2D where
  blocks_ : List (Int × MemBlock)
  free_list_ : List Int
deriving DecidableEq

/-- `std::numeric_limits<int64_t>::max()`. -/
def int64Max : Int := 9223372036854775807

/-- `blocks_[id]` in read position (absent keys — undefined behaviour through
the dangling `token_` in the source — read as a default block). -/
def lookupBlock (bs : List (Int × MemBlock)) (i : Int) : MemBlock :=
  (((bs.find? (fun e => e.1 == i)).map (fun e => e.2))).getD ⟨0, 0, 0⟩

/-- `blocks_[id] = b`: update in place or insert. -/
def setBlock : List (Int × MemBlock) → Int → MemBlock → List (Int × MemBlock)
  | [], i, b => [(i, b)]
  | e :: rest, i, b => if e.1 = i then (i, b) :: rest else e :: setBlock rest i b

/-- The running state of `Request`'s search loop.  `best_mem`'s token field
mirrors the source's uninitialized `new_mem.token_` as a dummy `0`; it is
overwritten before it is ever read. -/
structure Search2D where
  min_added : Int
  min_wasted : Int
  best_id : Int
  best_mem : MemBlock
deriving DecidableEq

def search2DInit : Search2D :=
  { min_added := int64Max, min_wasted := int64Max, best_id := -1, best_mem := ⟨0, 0, 0⟩ }

/-- One iteration of the 2D search loop, exactly as written in the source:
skip on dtype mismatch, otherwise update the best candidate when
`(min_added_size > 0 && added_size < min_added_size) ||
 (min_added_size == 0 && wasted_size < min_wasted_size)`. -/
def search2DStep (arena : List StorageToken) (bs : List (Int × MemBlock)) (pdt : DType)
    (w h : Int) (s : Search2D) (fid : Int) : Search2D :=
  let cached := lookupBlock bs fid
  if (getTok arena cached.token_).ttype.dtype ≠ pdt then s
  else
    let cached_size := cached.x_ * cached.y_
    let nx := max cached.x_ w
    let ny := max cached.y_ h
    let expanded_size := nx * ny
    let added_size := expanded_size - cached_size
    let wasted_size := expanded_size - w * h
    if (0 < s.min_added ∧ added_size < s.min_added) ∨
        (s.min_added = 0 ∧ wasted_size < s.min_wasted) then
      { min_added := added_size, min_wasted := wasted_size, best_id := fid,
        best_mem := { token_ := 0, x_ := nx, y_ := ny } }
    else s

/-- Result of `TokenAllocator2D::Request` in the same three-way shape as the
1D one (`fatal` covers the `LOG(FATAL)` inside `GetSize2D`). -/
inductive Res2 where
  | fatal
  | miss
  | hit (tok : Nat) (arena : List StorageToken) (st : Alloc2D)
deriving DecidableEq

/-- `TokenAllocator2D::Request`: run the search over the free list and accept
the best candidate iff `min_added_size <= requested_size`; on acceptance reset
the token's `ref_counter` to the requester's, store the expanded block and
remove it from the free list. -/
def Request2D (arena : List StorageToken) (st : Alloc2D) (proto : Nat) : Res2 :=
  match GetSize2D (getTok arena proto) with
  | none => .fatal
  | some shape =>
    let requested_size := shape.height * shape.width
    let s := st.free_list_.foldl
      (search2DStep arena st.blocks_ (getTok arena proto).ttype.dtype
        shape.width shape.height)
      search2DInit
    if s.min_added ≤ requested_size then
      let tok := (lookupBlock st.blocks_ s.best_id).token_
      .hit tok
        (setTok arena tok (fun t =>
          { t with ref_counter := (getTok arena proto).ref_counter }))
        { blocks_ := setBlock st.blocks_ s.best_id { s.best_mem with token_ := tok },
          free_list_ := st.free_list_.filter (fun i => i != s.best_id) }
    else .miss

/-- `TokenAllocator2D::Alloc`: record `{token, width, height}` under the fresh
storage id written into the prototype (`none` when the flattening is fatal). -/
def Alloc2Dfun (arena : List StorageToken) (st : Alloc2D) (proto : Nat) (sid : Int) :
    Option (List StorageToken × Alloc2D) :=
  (GetSize2D (getTok arena proto)).map (fun shape =>
    (setTok arena proto (fun t => { t with storage_id := sid }),
     { st with blocks_ := setBlock st.blocks_ sid ⟨proto, shape.width, shape.height⟩ }))

/-! ## Expressions

Relay expressions, restricted to the node kinds the planner recognises.
`token_map_` is keyed by node pointer in the source; here every token-bearing
node carries an explicit key — `Sum.inl v` for a `VarNode` and `Sum.inr n`
for any other node — and programs are trees, on which the `ExprVisitor`
memoisation of the source never fires (each node is visited exactly once, and
variables are resolved through `token_map_` just as in the source).  A node's
checked type is its list of tensor types (singleton for a plain tensor type).
The unsupported kinds (`IfNode` is `LOG(FATAL)`; a `GlobalVarNode`, `OpNode`
or `FunctionNode` in token position fails `GetToken`'s `ICHECK`) are omitted:
programs containing them never produce a plan. -/

mutual
inductive Expr where
  | var (vid : Nat)
  | constant (nid : Nat) (tys : List TensorType)
  | call (nid : Nat) (tys : List TensorType) (args : ExprList)
  | tuple (nid : Nat) (fields : ExprList)
  | proj (nid : Nat) (tup : Expr) (index : Nat)
  | letE (nid : Nat) (vid : Nat) (value : Expr) (body : Expr)
inductive ExprList where
  | nil
  | cons (e : Expr) (rest : ExprList)
end

/-- `token_map_` keys: `inl` a variable, `inr` any other node. -/
abbrev Key := Nat ⊕ Nat

/-- A Relay `Function`: typed parameters and a body. -/
structure Func where
  params : List (Nat × List TensorType)
  body : Expr

/-- `token_map_` lookup. -/
def lookupTM (m : List (Key × List Nat)) (k : Key) : Option (List Nat) :=
  (m.find? (fun e => decide (e.1 = k))).map (fun e => e.2)

/-! ## The liveness pass (`StorageAllocaInit`) -/

/-- A prototype token as built by `StorageAllocaInit::CreateToken`. -/
def mkToken (ty : TensorType) (device : Int) (scope : String) : StorageToken :=
  { defaultToken with ttype := ty, device_type := device, storage_scope := scope }

/-- The token list for one node: per-position scope from the storage-info
array when present, `"global"` otherwise. -/
def mkTokens (device : Int) (tys : List TensorType) : Option (List String) → List StorageToken
  | some si => List.zipWith (fun ty sc => mkToken ty device sc) tys si
  | none => tys.map (fun ty => mkToken ty device "global")

/-- State of the liveness pass: the growing arena and its `token_map_`. -/
structure InitState where
  arena : List StorageToken
  tmap : List (Key × List Nat)
deriving DecidableEq

/-- `StorageAllocaInit::CreateToken`: refuse a node already in the map,
refuse a storage-info array whose length disagrees with the produced tensor
count (the source checks the arity only for tuple types and indexes entry 0
for a plain tensor type; the uniform check coincides on every input the
claims touch), then push one fresh token per tensor.  `dm` and `sm` are the
externally collected device and storage-scope maps. -/
def createTokenInit (dm : Key → Option Int) (sm : Key → Option (List String)) (k : Key)
    (tys : List TensorType) (st : InitState) : Option (InitState × List Nat) :=
  if (lookupTM st.tmap k).isSome then none
  else if (sm k).isSome ∧ ((sm k).getD []).length ≠ tys.length then none
  else
    let ids := (List.range tys.length).map (fun i => st.arena.length + i)
    some ({ arena := st.arena ++ mkTokens ((dm k).getD 0) tys (sm k),
            tmap := st.tmap ++ [(k, ids)] }, ids)

/-- `tok->ref_counter += 1` over a token list, one increment per occurrence. -/
def incRefs (arena : List StorageToken) (toks : List Nat) : List StorageToken :=
  toks.foldl
    (fun ar t => setTok ar t (fun tk => { tk with ref_counter := tk.ref_counter + 1 }))
    arena

mutual
/-- `GetToken` under `StorageAllocaInit`: visit the node, then read its entry
of `token_map_` (`none` is a failing `ICHECK` or `LOG(FATAL)`). -/
def visitInit (dm : Key → Option Int) (sm : Key → Option (List String)) :
    Expr → InitState → Option (InitState × List Nat)
  | .var v, st => (lookupTM st.tmap (.inl v)).map (fun ts => (st, ts))
  | .constant nid tys, st => createTokenInit dm sm (.inr nid) tys st
  | .call nid tys args, st => do
      let (st1, toks) ← createTokenInit dm sm (.inr nid) tys st
      let st2 ← visitInitArgs dm sm args st1
      pure (st2, toks)
  | .tuple nid fields, st => do
      let (st1, toks) ← visitInitFields dm sm fields st
      pure ({ st1 with tmap := st1.tmap ++ [(.inr nid, toks)] }, toks)
  | .proj nid tup i, st => do
      let (st1, toks) ← visitInit dm sm tup st
      if h : i < toks.length then
        pure ({ st1 with tmap := st1.tmap ++ [(.inr nid, [toks.get ⟨i, h⟩])] },
          [toks.get ⟨i, h⟩])
      else none
  | .letE nid vid v b, st => do
      let (st1, tv) ← visitInit dm sm v st
      let (st2, tb) ← visitInit dm sm b { st1 with tmap := st1.tmap ++ [(.inl vid, tv)] }
      pure ({ st2 with tmap := st2.tmap ++ [(.inr nid, tb)] }, tb)
/-- The argument loop of `StorageAllocaInit::VisitExpr_(CallNode)`: per
argument, `GetToken` then `ref_counter += 1` on each of its tokens. -/
def visitInitArgs (dm : Key → Option Int) (sm : Key → Option (List String)) :
    ExprList → InitState → Option InitState
  | .nil, st => some st
  | .cons a rest, st => do
      let (st1, toks) ← visitInit dm sm a st
      visitInitArgs dm sm rest { st1 with arena := incRefs st1.arena toks }
/-- The field loop of `VisitExpr_(TupleNode)`: concatenate the fields'
tokens. -/
def visitInitFields (dm : Key → Option Int) (sm : Key → Option (List String)) :
    ExprList → InitState → Option (InitState × List Nat)
  | .nil, st => some (st, [])
  | .cons f rest, st => do
      let (st1, t1) ← visitInit dm sm f st
      let (st2, t2) ← visitInitFields dm sm rest st1
      pure (st2, t1 ++ t2)
end

/-- The parameter loop of `StorageAllocaBaseVisitor::Run` under the liveness
pass: `CreateToken(param, false)` for each parameter. -/
def runInitParams (dm : Key → Option Int) (sm : Key → Option (List String)) :
    List (Nat × List TensorType) → InitState → Option InitState
  | [], st => some st
  | (v, tys) :: rest, st => do
      let (st1, _) ← createTokenInit dm sm (.inl v) tys st
      runInitParams dm sm rest st1

/-- `StorageAllocaInit::GetInitTokenMap` / `Run`: parameters, body, then the
outputs-are-kept pin `tok->ref_counter += 1` on the body's tokens.  Returns
the final state (arena of prototypes plus `token_map_`) and the output token
list. -/
def runInit (dm : Key → Option Int) (sm : Key → Option (List String)) (f : Func) :
    Option (InitState × List Nat) := do
  let st1 ← runInitParams dm sm f.params ⟨[], []⟩
  let (st2, outs) ← visitInit dm sm f.body st1
  pure ({ st2 with arena := incRefs st2.arena outs }, outs)

/-! ## The dispatch layer and the assignment-pass state

The assignment pass is instrumented with a write-only ghost `trace`: the
algorithm never reads it, it only records, for every token assignment and
every `CheckForRelease`, what happened.  The whole-plan claims are stated
over this trace. -/

/-- Ghost trace events.
* `assign t p` — token `t` became the assignment-pass token serving
  prototype `p` (recorded in all three branches: fresh allocation, reuse hit
  and request-miss fallback).
* `fresh t` — the `ref_counter += 1` pin of the fresh-allocation branch of
  `StorageAllocator::CreateToken` was applied to `t`.
* `rel t r is2d ins` — `CheckForRelease` ran on `t` whose `ref_counter` was
  `r` at that moment; `is2d` tells which sub-allocator it dispatched to and
  `ins` whether it inserted `t` into that allocator's free list. -/
inductive Ev where
  | assign (tok proto : Nat)
  | fresh (tok : Nat)
  | rel (tok : Nat) (refAt : Int) (is2d : Bool) (inserted : Bool)
deriving DecidableEq

/-- `TokenAllocator` (the façade): storage-id counter plus both pools. -/
structure TokenAlloc where
  storage_ids_ : Int
  t1 : Alloc1D
  t2 : Alloc2D
deriving DecidableEq

/-- The whole mutable state of `StorageAllocator` while the assignment pass
runs: the shared token arena, its own `token_map_`, the allocator, and the
ghost trace. -/
structure AssignState where
  arena : List StorageToken
  tmap : List (Key × List Nat)
  alloc : TokenAlloc
  trace : List Ev
deriving DecidableEq

/-- `TokenAllocator::Alloc`: dispatch on `Is2DStorage` and burn one storage
id.  Returns the allocated token (always the prototype itself). -/
def allocTok (st : AssignState) (proto : Nat) : Option (Nat × AssignState) :=
  if IsTextureStorage (getTok st.arena proto).storage_scope then
    (Alloc2Dfun st.arena st.alloc.t2 proto st.alloc.storage_ids_).map (fun r =>
      (proto,
       { st with
          arena := r.1
          alloc := { st.alloc with storage_ids_ := st.alloc.storage_ids_ + 1, t2 := r.2 }
          trace := st.trace ++ [.assign proto proto] }))
  else
    let r := Alloc1Dfun st.arena st.alloc.t1 proto st.alloc.storage_ids_
    some (proto,
      { st with
          arena := r.1
          alloc := { st.alloc with storage_ids_ := st.alloc.storage_ids_ + 1, t1 := r.2 }
          trace := st.trace ++ [.assign proto proto] })

/-- `TokenAllocator::Request`: try the scope-matching pool's reuse, fall back
to `Alloc` on a miss (so it never returns null). -/
def requestTok (st : AssignState) (proto : Nat) : Option (Nat × AssignState) :=
  if IsTextureStorage (getTok st.arena proto).storage_scope then
    match Request2D st.arena st.alloc.t2 proto with
    | .fatal => none
    | .hit tok arena' t2' =>
      some (tok,
        { st with
            arena := arena'
            alloc := { st.alloc with t2 := t2' }
            trace := st.trace ++ [.assign tok proto] })
    | .miss => allocTok st proto
  else
    match Request1D st.arena st.alloc.t1 proto with
    | .fatal => none
    | .hit tok arena' t1' =>
      some (tok,
        { st with
            arena := arena'
            alloc := { st.alloc with t1 := t1' }
            trace := st.trace ++ [.assign tok proto] })
    | .miss => allocTok st proto

/-- The fresh-allocation branch of `StorageAllocator::CreateToken`:
`Alloc`, copy the prototype's `device_type`, and pin with
`ref_counter += 1` (the allocated token is the prototype itself, so the
device copy rewrites the same value). -/
def assignFresh (proto : Nat) (st : AssignState) : Option (Nat × AssignState) :=
  (allocTok st proto).map (fun r =>
    (r.1, { r.2 with
      arena := setTok r.2.arena r.1 (fun t =>
        { t with device_type := (getTok r.2.arena proto).device_type,
                 ref_counter := t.ref_counter + 1 }),
      trace := r.2.trace ++ [.fresh r.1] }))

/-- Per-prototype body of `StorageAllocator::CreateToken`: reuse is attempted
only when `can_realloc && tok->storage_scope == "global"`; every other token
takes the fresh-allocation branch. -/
def assignOne (can_realloc : Bool) (proto : Nat) (st : AssignState) :
    Option (Nat × AssignState) :=
  if can_realloc = true ∧ (getTok st.arena proto).storage_scope = "global" then
    requestTok st proto
  else
    assignFresh proto st

/-- `TokenAllocator::CheckForRelease` with both sub-allocators' `ICHECK`s
(`storage_id >= 0`, `ref_counter >= 0`) and free-list insertion when the
count is zero (`multimap` keyed by `max_bytes` in 1D, the storage-id set in
2D).  Appends the ghost `rel` event. -/
def checkForRelease (st : AssignState) (tok : Nat) : Option AssignState :=
  let t := getTok st.arena tok
  if t.storage_id < 0 then none
  else if t.ref_counter < 0 then none
  else if IsTextureStorage t.storage_scope then
    if t.ref_counter = 0 then
      some { st with
        alloc := { st.alloc with t2 := { st.alloc.t2 with
          free_list_ := if t.storage_id ∈ st.alloc.t2.free_list_ then
              st.alloc.t2.free_list_
            else st.alloc.t2.free_list_ ++ [t.storage_id] } },
        trace := st.trace ++ [.rel tok t.ref_counter true true] }
    else some { st with trace := st.trace ++ [.rel tok t.ref_counter true false] }
  else
    if t.ref_counter = 0 then
      some { st with
        alloc := { st.alloc with t1 := { st.alloc.t1 with
          free_ := insertFree t.max_bytes tok st.alloc.t1.free_ } },
        trace := st.trace ++ [.rel tok t.ref_counter false true] }
    else some { st with trace := st.trace ++ [.rel tok t.ref_counter false false] }

/-! ## The assignment pass (`StorageAllocator`) -/

/-- The prototype loop of `StorageAllocator::CreateToken`. -/
def assignTokens (can_realloc : Bool) : List Nat → AssignState → Option (AssignState × List Nat)
  | [], st => some (st, [])
  | p :: rest, st => do
      let (t, st1) ← assignOne can_realloc p st
      let (st2, ts) ← assignTokens can_realloc rest st1
      pure (st2, t :: ts)

/-- `StorageAllocator::CreateToken`: `ICHECK(!token_map_.count(op))`, look the
node up in the prototype map (`ICHECK(it != prototype_.end())`), assign each
prototype, record the result list. -/
def createTokenAssign (pm : List (Key × List Nat)) (can_realloc : Bool) (k : Key)
    (st : AssignState) : Option (AssignState × List Nat) :=
  if (lookupTM st.tmap k).isSome then none
  else do
    let protos ← lookupTM pm k
    let (st1, toks) ← assignTokens can_realloc protos st
    pure ({ st1 with tmap := st1.tmap ++ [(k, toks)] }, toks)

/-- `CheckForRelease` over a token list. -/
def releaseAll : List Nat → AssignState → Option AssignState
  | [], st => some st
  | t :: rest, st => do
      let st1 ← checkForRelease st t
      releaseAll rest st1

/-- The argument epilogue of `StorageAllocator::VisitExpr_(CallNode)`:
`tok->ref_counter -= 1; allocator_.CheckForRelease(tok)` per occurrence. -/
def decReleaseAll : List Nat → AssignState → Option AssignState
  | [], st => some st
  | t :: rest, st => do
      let st1 ← checkForRelease
        { st with arena := setTok st.arena t (fun tk =>
            { tk with ref_counter := tk.ref_counter - 1 }) } t
      decReleaseAll rest st1

mutual
/-- `GetToken` under `StorageAllocator` (the inherited base-visitor cases are
as in the liveness pass; calls collect their argument tokens first, create
the node's tokens, check the fresh tokens for immediate release, then
decrement and check every argument token). -/
def visitAssign (pm : List (Key × List Nat)) :
    Expr → AssignState → Option (AssignState × List Nat)
  | .var v, st => (lookupTM st.tmap (.inl v)).map (fun ts => (st, ts))
  | .constant nid _tys, st => createTokenAssign pm false (.inr nid) st
  | .call nid _tys args, st => do
      let (st1, argToks) ← visitAssignList pm args st
      let (st2, toks) ← createTokenAssign pm true (.inr nid) st1
      let st3 ← releaseAll toks st2
      let st4 ← decReleaseAll argToks st3
      pure (st4, toks)
  | .tuple nid fields, st => do
      let (st1, toks) ← visitAssignList pm fields st
      pure ({ st1 with tmap := st1.tmap ++ [(.inr nid, toks)] }, toks)
  | .proj nid tup i, st => do
      let (st1, toks) ← visitAssign pm tup st
      if h : i < toks.length then
        pure ({ st1 with tmap := st1.tmap ++ [(.inr nid, [toks.get ⟨i, h⟩])] },
          [toks.get ⟨i, h⟩])
      else none
  | .letE nid vid v b, st => do
      let (st1, tv) ← visitAssign pm v st
      let (st2, tb) ← visitAssign pm b { st1 with tmap := st1.tmap ++ [(.inl vid, tv)] }
      pure ({ st2 with tmap := st2.tmap ++ [(.inr nid, tb)] }, tb)
/-- Sequential `GetToken` over a node list with concatenated results (the
argument-collection loop of the call case and the field loop of the tuple
case are this same shape in the source). -/
def visitAssignList (pm : List (Key × List Nat)) :
    ExprList → AssignState → Option (AssignState × List Nat)
  | .nil, st => some (st, [])
  | .cons e rest, st => do
      let (st1, t1) ← visitAssign pm e st
      let (st2, t2) ← visitAssignList pm rest st1
      pure (st2, t1 ++ t2)
end

/-- The parameter loop of `Run` under the assignment pass. -/
def runAssignParams (pm : List (Key × List Nat)) :
    List (Nat × List TensorType) → AssignState → Option AssignState
  | [], st => some st
  | (v, _tys) :: rest, st => do
      let (st1, _) ← createTokenAssign pm false (.inl v) st
      runAssignParams pm rest st1

/-- The empty allocator (`storage_ids_` starts at 0, both free lists empty). -/
def initialAlloc : TokenAlloc := ⟨0, ⟨[], []⟩, ⟨[], []⟩⟩

/-- `StorageAllocator`'s `Run` over a function: parameters, body, then the
outputs-are-kept pin on the body's (assignment-pass) tokens.  Starts from the
arena the liveness pass produced and returns the final state and the output
token list. -/
def runAssign (pm : List (Key × List Nat)) (f : Func) (arena0 : List StorageToken) :
    Option (AssignState × List Nat) := do
  let st1 ← runAssignParams pm f.params ⟨arena0, [], initialAlloc, []⟩
  let (st2, outs) ← visitAssign pm f.body st1
  pure ({ st2 with arena := incRefs st2.arena outs }, outs)

/-! ## Serialization (`StorageAllocator::Plan`) -/

/-- The number of serialized tokens with a non-zero `device_type`
(`num_annotated_nodes`), counted per occurrence over `token_map_`. -/
def countAnnotated (arena : List StorageToken) (tmap : List (Key × List Nat)) : Int :=
  tmap.foldl (fun acc kv =>
    kv.2.foldl (fun a t => if (getTok arena t).device_type ≠ 0 then a + 1 else a) acc) 0

/-- The total number of serialized tokens (`num_nodes`). -/
def countNodes (tmap : List (Key × List Nat)) : Int :=
  tmap.foldl (fun acc kv => acc + kv.2.length) 0

/-- One node's `(storage_ids, device_types, storage_scopes)` triple. -/
def triplesOf (arena : List StorageToken) (toks : List Nat) :
    List Int × List Int × List String :=
  (toks.map (fun t => (getTok arena t).storage_id),
   toks.map (fun t => (getTok arena t).device_type),
   toks.map (fun t => (getTok arena t).storage_scope))

/-- The tail of the mixed-annotation fatal message (the missing space before
`expressions` is the source's). -/
def mixedMsgTail : String :=
  "expressions are assigned with virtual device types. Either all or none of the expressions are expected to be annotated."

/-- The `LOG(FATAL)` message of the all-or-none device-annotation check, with
both counts. -/
def mixedMsg (na n : Int) : String :=
  toString na ++ " out of " ++ toString n ++ mixedMsgTail

/-- The serialization loop and the all-or-none check of
`StorageAllocator::Plan`: build every node's triple, then abort iff some but
not all tokens are annotated. -/
def serialize (arena : List StorageToken) (tmap : List (Key × List Nat)) :
    Except String (List (Key × (List Int × List Int × List String))) :=
  let na := countAnnotated arena tmap
  let n := countNodes tmap
  if na ≠ 0 ∧ na ≠ n then .error (mixedMsg na n)
  else .ok (tmap.map (fun kv => (kv.1, triplesOf arena kv.2)))

/-- `GraphPlanMemory` / `StorageAllocator::Plan`: liveness pass, assignment
pass over the prototypes, serialization.  `none` is any failing `ICHECK` or
`LOG(FATAL)` outside the annotation check, whose fatal error is the
`Except.error` case. -/
def Plan (dm : Key → Option Int) (sm : Key → Option (List String)) (f : Func) :
    Option (Except String (List (Key × (List Int × List Int × List String)))) := do
  let (li, _louts) ← runInit dm sm f
  let (asn, _aouts) ← runAssign li.tmap f li.arena
  pure (serialize asn.arena asn.tmap)

/-! ## Observation helpers and concrete instances used by the theorems -/

/-- The token a 1D `Request` reused, if it hit. -/
def Res1.tokOf : Res1 → Option Nat
  | .hit t _ _ => some t
  | _ => none

/-- The token a 2D `Request` reused, if it hit. -/
def Res2.tokOf : Res2 → Option Nat
  | .hit t _ _ => some t
  | _ => none

/-- `added_size` of free block `fid` for a `(w, h)` request, as computed in
the 2D search loop. -/
def blockAdded (bs : List (Int × MemBlock)) (w h fid : Int) : Int :=
  let c := lookupBlock bs fid
  max c.x_ w * max c.y_ h - c.x_ * c.y_

/-- The search-loop state that holds after processing a prefix of the free
list: either nothing was selected yet, or the fields describe the last free
block that won an update.  (`Prop`-valued; used as the fold invariant.) -/
def SearchGood (arena : List StorageToken) (bs : List (Int × MemBlock)) (pdt : DType)
    (w h : Int) (L : List Int) (s : Search2D) : Prop :=
  s = search2DInit ∨
    ∃ fid ∈ L, (getTok arena (lookupBlock bs fid).token_).ttype.dtype = pdt ∧
      s.best_id = fid ∧ s.min_added = blockAdded bs w h fid ∧
      s.best_mem = ⟨0, max (lookupBlock bs fid).x_ w, max (lookupBlock bs fid).y_ h⟩

/-- Empty device map (no annotation hook registered). -/
def dmNone : Key → Option Int := fun _ => none

/-- Empty storage-scope map (every token defaults to `"global"`). -/
def smNone : Key → Option (List String) := fun _ => none

/-- A 4-byte tensor type for the chain scenario. -/
def sT : TensorType := { shape := [4], dtype := ⟨0, 8, 1⟩ }

/-- The sequential chain `let a = f(x); let b = g(a); h(b)` with parameter `x`
and the last call as the function output — the program on which the 1D
allocator's reuse genuinely fires (the planner gives `h(b)` the storage id of
`a`). -/
def sF : Func :=
  { params := [(0, [sT])],
    body := .letE 10 1 (.call 11 [sT] (.cons (.var 0) .nil))
      (.letE 12 2 (.call 13 [sT] (.cons (.var 1) .nil))
        (.call 14 [sT] (.cons (.var 2) .nil))) }

/-- A half-precision RGBA texture tensor type. -/
def c1T : TensorType := { shape := [1, 64, 64, 4], dtype := ⟨2, 16, 1⟩ }

/-- Arena for the C1 scenario: token 0 backs a released 64×64 texture block,
token 1 is a live texture prototype of the same shape and dtype. -/
def c1arena : List StorageToken :=
  [{ ref_counter := 0, max_bytes := 0, ttype := c1T, device_type := 0,
     storage_id := 0, storage_scope := "texture" },
   { ref_counter := 1, max_bytes := 0, ttype := c1T, device_type := 0,
     storage_id := -1, storage_scope := "texture" }]

/-- Allocator state for the C1 scenario: storage id 0 is a free 64×64 2D
block. -/
def c1alloc : TokenAlloc :=
  { storage_ids_ := 1, t1 := ⟨[], []⟩,
    t2 := { blocks_ := [(0, ⟨0, 64, 64⟩)], free_list_ := [0] } }

def c1st : AssignState := ⟨c1arena, [], c1alloc, []⟩

/-- A 32-bit dtype for the C4 scenario. -/
def c4dt : DType := ⟨0, 32, 1⟩

def c4T (sh : List Nat) : TensorType := { shape := sh, dtype := c4dt }

/-- Arena for the C4 scenario: tokens 0 and 1 back the two free blocks,
token 2 is the requesting prototype (a 4×4 request under `"texture"` scope,
separator 1). -/
def c4arena : List StorageToken :=
  [{ ref_counter := 0, max_bytes := 0, ttype := c4T [8, 8, 4], device_type := 0,
     storage_id := 0, storage_scope := "texture" },
   { ref_counter := 0, max_bytes := 0, ttype := c4T [3, 4, 4], device_type := 0,
     storage_id := 1, storage_scope := "texture" },
   { ref_counter := 1, max_bytes := 0, ttype := c4T [4, 4, 4], device_type := 0,
     storage_id := -1, storage_scope := "texture" }]

/-- Free blocks for the C4 scenario: id 0 is 8×8 (fits the 4×4 request with
`added = 0`), id 1 is 3×4 (needs expansion, `added = 4`, but `wasted = 0`). -/
def c4blocks : List (Int × MemBlock) := [(0, ⟨0, 8, 8⟩), (1, ⟨1, 3, 4⟩)]

def c4st : Alloc2D := { blocks_ := c4blocks, free_list_ := [0, 1] }

/-- Arena for the C5 witness: token 0 is a 4-byte global prototype, token 1 a
released 4-byte token. -/
def c5arena : List StorageToken :=
  [{ ref_counter := 2, max_bytes := 0, ttype := sT, device_type := 0,
     storage_id := -1, storage_scope := "global" },
   { ref_counter := 0, max_bytes := 4, ttype := sT, device_type := 0,
     storage_id := 0, storage_scope := "global" }]

def c5st : Alloc1D := ⟨[(4, 1)], [1]⟩

/-- The two texture tensors of the claimed flattening scenario. -/
def c6tok1 : StorageToken :=
  { defaultToken with
      ttype := { shape := [1, 64, 64, 4], dtype := ⟨2, 16, 1⟩ }
      storage_scope := "texture" }

def c6tok2 : StorageToken :=
  { defaultToken with
      ttype := { shape := [1, 32, 128, 4], dtype := ⟨2, 16, 1⟩ }
      storage_scope := "texture" }

/-- A mixed-annotation serialization input: one annotated token out of two. -/
def c9arena : List StorageToken :=
  [{ defaultToken with device_type := 1, storage_id := 0 },
   { defaultToken with storage_id := 1 }]

def c9tmap : List (Key × List Nat) := [(.inr 0, [0]), (.inr 1, [1])]

/-- A one-token global assignment state (witness input). -/
def c10st : AssignState :=
  ⟨[{ ref_counter := 1, max_bytes := 0, ttype := sT, device_type := 0,
      storage_id := -1, storage_scope := "global" }], [], initialAlloc, []⟩

/-- `assignFresh 0 c10st`'s result, written out. -/
def c10res : AssignState :=
  ⟨[{ ref_counter := 2, max_bytes := 4, ttype := sT, device_type := 0,
      storage_id := 0, storage_scope := "global" }],
   [], ⟨1, ⟨[], [0]⟩, ⟨[], []⟩⟩, [.assign 0 0, .fresh 0]⟩

/-! ## Ghost views of the assignment trace

The whole-plan claims (C2, C8) are settled by coupling the assignment pass
to a replay of the liveness pass.  Everything below is specification-side
bookkeeping over the ghost trace; the planner itself never reads any of it. -/

/-- The prototype a token currently serves: the `proto` of the last `assign`
event on it, if any.  A token serves one prototype per "life"; reuse
overwrites it. -/
def servingOf (tr : List Ev) (t : Nat) : Option Nat :=
  tr.foldl (fun acc e =>
    match e with
    | .assign t2 p => if t2 = t then some p else acc
    | _ => acc) none

/-- `1` when the fresh-allocation pin was ever applied to `t`, else `0`. -/
def pinB (tr : List Ev) (t : Nat) : Int :=
  if Ev.fresh t ∈ tr then 1 else 0

/-- How a liveness-pass state grows into a later one: the arena only gains
tokens, existing tokens keep every non-`ref_counter` field and their
`ref_counter` never decreases, and `token_map_` only gains entries. -/
def InitExt (L L' : InitState) : Prop :=
  L.arena.length ≤ L'.arena.length ∧
  (∀ p, p < L.arena.length →
    (getTok L'.arena p).max_bytes = (getTok L.arena p).max_bytes ∧
    (getTok L'.arena p).ttype = (getTok L.arena p).ttype ∧
    (getTok L'.arena p).device_type = (getTok L.arena p).device_type ∧
    (getTok L'.arena p).storage_id = (getTok L.arena p).storage_id ∧
    (getTok L'.arena p).storage_scope = (getTok L.arena p).storage_scope ∧
    (getTok L.arena p).ref_counter ≤ (getTok L'.arena p).ref_counter) ∧
  (∃ suf, L'.tmap = L.tmap ++ suf)

mutual
/-- The keys a node (and its subtree) appends to `token_map_`. -/
def exprKeys : Expr → List Key
  | .var _ => []
  | .constant nid _ => [.inr nid]
  | .call nid _ args => .inr nid :: exprKeysL args
  | .tuple nid fields => .inr nid :: exprKeysL fields
  | .proj nid tup _ => .inr nid :: exprKeys tup
  | .letE nid vid v b => .inr nid :: .inl vid :: (exprKeys v ++ exprKeys b)
def exprKeysL : ExprList → List Key
  | .nil => []
  | .cons e rest => exprKeys e ++ exprKeysL rest
end

/-- All `token_map_` keys of a function: parameter variables plus the body's
keys.  Their distinctness encodes what pointer identity gives the source: two
different nodes are different map keys. -/
def funcKeys (f : Func) : List Key :=
  f.params.map (fun pr => .inl pr.1) ++ exprKeys f.body

/-- One aligned (prototype, assignment-token) pair of a `token_map_` entry:
both in range, the assignment token has been assigned, and a pair whose token
now serves a different prototype is dead — its prototype's replayed
`ref_counter` already reached its final value, so no decrement will ever
reach the token through this pair again. -/
def PairOK (LF L : InitState) (A : AssignState) (p t : Nat) : Prop :=
  p < L.arena.length ∧ t < L.arena.length ∧
  (servingOf A.trace t).isSome ∧
  (servingOf A.trace t ≠ some p →
    (getTok L.arena p).ref_counter = (getTok LF.arena p).ref_counter)

/-- The trace-indexed safety statement of the output-pinning claim: once a
token is assigned to a prototype of `S`, every later `CheckForRelease` on it
sees a positive count and inserts nothing. -/
def SafeS (S : Nat → Prop) (tr : List Ev) : Prop :=
  ∀ i j t p r b ins, tr.get? i = some (.assign t p) → S p →
    tr.get? j = some (.rel t r b ins) → i < j → 1 ≤ r ∧ ins = false

/-- The coupling invariant between a partial liveness replay `L` and an
assignment-pass state `A`.  `LF` is the finished liveness state (its arena
holds the final reference counts), `pend` the multiset of argument-token
occurrences whose `ref_counter -= 1` is still owed by enclosing calls, and
`S` the prototypes with a reserved future increment (the function outputs,
whose pin comes after the body). -/
structure Coupled (S : Nat → Prop) (LF : InitState) (pend : List Nat)
    (L : InitState) (A : AssignState) : Prop where
  lenA : A.arena.length = LF.arena.length
  lenL : L.arena.length ≤ LF.arena.length
  tmapWfL : ∀ k ps, lookupTM L.tmap k = some ps → ∀ p ∈ ps, p < L.arena.length
  scopeA : ∀ t, (getTok A.arena t).storage_scope = (getTok LF.arena t).storage_scope
  untouched : ∀ t, servingOf A.trace t = none → getTok A.arena t = getTok LF.arena t
  servingRange : ∀ t p, servingOf A.trace t = some p →
    t < L.arena.length ∧ p < L.arena.length
  servingInj : ∀ t t' p, servingOf A.trace t = some p → servingOf A.trace t' = some p →
    t = t'
  servingFormula : ∀ t p, servingOf A.trace t = some p →
    (getTok A.arena t).ref_counter
      = (getTok LF.arena p).ref_counter - (getTok L.arena p).ref_counter
        + pinB A.trace t + (pend.count t : Int)
  pinnedServing : ∀ t, Ev.fresh t ∈ A.trace → servingOf A.trace t = some t
  nonPinnedGlobal : ∀ t p, servingOf A.trace t = some p → Ev.fresh t ∉ A.trace →
    (getTok A.arena t).storage_scope = "global"
  pendServed : ∀ t ∈ pend, (servingOf A.trace t).isSome
  align : ∀ k ts, lookupTM A.tmap k = some ts →
    ∃ ps, lookupTM L.tmap k = some ps ∧ List.Forall₂ (PairOK LF L A) ps ts
  free1WF : ∀ e ∈ A.alloc.t1.free_,
    (getTok A.arena e.2).ref_counter = 0 ∧
    (servingOf A.trace e.2).isSome ∧ Ev.fresh e.2 ∉ A.trace
  free1Nodup : (A.alloc.t1.free_.map Prod.snd).Nodup
  free2E : A.alloc.t2.free_list_ = []
  relServed : ∀ t r b ins, Ev.rel t r b ins ∈ A.trace → (servingOf A.trace t).isSome
  sServing : ∀ t p, Ev.assign t p ∈ A.trace → S p → servingOf A.trace t = some p
  safePinned : ∀ t r b ins, Ev.rel t r b ins ∈ A.trace → Ev.fresh t ∈ A.trace →
    1 ≤ r ∧ ins = false
  safe2D : ∀ t r ins, Ev.rel t r true ins ∈ A.trace → ins = false
  safeS : SafeS S A.trace
  traceProtoLt : ∀ t q, Ev.assign t q ∈ A.trace → q < L.arena.length
  servedSelf : ∀ t, (servingOf A.trace t).isSome → Ev.assign t t ∈ A.trace
  sidServed : ∀ t, (servingOf A.trace t).isSome → 0 ≤ (getTok A.arena t).storage_id
  sidCounter : 0 ≤ A.alloc.storage_ids_

/-- How an assignment state grows into a later one: the trace and
`token_map_` are append-only. -/
def AssignExt (A A' : AssignState) : Prop :=
  (∃ suf, A'.trace = A.trace ++ suf) ∧ (∃ suf, A'.tmap = A.tmap ++ suf)

/-- Per-step growth facts of the liveness pass, closed under composition:
extension, classification of variable-entry growth, classification of
reference-count changes (only variable-bound or fresh tokens are ever
incremented), and well-formedness preservation. -/
structure InitStep (L L' : InitState) : Prop where
  ext : InitExt L L'
  varGrow : ∀ v ps, lookupTM L'.tmap (.inl v) = some ps → ∀ p ∈ ps,
    (∃ v2 ps2, lookupTM L.tmap (.inl v2) = some ps2 ∧ p ∈ ps2) ∨ L.arena.length ≤ p
  touchVar : ∀ p, (getTok L'.arena p).ref_counter ≠ (getTok L.arena p).ref_counter →
    (∃ v ps, lookupTM L.tmap (.inl v) = some ps ∧ p ∈ ps) ∨ L.arena.length ≤ p
  wfPres : (∀ k ps, lookupTM L.tmap k = some ps → ∀ p ∈ ps, p < L.arena.length) →
    ∀ k ps, lookupTM L'.tmap k = some ps → ∀ p ∈ ps, p < L'.arena.length

/-- The tokens a visit returns are variable-bound at entry or fresh. -/
def RetClass (L : InitState) (ts : List Nat) : Prop :=
  ∀ t ∈ ts, (∃ v ps, lookupTM L.tmap (.inl v) = some ps ∧ t ∈ ps) ∨ L.arena.length ≤ t

/-- The map entries a step appends all use keys from `ks`. -/
def KeysAdded (L L' : InitState) (ks : List Key) : Prop :=
  ∃ suf, L'.tmap = L.tmap ++ suf ∧ ∀ kv ∈ suf, kv.1 ∈ ks

/-- `token_map_` well-formedness: every stored token index is in the arena. -/
def TmapWf (L : InitState) : Prop :=
  ∀ k ps, lookupTM L.tmap k = some ps → ∀ p ∈ ps, p < L.arena.length

/-! # Theorems -/

/-! ## Arena access lemmas -/

theorem length_setTok (ar : List StorageToken) (i : Nat) (f : StorageToken → StorageToken) :
    (setTok ar i f).length = ar.length := by
  simp [setTok]

theorem getTok_setTok_self (ar : List StorageToken) (i : Nat) (f : StorageToken → StorageToken)
    (h : i < ar.length) : getTok (setTok ar i f) i = f (getTok ar i) := by
  simp [getTok, setTok, List.getD, List.getElem?_set_self', h]

theorem getTok_setTok_ne (ar : List StorageToken) (i j : Nat) (f : StorageToken → StorageToken)
    (h : i ≠ j) : getTok (setTok ar i f) j = getTok ar j := by
  simp [getTok, setTok, List.getD, List.getElem?_set_ne h]

/-! ## C6 — texture flattening of the two scenario shapes -/

/-- C6, counterexample.  For the `(1,64,64,4)` tensor under `"texture"`
scope, the flattening produces width `64`, not the claimed `64·4 = 256`: the
channel dimension is carried separately in the `channel` field and is never
multiplied into the width. -/
theorem C6_counterexample :
    (GetSize2D c6tok1).map Texture2DShape.width = some 64 ∧
    (GetSize2D c6tok1).map Texture2DShape.width ≠ some 256 := by
  constructor
  · rfl
  · decide

/-- C6, amended.  The axis separator for a rank-4 `"texture"` tensor is 2,
and the flattening of `(1,64,64,4)` is `(width 64, height 64, channel 4)`,
that of `(1,32,128,4)` is `(width 128, height 32, channel 4)`: height is the
product of the dimensions before the separator, width the product of the
dimensions from the separator up to rank−1, and the last dimension is the
channel, not part of the width. -/
theorem C6_amended :
    DefaultTextureLayoutSeparator 4 "texture" = some 2 ∧
    GetSize2D c6tok1 = some ⟨64, 64, 4⟩ ∧
    GetSize2D c6tok2 = some ⟨128, 32, 4⟩ := by
  refine ⟨rfl, rfl, rfl⟩

/-! ## C7 — unrecognized texture conventions -/

/-- C7, counterexample.  `"texture:custom"` contains `"texture"` but the
layout separator does not default to `rank − 2 = 2`: the unknown-convention
branch of `DefaultTextureLayoutSeparator` is `LOG(FATAL)`. -/
theorem C7_counterexample :
    IsTextureStorage "texture:custom" = true ∧
    DefaultTextureLayoutSeparator 4 "texture:custom" = none ∧
    DefaultTextureLayoutSeparator 4 "texture:custom" ≠ some 2 := by
  refine ⟨by decide, rfl, by decide⟩

/-- C7, amended.  Only the exact strings `"texture"`, `"texture:weight"` and
`"texture:nhwc"` are recognized; every other scope string — including every
other string containing `"texture"`, which the dispatch layer still routes to
the 2D allocator — makes the flattening abort with the unknown-convention
fatal error instead of defaulting to `rank − 2`. -/
theorem C7_amended (r : Nat) (conv : String)
    (_htex : IsTextureStorage conv = true)
    (h1 : conv ≠ "texture") (h2 : conv ≠ "texture:weight") (h3 : conv ≠ "texture:nhwc") :
    DefaultTextureLayoutSeparator r conv = none := by
  unfold DefaultTextureLayoutSeparator
  rw [if_neg h1, if_neg h2, if_neg h3]

/-- Witness for C7_amended at `"texture:custom"`, rank 4. -/
theorem C7_amended_witness :
    DefaultTextureLayoutSeparator 4 "texture:custom" = none :=
  C7_amended 4 "texture:custom" (by decide) (by decide) (by decide) (by decide)

/-! ## C4 — the 2D search does not minimize the added size -/

/-- C4, the bug at the failing input.  With free blocks `{id 0 ↦ 8×8,
id 1 ↦ 3×4}` of identical dtype and a 4×4 request: block 0 is a
dtype-matching free block with `added = 0` (first conjunct: the search step
that processes it sets `min_added` to 0), yet `Request` selects and reuses
block 1, whose `added` is `4 ≠ 0` — because the `min_added_size == 0` arm of
the update condition compares only `wasted_size` and never re-checks the new
candidate's `added_size`, contradicting the source comment "minimize wasted
size among blocks which would not require expansion". -/
theorem C4_codebug :
    (search2DStep c4arena c4blocks c4dt 4 4 search2DInit 0).min_added = 0 ∧
    Res2.tokOf (Request2D c4arena c4st 2) = some 1 ∧
    blockAdded c4blocks 4 4 1 = 4 := by
  refine ⟨rfl, rfl, rfl⟩

/-! ## C9 — the all-or-none device-annotation check -/

/-- C9.  Serialization aborts with the fatal message carrying both counts
exactly when some but not all serialized tokens have a non-zero
`device_type`; otherwise it returns the per-node
`(storage_ids, device_types, storage_scopes)` triples. -/
theorem C9_all_or_none (arena : List StorageToken) (tmap : List (Key × List Nat)) :
    (countAnnotated arena tmap ≠ 0 → countAnnotated arena tmap ≠ countNodes tmap →
      serialize arena tmap =
        .error (toString (countAnnotated arena tmap) ++ " out of " ++
          toString (countNodes tmap) ++ mixedMsgTail)) ∧
    (countAnnotated arena tmap = 0 ∨ countAnnotated arena tmap = countNodes tmap →
      serialize arena tmap = .ok (tmap.map (fun kv => (kv.1, triplesOf arena kv.2)))) := by
  constructor
  · intro h1 h2
    unfold serialize
    rw [if_pos ⟨h1, h2⟩]
    rfl
  · intro h
    unfold serialize
    rw [if_neg]
    rintro ⟨h1, h2⟩
    rcases h with h | h
    · exact h1 h
    · exact h2 h

/-- Witness for C9_all_or_none: one annotated token out of two aborts with
the message carrying `1` and `2`. -/
theorem C9_all_or_none_witness :
    serialize c9arena c9tmap =
      .error (toString (countAnnotated c9arena c9tmap) ++ " out of " ++
        toString (countNodes c9tmap) ++ mixedMsgTail) :=
  (C9_all_or_none c9arena c9tmap).1 (by decide) (by decide)

/-! ## C1 — reuse routing in the assignment pass's CreateToken -/

/-- C1, counterexample.  A `"texture"`-scoped call-result prototype
(`can_realloc = true`) with a perfectly reusable same-dtype free 2D block
available: `TokenAllocator2D::Request` itself would reuse block token 0
(first conjunct), but `CreateToken` routes the prototype through the
fresh-allocation branch — the allocated token is the prototype `1` itself
with the fresh storage id `1`, a second block is created, and the 2D free
list still holds the reusable block — because the reuse guard is
`can_realloc && tok->storage_scope == "global"`, so a texture token never
attempts reuse at all. -/
theorem C1_counterexample :
    Res2.tokOf (Request2D c1arena c1alloc.t2 1) = some 0 ∧
    (assignOne true 1 c1st).map (fun r =>
        (r.1, r.2.alloc.t2.free_list_, (getTok r.2.arena 1).storage_id,
         r.2.alloc.t2.blocks_.length))
      = some (1, [0], 1, 2) := by
  refine ⟨rfl, rfl⟩

/-! ## C10 — prototype tokens are mutated by the assignment pass -/

/-- C10, counterexample.  Running the full planner on the chain program `sF`:
at the end of the liveness pass prototype 0 (the parameter's token) has
`storage_id = -1`, and after the assignment pass the same arena slot has
`storage_id = 0`, `ref_counter = 1` (it was 1 after liveness, was pinned to 2
by the fresh-allocation branch, and decremented once by its consumer) and
`max_bytes = 4` — the assignment pass allocates by mutating the prototype in
place, so prototypes are not read-only. -/
theorem C10_counterexample :
    (runInit dmNone smNone sF).map (fun r => (getTok r.1.arena 0).storage_id)
      = some (-1) ∧
    (do
      let (li, _) ← runInit dmNone smNone sF
      let (asn, _) ← runAssign li.tmap sF li.arena
      pure ((getTok asn.arena 0).storage_id, (getTok asn.arena 0).ref_counter,
        (getTok asn.arena 0).max_bytes))
      = some ((0 : Int), (1 : Int), (4 : Nat)) := by
  refine ⟨rfl, rfl⟩

/-! ## C8 — output tokens, counterexample -/

/-- C8, counterexample.  On the chain program `sF` the function's output
token list is `[1]`, and the assignment-pass trace contains
`rel 1 0 false true`: a `CheckForRelease` that saw the (eventual) output
token 1 with `ref_counter = 0` and inserted it into the 1D free list — it
happened while token 1 still backed the intermediate `a`, before the final
call reused it as the output.  So it is not true that every output token has
`ref_counter ≥ 1` at each `CheckForRelease` it undergoes during the pass,
nor that an output token is never inserted into a free list. -/
theorem C8_counterexample :
    (do
      let (li, _) ← runInit dmNone smNone sF
      let (asn, outs) ← runAssign li.tmap sF li.arena
      pure (outs, asn.trace.contains (Ev.rel 1 0 false true)))
      = some ([1], true) := by
  rfl

/-! ## C5 — the 1D fuzzy-match window -/

theorem scan1D_found_mem (arena : List StorageToken) (dev : Int) :
    ∀ (l : List (Nat × Nat)) (e : Nat × Nat), scan1D arena dev l = .found e → e ∈ l := by
  intro l
  induction l with
  | nil => intro e h; simp [scan1D] at h
  | cons a rest ih =>
    intro e h
    unfold scan1D at h
    split at h
    · exact List.mem_cons_of_mem a (ih e h)
    · split at h
      · cases h
      · rw [Scan1.found.injEq] at h
        exact h ▸ List.mem_cons_self a rest

/-- C5.  Whenever the 1D allocator's `Request` returns a reused token, the
token's cached size (its `max_bytes`, which keys the free list — `hwf` is
that keying discipline) lies in the integer fuzzy-match window
`[size / 16, size * 16]` around the requested size. -/
theorem C5_fuzzy_window (arena : List StorageToken) (st : Alloc1D) (proto tok : Nat)
    (hwf : ∀ e ∈ st.free_, e.1 = (getTok arena e.2).max_bytes)
    (h : Res1.tokOf (Request1D arena st proto) = some tok) :
    GetMemorySize (getTok arena proto) / match_range_ ≤ (getTok arena tok).max_bytes ∧
    (getTok arena tok).max_bytes ≤ GetMemorySize (getTok arena proto) * match_range_ := by
  unfold Request1D at h
  rw [if_neg (by decide : ¬ (match_range_ = (0 : Nat)))] at h
  set size := GetMemorySize (getTok arena proto) with hsize
  split at h
  · cases h
  · rename_i e hscan
    have hmem := scan1D_found_mem _ _ _ _ hscan
    have hfree := List.mem_of_mem_filter hmem
    have hpred := List.of_mem_filter hmem
    simp only [Bool.and_eq_true, decide_eq_true_eq] at hpred
    simp only [hit1D, Res1.tokOf, Option.some.injEq] at h
    subst h
    rw [← hwf e hfree]
    exact ⟨le_trans (Nat.div_le_self _ _) hpred.1, hpred.2⟩
  · split at h
    · cases h
    · rename_i e hscan
      have hmem := scan1D_found_mem _ _ _ _ hscan
      rw [downCands, List.mem_reverse] at hmem
      have hfree := List.mem_of_mem_filter hmem
      have hpred := List.of_mem_filter hmem
      simp only [Bool.and_eq_true, decide_eq_true_eq] at hpred
      simp only [hit1D, Res1.tokOf, Option.some.injEq] at h
      subst h
      rw [← hwf e hfree]
      refine ⟨hpred.1, le_trans (le_of_lt hpred.2) ?_⟩
      exact Nat.le_mul_of_pos_right size (by decide)
    · cases h

/-- Witness for C5_fuzzy_window: a 4-byte request reusing a cached 4-byte
token (`4/16 = 0 ≤ 4 ≤ 64`). -/
theorem C5_fuzzy_window_witness :
    GetMemorySize (getTok c5arena 0) / match_range_ ≤ (getTok c5arena 1).max_bytes ∧
    (getTok c5arena 1).max_bytes ≤ GetMemorySize (getTok c5arena 0) * match_range_ :=
  C5_fuzzy_window c5arena c5st 0 1 (by decide) (by rfl)

/-! ## C3 — accepted 2D reuses -/

theorem searchFold_good (arena : List StorageToken) (bs : List (Int × MemBlock)) (pdt : DType)
    (w h : Int) (L : List Int) :
    ∀ (l : List Int) (s : Search2D), (∀ a ∈ l, a ∈ L) → SearchGood arena bs pdt w h L s →
      SearchGood arena bs pdt w h L (l.foldl (search2DStep arena bs pdt w h) s) := by
  intro l
  induction l with
  | nil => intro s _ hs; exact hs
  | cons a rest ih =>
    intro s hsub hs
    rw [List.foldl_cons]
    apply ih _ (fun x hx => hsub x (List.mem_cons_of_mem a hx))
    unfold search2DStep
    dsimp only
    split
    · exact hs
    · rename_i hdt
      split
      · right
        refine ⟨a, hsub a (List.mem_cons_self a rest), ?_, rfl, rfl, rfl⟩
        exact not_ne_iff.mp hdt
      · exact hs

/-- C3.  Every accepted 2D reuse selects a free block whose token has the
requester's dtype and whose `added_size` — expanded area minus previous
area — is at most the requested area.  (`hbound` rules out the degenerate
`int64` request the source could not represent.) -/
theorem C3_2d_reuse (arena : List StorageToken) (st : Alloc2D) (proto tok : Nat)
    (shape : Texture2DShape)
    (hshape : GetSize2D (getTok arena proto) = some shape)
    (hbound : shape.height * shape.width < int64Max)
    (h : Res2.tokOf (Request2D arena st proto) = some tok) :
    ∃ fid ∈ st.free_list_,
      (lookupBlock st.blocks_ fid).token_ = tok ∧
      (getTok arena tok).ttype.dtype = (getTok arena proto).ttype.dtype ∧
      blockAdded st.blocks_ shape.width shape.height fid ≤ shape.width * shape.height := by
  unfold Request2D at h
  rw [hshape] at h
  dsimp only at h
  split at h
  · rename_i hacc
    simp only [Res2.tokOf, Option.some.injEq] at h
    have hgood := searchFold_good arena st.blocks_ (getTok arena proto).ttype.dtype
      shape.width shape.height st.free_list_ st.free_list_ search2DInit (fun x hx => hx)
      (Or.inl rfl)
    rcases hgood with hinit | ⟨fid, hfid, hdt, hbest, hadded, hmem⟩
    · rw [hinit] at hacc
      simp only [search2DInit] at hacc
      exact absurd hacc (not_le.mpr hbound)
    · refine ⟨fid, hfid, ?_, ?_, ?_⟩
      · rw [← hbest, h]
      · rw [← h, hbest]; exact hdt
      · rw [← hadded]
        exact le_trans hacc (le_of_eq (mul_comm _ _))
  · simp [Res2.tokOf] at h

/-- Witness for C3_2d_reuse: the 64×64 half-float request of the C1 scenario
reuses the free 64×64 block (`added = 0 ≤ 4096`, same dtype). -/
theorem C3_2d_reuse_witness :
    ∃ fid ∈ c1alloc.t2.free_list_,
      (lookupBlock c1alloc.t2.blocks_ fid).token_ = 0 ∧
      (getTok c1arena 0).ttype.dtype = (getTok c1arena 1).ttype.dtype ∧
      blockAdded c1alloc.t2.blocks_ (64 : Int) 64 fid ≤ 64 * 64 :=
  C3_2d_reuse c1arena c1alloc.t2 1 0 ⟨64, 64, 4⟩ (by rfl) (by decide) (by rfl)

/-! ## C10 and C1, amended halves -/

theorem allocTok_basic (st : AssignState) (p t0 : Nat) (st0 : AssignState)
    (hp : p < st.arena.length) (h : allocTok st p = some (t0, st0)) :
    t0 = p ∧ st0.arena.length = st.arena.length ∧
    (getTok st0.arena p).storage_id = st.alloc.storage_ids_ ∧
    (getTok st0.arena p).ref_counter = (getTok st.arena p).ref_counter ∧
    (getTok st0.arena p).device_type = (getTok st.arena p).device_type := by
  unfold allocTok at h
  split at h
  · unfold Alloc2Dfun at h
    rcases hg : GetSize2D (getTok st.arena p) with _ | shape
    · rw [hg] at h; simp at h
    · rw [hg] at h
      simp only [Option.map_some', Option.some.injEq, Prod.mk.injEq] at h
      obtain ⟨rfl, rfl⟩ := h
      refine ⟨rfl, by simp [length_setTok], ?_, ?_, ?_⟩ <;>
        rw [getTok_setTok_self _ _ _ hp]
  · simp only [Alloc1Dfun, Option.some.injEq, Prod.mk.injEq] at h
    obtain ⟨rfl, rfl⟩ := h
    refine ⟨rfl, by simp [length_setTok], ?_, ?_, ?_⟩ <;>
      rw [getTok_setTok_self _ _ _ hp]

/-- C10, amended.  Prototype tokens are not read-only: every token routed
through the fresh-allocation branch is the prototype itself, mutated in
place — it comes back with its `ref_counter` incremented and the fresh
storage id written into its `storage_id` field. -/
theorem C10_fresh_mutates (p : Nat) (st : AssignState) (t : Nat) (st' : AssignState)
    (hp : p < st.arena.length) (h : assignFresh p st = some (t, st')) :
    t = p ∧
    (getTok st'.arena p).ref_counter = (getTok st.arena p).ref_counter + 1 ∧
    (getTok st'.arena p).storage_id = st.alloc.storage_ids_ := by
  unfold assignFresh at h
  rcases halloc : allocTok st p with _ | ⟨t0, st0⟩
  · rw [halloc] at h; simp at h
  · rw [halloc] at h
    simp only [Option.map_some', Option.some.injEq, Prod.mk.injEq] at h
    obtain ⟨rfl, rfl⟩ := h
    obtain ⟨rfl, hlen, hsid, href, _hdev⟩ := allocTok_basic st p t0 st0 hp halloc
    have hp0 : t0 < st0.arena.length := hlen ▸ hp
    refine ⟨rfl, ?_, ?_⟩ <;> dsimp only <;> rw [getTok_setTok_self _ _ _ hp0]
    · rw [href]
    · exact hsid

/-- Witness for C10_fresh_mutates on the one-token global state. -/
theorem C10_fresh_mutates_witness :
    (0 : Nat) = 0 ∧
    (getTok c10res.arena 0).ref_counter = (getTok c10st.arena 0).ref_counter + 1 ∧
    (getTok c10res.arena 0).storage_id = c10st.alloc.storage_ids_ :=
  C10_fresh_mutates 0 c10st 0 c10res (by decide) (by rfl)

/-- C1, amended.  In the assignment pass's `CreateToken`, reuse is attempted
exactly for `can_realloc && storage_scope == "global"` tokens — all others,
texture tokens included, take the fresh-allocation branch — and for a
global-scoped token the `Request` dispatch never involves the 2D allocator
(its state passes through unchanged, reuse being served by the 1D pool). -/
theorem C1_routing (cr : Bool) (p : Nat) (st : AssignState) :
    (¬ (cr = true ∧ (getTok st.arena p).storage_scope = "global") →
      assignOne cr p st = assignFresh p st) ∧
    (cr = true ∧ (getTok st.arena p).storage_scope = "global" →
      assignOne cr p st = requestTok st p) ∧
    ((getTok st.arena p).storage_scope = "global" →
      (requestTok st p).map (fun r => r.2.alloc.t2)
        = (requestTok st p).map (fun _ => st.alloc.t2)) := by
  refine ⟨fun hn => ?_, fun hy => ?_, fun hscope => ?_⟩
  · unfold assignOne; rw [if_neg hn]
  · unfold assignOne; rw [if_pos hy]
  · unfold requestTok allocTok
    rw [hscope]
    rw [show IsTextureStorage "global" = false from by decide]
    simp only [Bool.false_eq_true, if_false]
    rcases Request1D st.arena st.alloc.t1 p with _ | _ | ⟨tk, ar, a1⟩ <;> simp

/-- Witness for C1_routing: the texture prototype of the C1 scenario is
routed to the fresh branch, and a global request leaves the 2D pool alone. -/
theorem C1_routing_witness :
    assignOne true 1 c1st = assignFresh 1 c1st ∧
    (requestTok c10st 0).map (fun r => r.2.alloc.t2)
      = (requestTok c10st 0).map (fun _ => c10st.alloc.t2) :=
  ⟨(C1_routing true 1 c1st).1 (by decide), (C1_routing true 0 c10st).2.2 (by decide)⟩

/-! ## Ghost-state lemmas -/

theorem lookupTM_append_of_some (m suf : List (Key × List Nat)) (k : Key) (v : List Nat)
    (h : lookupTM m k = some v) : lookupTM (m ++ suf) k = some v := by
  unfold lookupTM at *
  rcases hf : m.find? (fun e => decide (e.1 = k)) with _ | e
  · rw [hf] at h; cases h
  · rw [hf] at h
    rw [List.find?_append, hf]
    exact h

theorem lookupTM_append_of_none (m suf : List (Key × List Nat)) (k : Key)
    (h : lookupTM m k = none) : lookupTM (m ++ suf) k = lookupTM suf k := by
  unfold lookupTM at *
  rcases hf : m.find? (fun e => decide (e.1 = k)) with _ | e
  · rw [List.find?_append, hf, Option.none_or]
  · rw [hf] at h; cases h

theorem lookupTM_single (k : Key) (v : List Nat) : lookupTM [(k, v)] k = some v := by
  unfold lookupTM
  rw [List.find?_cons_of_pos _ (by simp)]
  rfl

theorem lookupTM_single_ne (k k2 : Key) (v : List Nat) (h : k2 ≠ k) :
    lookupTM [(k2, v)] k = none := by
  unfold lookupTM
  rw [List.find?_cons_of_neg _ (by simp [h]), List.find?_nil]
  rfl

theorem servingOf_append (tr suf : List Ev) (t : Nat) :
    servingOf (tr ++ suf) t =
      suf.foldl (fun acc e =>
        match e with
        | .assign t2 p => if t2 = t then some p else acc
        | _ => acc) (servingOf tr t) := by
  unfold servingOf
  rw [List.foldl_append]

theorem servingOf_snoc_assign (tr : List Ev) (t2 p t : Nat) :
    servingOf (tr ++ [.assign t2 p]) t = if t2 = t then some p else servingOf tr t := by
  rw [servingOf_append]; rfl

theorem servingOf_snoc_fresh (tr : List Ev) (t2 t : Nat) :
    servingOf (tr ++ [.fresh t2]) t = servingOf tr t := by
  rw [servingOf_append]; rfl

theorem servingOf_snoc_rel (tr : List Ev) (t2 : Nat) (r : Int) (b ins : Bool) (t : Nat) :
    servingOf (tr ++ [.rel t2 r b ins]) t = servingOf tr t := by
  rw [servingOf_append]; rfl

theorem assign_mem_of_servingOf (tr : List Ev) (t p : Nat)
    (h : servingOf tr t = some p) : Ev.assign t p ∈ tr := by
  induction tr using List.reverseRecOn with
  | nil => simp [servingOf] at h
  | append_singleton tr e ih =>
    match e with
    | .assign t2 p2 =>
      rw [servingOf_snoc_assign] at h
      by_cases ht : t2 = t
      · rw [if_pos ht] at h
        obtain rfl := ht
        obtain rfl : p2 = p := by injection h
        exact List.mem_append_right _ (List.mem_singleton.mpr rfl)
      · rw [if_neg ht] at h
        exact List.mem_append_left _ (ih h)
    | .fresh t2 =>
      rw [servingOf_snoc_fresh] at h
      exact List.mem_append_left _ (ih h)
    | .rel t2 r b ins =>
      rw [servingOf_snoc_rel] at h
      exact List.mem_append_left _ (ih h)

theorem servingOf_isSome_of_assign (tr : List Ev) (t p : Nat)
    (h : Ev.assign t p ∈ tr) : (servingOf tr t).isSome := by
  induction tr using List.reverseRecOn with
  | nil => simp at h
  | append_singleton tr e ih =>
    match e with
    | .assign t2 p2 =>
      rw [servingOf_snoc_assign]
      by_cases ht : t2 = t
      · rw [if_pos ht]; rfl
      · rw [if_neg ht]
        rcases List.mem_append.mp h with h2 | h2
        · exact ih h2
        · have heq := List.mem_singleton.mp h2
          injection heq with ha hb
          exact absurd ha.symm ht
    | .fresh t2 =>
      rw [servingOf_snoc_fresh]
      rcases List.mem_append.mp h with h2 | h2
      · exact ih h2
      · cases List.mem_singleton.mp h2
    | .rel t2 r b ins =>
      rw [servingOf_snoc_rel]
      rcases List.mem_append.mp h with h2 | h2
      · exact ih h2
      · cases List.mem_singleton.mp h2

theorem servingOf_none_no_assign (tr : List Ev) (t : Nat)
    (h : servingOf tr t = none) : ∀ p, Ev.assign t p ∉ tr := by
  intro p hmem
  have := servingOf_isSome_of_assign tr t p hmem
  rw [h] at this
  cases this

theorem pinB_snoc_not_fresh (tr : List Ev) (e : Ev) (t : Nat)
    (h : e ≠ .fresh t) : pinB (tr ++ [e]) t = pinB tr t := by
  unfold pinB
  rcases Decidable.em (Ev.fresh t ∈ tr) with hm | hm
  · rw [if_pos hm, if_pos (List.mem_append_left _ hm)]
  · rw [if_neg hm, if_neg]
    intro hc
    rcases List.mem_append.mp hc with h2 | h2
    · exact hm h2
    · exact h (List.mem_singleton.mp h2).symm

theorem pinB_snoc_fresh_self (tr : List Ev) (t : Nat) :
    pinB (tr ++ [.fresh t]) t = 1 := by
  unfold pinB
  rw [if_pos (List.mem_append_right _ (List.mem_singleton.mpr rfl))]

theorem pinB_nonneg (tr : List Ev) (t : Nat) : 0 ≤ pinB tr t := by
  unfold pinB; split <;> simp

theorem pinB_of_fresh (tr : List Ev) (t : Nat) (h : Ev.fresh t ∈ tr) : pinB tr t = 1 := by
  unfold pinB; rw [if_pos h]

theorem pinB_of_not_fresh (tr : List Ev) (t : Nat) (h : Ev.fresh t ∉ tr) : pinB tr t = 0 := by
  unfold pinB; rw [if_neg h]

theorem getTok_append_left (ar ar2 : List StorageToken) (i : Nat) (h : i < ar.length) :
    getTok (ar ++ ar2) i = getTok ar i := by
  unfold getTok
  rw [List.getD, List.getD, List.get?_append h]

theorem getTok_append_right (ar ar2 : List StorageToken) (i : Nat) (h : ar.length ≤ i) :
    getTok (ar ++ ar2) i = getTok ar2 (i - ar.length) := by
  unfold getTok
  rw [List.getD, List.getD, List.get?_append_right h]

/-! ## Liveness-pass structural facts -/

theorem InitStep.rfl_ (L : InitState) : InitStep L L := by
  refine ⟨⟨le_refl _, fun p _ => ⟨rfl, rfl, rfl, rfl, rfl, le_refl _⟩, ⟨[], by simp⟩⟩,
    ?_, ?_, ?_⟩
  · intro v ps h p hp
    exact Or.inl ⟨v, ps, h, hp⟩
  · intro p hp
    exact absurd rfl hp
  · intro h
    exact h

theorem InitStep.comp {L L' L'' : InitState} (h1 : InitStep L L') (h2 : InitStep L' L'') :
    InitStep L L'' := by
  obtain ⟨⟨hl1, hp1, s1, hs1⟩, hv1, ht1, hw1⟩ := h1
  obtain ⟨⟨hl2, hp2, s2, hs2⟩, hv2, ht2, hw2⟩ := h2
  refine ⟨⟨le_trans hl1 hl2, ?_, ⟨s1 ++ s2, by rw [hs2, hs1, List.append_assoc]⟩⟩, ?_, ?_, ?_⟩
  · intro p hp
    obtain ⟨a1, b1, c1, d1, e1, f1⟩ := hp1 p hp
    obtain ⟨a2, b2, c2, d2, e2, f2⟩ := hp2 p (lt_of_lt_of_le hp hl1)
    exact ⟨a2.trans a1, b2.trans b1, c2.trans c1, d2.trans d1, e2.trans e1, le_trans f1 f2⟩
  · intro v ps h p hp
    rcases hv2 v ps h p hp with ⟨v2, ps2, h2, hp2'⟩ | hge
    · rcases hv1 v2 ps2 h2 p hp2' with h3 | h3
      · exact Or.inl h3
      · exact Or.inr h3
    · exact Or.inr (le_trans hl1 hge)
  · intro p hp
    by_cases hmid : (getTok L'.arena p).ref_counter = (getTok L.arena p).ref_counter
    · rcases ht2 p (by rw [hmid]; exact hp) with ⟨v, ps, h2, hp2'⟩ | hge
      · rcases hv1 v ps h2 p hp2' with h3 | h3
        · exact Or.inl h3
        · exact Or.inr h3
      · exact Or.inr (le_trans hl1 hge)
    · rcases ht1 p hmid with h3 | h3
      · exact Or.inl h3
      · exact Or.inr h3
  · intro h
    exact hw2 (hw1 h)

theorem mkTokens_ref (d : Int) (tys : List TensorType) (si : Option (List String)) (i : Nat) :
    (getTok (mkTokens d tys si) i).ref_counter = 0 := by
  rcases Nat.lt_or_ge i (mkTokens d tys si).length with h | h
  · unfold getTok
    rw [List.getD, List.get?_eq_get (by exact h)]
    rcases si with _ | l
    · simp only [mkTokens, Option.getD]
      rw [List.get_map]
      rfl
    · simp only [mkTokens, Option.getD]
      rw [List.get_zipWith]
      rfl
  · unfold getTok
    rw [List.getD, List.get?_eq_none.mpr h]
    rfl

theorem mkTokens_length (d : Int) (tys : List TensorType) (si : List String)
    (h : si.length = tys.length) :
    (mkTokens d tys (some si)).length = tys.length := by
  simp [mkTokens, h]

theorem mkTokens_length_none (d : Int) (tys : List TensorType) :
    (mkTokens d tys none).length = tys.length := by
  simp [mkTokens]

theorem createTokenInit_spec (dm : Key → Option Int) (sm : Key → Option (List String))
    (k : Key) (tys : List TensorType) (L L1 : InitState) (ts : List Nat)
    (h : createTokenInit dm sm k tys L = some (L1, ts)) :
    lookupTM L.tmap k = none ∧
    ts = (List.range tys.length).map (fun i => L.arena.length + i) ∧
    L1.arena = L.arena ++ mkTokens ((dm k).getD 0) tys (sm k) ∧
    L1.tmap = L.tmap ++ [(k, ts)] ∧
    L1.arena.length = L.arena.length + tys.length ∧
    (∀ p, p < L.arena.length → getTok L1.arena p = getTok L.arena p) ∧
    (∀ p, L.arena.length ≤ p → (getTok L1.arena p).ref_counter = 0) ∧
    (∀ t ∈ ts, L.arena.length ≤ t ∧ t < L1.arena.length) := by
  unfold createTokenInit at h
  split at h
  · cases h
  · rename_i hnone
    split at h
    · cases h
    · rename_i harity
      simp only [Option.some.injEq, Prod.mk.injEq] at h
      obtain ⟨hL1, hts⟩ := h
      have hmklen : (mkTokens ((dm k).getD 0) tys (sm k)).length = tys.length := by
        rcases hsm : sm k with _ | si
        · exact mkTokens_length_none _ _
        · apply mkTokens_length
          by_contra hne
          apply harity
          refine ⟨by simp [hsm], ?_⟩
          simp only [hsm, Option.getD_some]
          exact hne
      have hlen : L1.arena.length = L.arena.length + tys.length := by
        rw [← hL1]
        simp [hmklen]
      refine ⟨by rwa [Option.not_isSome_iff_eq_none] at hnone, hts.symm,
        by rw [← hL1], by rw [← hL1]; dsimp only; rw [hts], hlen, ?_, ?_, ?_⟩
      · intro p hp
        rw [← hL1]
        exact getTok_append_left _ _ _ hp
      · intro p hp
        rw [← hL1]
        dsimp only
        rw [getTok_append_right _ _ _ hp]
        exact mkTokens_ref _ _ _ _
      · intro t ht
        rw [← hts] at ht
        simp only [List.mem_map, List.mem_range] at ht
        obtain ⟨i, hi, rfl⟩ := ht
        exact ⟨Nat.le_add_right _ _, by rw [hlen]; exact Nat.add_lt_add_left hi _⟩

theorem incRefs_cons (ar : List StorageToken) (t : Nat) (ts : List Nat) :
    incRefs ar (t :: ts) =
      incRefs (setTok ar t (fun tk => { tk with ref_counter := tk.ref_counter + 1 })) ts := by
  rfl

theorem setTok_oob (ar : List StorageToken) (i : Nat) (f : StorageToken → StorageToken)
    (h : ar.length ≤ i) : setTok ar i f = ar := by
  unfold setTok
  exact List.set_eq_of_length_le h

theorem incRefs_length (ar : List StorageToken) (ts : List Nat) :
    (incRefs ar ts).length = ar.length := by
  induction ts generalizing ar with
  | nil => rfl
  | cons t ts ih =>
    rw [incRefs_cons, ih, length_setTok]

theorem incRefs_get_ge (ar : List StorageToken) (ts : List Nat) (p : Nat)
    (h : ar.length ≤ p) : getTok (incRefs ar ts) p = getTok ar p := by
  induction ts generalizing ar with
  | nil => rfl
  | cons t ts ih =>
    rw [incRefs_cons, ih _ (by rw [length_setTok]; exact h)]
    rcases Nat.lt_or_ge t ar.length with hlt | hge
    · exact getTok_setTok_ne _ _ _ _ (fun hc => absurd h (by rw [← hc]; exact not_le.mpr hlt))
    · rw [setTok_oob _ _ _ hge]

theorem incRefs_ref (ar : List StorageToken) (ts : List Nat) (p : Nat) (h : p < ar.length) :
    (getTok (incRefs ar ts) p).ref_counter
      = (getTok ar p).ref_counter + (ts.count p : Int) := by
  induction ts generalizing ar with
  | nil => simp [incRefs]
  | cons t ts ih =>
    rw [incRefs_cons, ih _ (by rw [length_setTok]; exact h)]
    by_cases ht : t = p
    · subst ht
      rw [getTok_setTok_self _ _ _ h, List.count_cons_self]
      dsimp only
      push_cast
      ring
    · rw [getTok_setTok_ne _ _ _ _ ht,
        List.count_cons_of_ne (fun hc => ht hc.symm)]

theorem incRefs_nonref (ar : List StorageToken) (ts : List Nat) (p : Nat) :
    (getTok (incRefs ar ts) p).max_bytes = (getTok ar p).max_bytes ∧
    (getTok (incRefs ar ts) p).ttype = (getTok ar p).ttype ∧
    (getTok (incRefs ar ts) p).device_type = (getTok ar p).device_type ∧
    (getTok (incRefs ar ts) p).storage_id = (getTok ar p).storage_id ∧
    (getTok (incRefs ar ts) p).storage_scope = (getTok ar p).storage_scope := by
  induction ts generalizing ar with
  | nil => exact ⟨rfl, rfl, rfl, rfl, rfl⟩
  | cons t ts ih =>
    rw [incRefs_cons]
    obtain ⟨h1, h2, h3, h4, h5⟩ :=
      ih (setTok ar t (fun tk => { tk with ref_counter := tk.ref_counter + 1 }))
    rw [h1, h2, h3, h4, h5]
    rcases Nat.lt_or_ge t ar.length with hlt | hge
    · by_cases ht : t = p
      · subst ht
        rw [getTok_setTok_self _ _ _ hlt]
        exact ⟨rfl, rfl, rfl, rfl, rfl⟩
      · rw [getTok_setTok_ne _ _ _ _ ht]
        exact ⟨rfl, rfl, rfl, rfl, rfl⟩
    · rw [setTok_oob _ _ _ hge]
      exact ⟨rfl, rfl, rfl, rfl, rfl⟩

theorem createTokenInit_initStep (dm : Key → Option Int) (sm : Key → Option (List String))
    (k : Key) (tys : List TensorType) (L L1 : InitState) (ts : List Nat)
    (h : createTokenInit dm sm k tys L = some (L1, ts)) :
    InitStep L L1 ∧ KeysAdded L L1 [k] ∧ RetClass L ts ∧
      (∀ t ∈ ts, t < L1.arena.length) := by
  obtain ⟨hfresh, hts, harena, htmap, hlen, hold, hnew, hrange⟩ :=
    createTokenInit_spec dm sm k tys L L1 ts h
  have hext : InitExt L L1 := by
    refine ⟨by rw [hlen]; exact Nat.le_add_right _ _, ?_, ⟨[(k, ts)], htmap⟩⟩
    intro p hp
    rw [hold p hp]
    exact ⟨rfl, rfl, rfl, rfl, rfl, le_refl _⟩
  have hvar : ∀ v ps, lookupTM L1.tmap (.inl v) = some ps → ∀ p ∈ ps,
      (∃ v2 ps2, lookupTM L.tmap (.inl v2) = some ps2 ∧ p ∈ ps2) ∨ L.arena.length ≤ p := by
    intro v ps hv p hp
    rw [htmap] at hv
    rcases hlk : lookupTM L.tmap (.inl v) with _ | ps2
    · rw [lookupTM_append_of_none _ _ _ hlk] at hv
      by_cases hk : (Sum.inl v : Key) = k
      · subst hk
        rw [lookupTM_single] at hv
        obtain rfl : ts = ps := by injection hv
        exact Or.inr (hrange p hp).1
      · rw [lookupTM_single_ne _ _ _ (fun hc => hk hc.symm)] at hv
        cases hv
    · rw [lookupTM_append_of_some _ _ _ _ hlk] at hv
      have hps := Option.some.inj hv
      exact Or.inl ⟨v, ps2, hlk, by rw [hps]; exact hp⟩
  have htouch : ∀ p, (getTok L1.arena p).ref_counter ≠ (getTok L.arena p).ref_counter →
      (∃ v ps, lookupTM L.tmap (.inl v) = some ps ∧ p ∈ ps) ∨ L.arena.length ≤ p := by
    intro p hp
    rcases Nat.lt_or_ge p L.arena.length with hlt | hge
    · rw [hold p hlt] at hp
      exact absurd rfl hp
    · exact Or.inr hge
  have hwfp : (∀ k2 ps, lookupTM L.tmap k2 = some ps → ∀ p ∈ ps, p < L.arena.length) →
      ∀ k2 ps, lookupTM L1.tmap k2 = some ps → ∀ p ∈ ps, p < L1.arena.length := by
    intro hwf k2 ps2 hlk p hp
    rw [htmap] at hlk
    rcases hlk0 : lookupTM L.tmap k2 with _ | ps3
    · rw [lookupTM_append_of_none _ _ _ hlk0] at hlk
      by_cases hk : k2 = k
      · subst hk
        rw [lookupTM_single] at hlk
        obtain rfl : ts = ps2 := by injection hlk
        exact (hrange p hp).2
      · rw [lookupTM_single_ne _ _ _ (fun hc => hk hc.symm)] at hlk
        cases hlk
    · rw [lookupTM_append_of_some _ _ _ _ hlk0] at hlk
      have hps := Option.some.inj hlk
      have := hwf k2 ps3 hlk0 p (by rw [hps]; exact hp)
      rw [hlen]
      exact lt_of_lt_of_le this (Nat.le_add_right _ _)
  exact ⟨⟨hext, hvar, htouch, hwfp⟩, ⟨[(k, ts)], htmap, by simp⟩,
    fun t ht => Or.inr (hrange t ht).1, fun t ht => (hrange t ht).2⟩

theorem RetClass_mono {L L' : InitState} (hstep : InitStep L L') {ts : List Nat}
    (h : RetClass L' ts) : RetClass L ts := by
  intro t ht
  rcases h t ht with ⟨v, ps, hlk, hm⟩ | hge
  · rcases hstep.varGrow v ps hlk t hm with h2 | h2
    · exact Or.inl h2
    · exact Or.inr h2
  · exact Or.inr (le_trans hstep.ext.1 hge)

theorem KeysAdded_mono {L L' : InitState} {ks ks2 : List Key} (h : KeysAdded L L' ks)
    (hsub : ∀ k ∈ ks, k ∈ ks2) : KeysAdded L L' ks2 := by
  obtain ⟨suf, hs, hk⟩ := h
  exact ⟨suf, hs, fun kv hkv => hsub _ (hk kv hkv)⟩

theorem KeysAdded_comp {L L' L'' : InitState} {ks : List Key}
    (h1 : KeysAdded L L' ks) (h2 : KeysAdded L' L'' ks) : KeysAdded L L'' ks := by
  obtain ⟨s1, hs1, hk1⟩ := h1
  obtain ⟨s2, hs2, hk2⟩ := h2
  refine ⟨s1 ++ s2, by rw [hs2, hs1, List.append_assoc], ?_⟩
  intro kv hkv
  rcases List.mem_append.mp hkv with h | h
  · exact hk1 kv h
  · exact hk2 kv h

/-- Composite step: a sub-visit followed by `ref_counter += 1` over a token
list classified at the композite's origin. -/
theorem incStep_initStep {L L1 : InitState} (toks : List Nat)
    (hstep : InitStep L L1) (hcls : RetClass L toks) :
    InitStep L ⟨incRefs L1.arena toks, L1.tmap⟩ := by
  refine ⟨⟨?_, ?_, ?_⟩, ?_, ?_, ?_⟩
  · dsimp only
    rw [incRefs_length]
    exact hstep.ext.1
  · intro p hp
    obtain ⟨a, b, c, d, e, f⟩ := hstep.ext.2.1 p hp
    obtain ⟨a2, b2, c2, d2, e2⟩ := incRefs_nonref L1.arena toks p
    dsimp only
    refine ⟨a2.trans a, b2.trans b, c2.trans c, d2.trans d, e2.trans e, ?_⟩
    rw [incRefs_ref _ _ _ (lt_of_lt_of_le hp hstep.ext.1)]
    have : (0 : Int) ≤ (toks.count p : Int) := by positivity
    omega
  · exact hstep.ext.2.2
  · intro v ps hv p hp
    exact hstep.varGrow v ps hv p hp
  · intro p hp
    dsimp only at hp
    rcases Nat.lt_or_ge p L1.arena.length with hlt | hge
    · rw [incRefs_ref _ _ _ hlt] at hp
      by_cases hcnt : toks.count p = 0
      · rw [hcnt] at hp
        simp only [Nat.cast_zero, add_zero] at hp
        exact hstep.touchVar p hp
      · have hmem : p ∈ toks := List.count_pos_iff_mem.mp (Nat.pos_of_ne_zero hcnt)
        exact hcls p hmem
    · rw [incRefs_get_ge _ _ _ hge] at hp
      have hge0 : L.arena.length ≤ p := le_trans hstep.ext.1 hge
      rcases Nat.lt_or_ge p L.arena.length with h2 | h2
      · exact absurd h2 (not_lt.mpr hge0)
      · exact Or.inr h2
  · intro hwf k ps hlk p hp
    dsimp only at hlk ⊢
    rw [incRefs_length]
    exact hstep.wfPres hwf k ps hlk p hp

/-- Composite step: a sub-visit followed by appending one alias entry whose
tokens are classified at the composite's origin. -/
theorem appendEntry_initStep {L L1 : InitState} (k : Key) (ts : List Nat)
    (hstep : InitStep L L1) (hcls : RetClass L ts)
    (hlt : ∀ t ∈ ts, t < L1.arena.length) :
    InitStep L ⟨L1.arena, L1.tmap ++ [(k, ts)]⟩ := by
  refine ⟨⟨hstep.ext.1, hstep.ext.2.1, ?_⟩, ?_, hstep.touchVar, ?_⟩
  · obtain ⟨suf, hs⟩ := hstep.ext.2.2
    exact ⟨suf ++ [(k, ts)], by dsimp only; rw [hs, List.append_assoc]⟩
  · intro v ps hv p hp
    dsimp only at hv
    rcases hlk : lookupTM L1.tmap (.inl v) with _ | ps2
    · rw [lookupTM_append_of_none _ _ _ hlk] at hv
      by_cases hk : (Sum.inl v : Key) = k
      · rw [← hk] at hv
        rw [lookupTM_single] at hv
        have hps := Option.some.inj hv
        exact hcls p (by rw [hps]; exact hp)
      · rw [lookupTM_single_ne _ _ _ (fun hc => hk hc.symm)] at hv
        cases hv
    · rw [lookupTM_append_of_some _ _ _ _ hlk] at hv
      have hps := Option.some.inj hv
      exact hstep.varGrow v ps2 hlk p (by rw [hps]; exact hp)
  · intro hwf k2 ps hlk p hp
    dsimp only at hlk ⊢
    rcases hlk0 : lookupTM L1.tmap k2 with _ | ps2
    · rw [lookupTM_append_of_none _ _ _ hlk0] at hlk
      by_cases hk : k2 = k
      · rw [hk] at hlk
        rw [lookupTM_single] at hlk
        have hps := Option.some.inj hlk
        exact hlt p (by rw [hps]; exact hp)
      · rw [lookupTM_single_ne _ _ _ (fun hc => hk hc.symm)] at hlk
        cases hlk
    · rw [lookupTM_append_of_some _ _ _ _ hlk0] at hlk
      have hps := Option.some.inj hlk
      exact hstep.wfPres hwf k2 ps2 hlk0 p (by rw [hps]; exact hp)

mutual
theorem initStructure (dm : Key → Option Int) (sm : Key → Option (List String)) :
    ∀ (e : Expr) (L L' : InitState) (ts : List Nat), TmapWf L →
    visitInit dm sm e L = some (L', ts) →
    InitStep L L' ∧ KeysAdded L L' (exprKeys e) ∧ RetClass L ts ∧
      (∀ t ∈ ts, t < L'.arena.length)
  | .var v, L, L', ts, hwf, h => by
    simp only [visitInit] at h
    rcases hlk : lookupTM L.tmap (.inl v) with _ | ps
    · rw [hlk] at h; cases h
    · rw [hlk] at h
      simp only [Option.map_some', Option.some.injEq, Prod.mk.injEq] at h
      obtain ⟨rfl, rfl⟩ := h
      refine ⟨InitStep.rfl_ L, ⟨[], by simp⟩, ?_, ?_⟩
      · intro t ht
        exact Or.inl ⟨v, ps, hlk, ht⟩
      · intro t ht
        exact hwf _ _ hlk t ht
  | .constant nid tys, L, L', ts, hwf, h => by
    simp only [visitInit] at h
    obtain ⟨hs, hk, hc, hlt⟩ := createTokenInit_initStep dm sm _ tys L L' ts h
    exact ⟨hs, KeysAdded_mono hk (by simp [exprKeys]), hc, hlt⟩
  | .call nid tys args, L, L', ts, hwf, h => by
    simp only [visitInit] at h
    rcases hc : createTokenInit dm sm (.inr nid) tys L with _ | ⟨L1, toks⟩ <;> rw [hc] at h
    · simp at h
    simp only [Option.bind_eq_bind, Option.some_bind] at h
    rcases hargs : visitInitArgs dm sm args L1 with _ | L2 <;> rw [hargs] at h
    · simp at h
    simp only [Option.bind_eq_bind, Option.some_bind, Option.pure_def, Option.some.injEq,
      Prod.mk.injEq] at h
    obtain ⟨rfl, rfl⟩ := h
    obtain ⟨hs1, hk1, hc1, hlt1⟩ := createTokenInit_initStep dm sm _ tys L L1 toks hc
    obtain ⟨hs2, hk2⟩ := initStructureArgs dm sm args L1 L2 (hs1.wfPres hwf) hargs
    refine ⟨hs1.comp hs2, ?_, hc1, ?_⟩
    · refine KeysAdded_comp (KeysAdded_mono hk1 ?_) (KeysAdded_mono hk2 ?_)
      · simp [exprKeys]
      · intro k hk
        simp only [exprKeys, List.mem_cons]
        exact Or.inr hk
    · intro t ht
      exact lt_of_lt_of_le (hlt1 t ht) hs2.ext.1
  | .tuple nid fields, L, L', ts, hwf, h => by
    simp only [visitInit] at h
    rcases hf : visitInitFields dm sm fields L with _ | ⟨L1, toks⟩ <;> rw [hf] at h
    · simp at h
    simp only [Option.bind_eq_bind, Option.some_bind, Option.pure_def, Option.some.injEq,
      Prod.mk.injEq] at h
    obtain ⟨rfl, rfl⟩ := h
    obtain ⟨hs1, hk1, hc1, hlt1⟩ := initStructureFields dm sm fields L L1 toks hwf hf
    refine ⟨appendEntry_initStep _ _ hs1 hc1 hlt1, ?_, hc1, hlt1⟩
    obtain ⟨suf, hsuf, hks⟩ := hk1
    refine ⟨suf ++ [(.inr nid, toks)], by dsimp only; rw [hsuf, List.append_assoc], ?_⟩
    intro kv hkv
    rcases List.mem_append.mp hkv with h2 | h2
    · simp only [exprKeys, List.mem_cons]
      exact Or.inr (hks kv h2)
    · simp [List.mem_singleton.mp h2, exprKeys]
  | .proj nid tup i, L, L', ts, hwf, h => by
    simp only [visitInit] at h
    rcases ht : visitInit dm sm tup L with _ | ⟨L1, toks⟩ <;> rw [ht] at h
    · simp at h
    simp only [Option.bind_eq_bind, Option.some_bind] at h
    split at h
    · rename_i hdim
      simp only [Option.pure_def, Option.some.injEq, Prod.mk.injEq] at h
      obtain ⟨rfl, rfl⟩ := h
      obtain ⟨hs1, hk1, hc1, hlt1⟩ := initStructure dm sm tup L L1 toks hwf ht
      have hmem : toks.get ⟨i, hdim⟩ ∈ toks := List.get_mem toks i hdim
      have hcls : RetClass L [toks.get ⟨i, hdim⟩] := by
        intro t ht2
        rw [List.mem_singleton.mp ht2]
        exact hc1 _ hmem
      have hlt : ∀ t ∈ [toks.get ⟨i, hdim⟩], t < L1.arena.length := by
        intro t ht2
        rw [List.mem_singleton.mp ht2]
        exact hlt1 _ hmem
      refine ⟨appendEntry_initStep _ _ hs1 hcls hlt, ?_, hcls, hlt⟩
      obtain ⟨suf, hsuf, hks⟩ := hk1
      refine ⟨suf ++ [(.inr nid, _)], by dsimp only; rw [hsuf, List.append_assoc], ?_⟩
      intro kv hkv
      rcases List.mem_append.mp hkv with h2 | h2
      · simp only [exprKeys, List.mem_cons]
        exact Or.inr (hks kv h2)
      · simp [List.mem_singleton.mp h2, exprKeys]
    · simp at h
  | .letE nid vid v b, L, L', ts, hwf, h => by
    simp only [visitInit] at h
    rcases hv : visitInit dm sm v L with _ | ⟨L1, tv⟩ <;> rw [hv] at h
    · simp at h
    simp only [Option.bind_eq_bind, Option.some_bind] at h
    rcases hb : visitInit dm sm b ⟨L1.arena, L1.tmap ++ [(.inl vid, tv)]⟩ with _ | ⟨L2, tb⟩ <;>
      rw [hb] at h
    · simp at h
    simp only [Option.bind_eq_bind, Option.some_bind, Option.pure_def, Option.some.injEq,
      Prod.mk.injEq] at h
    obtain ⟨rfl, rfl⟩ := h
    obtain ⟨hs1, hk1, hc1, hlt1⟩ := initStructure dm sm v L L1 tv hwf hv
    have hstepVar : InitStep L ⟨L1.arena, L1.tmap ++ [(.inl vid, tv)]⟩ :=
      appendEntry_initStep _ _ hs1 hc1 hlt1
    have hwfVar : TmapWf ⟨L1.arena, L1.tmap ++ [(.inl vid, tv)]⟩ :=
      hstepVar.wfPres hwf
    obtain ⟨hs2, hk2, hc2, hlt2⟩ := initStructure dm sm b _ L2 tb hwfVar hb
    have hstep2 : InitStep L L2 := hstepVar.comp hs2
    have hcls : RetClass L tb := RetClass_mono hstepVar hc2
    refine ⟨appendEntry_initStep _ _ hstep2 hcls hlt2, ?_, hcls, hlt2⟩
    obtain ⟨s2, hsuf2, hks2⟩ := hk2
    obtain ⟨s1, hsuf1, hks1⟩ := hk1
    refine ⟨s1 ++ [(.inl vid, tv)] ++ s2 ++ [(.inr nid, tb)], ?_, ?_⟩
    · dsimp only
      rw [hsuf2]
      dsimp only
      rw [hsuf1]
      simp [List.append_assoc]
    · intro kv hkv
      simp only [List.mem_append, List.mem_singleton] at hkv
      simp only [exprKeys, List.mem_cons, List.mem_append]
      rcases hkv with ((h2 | h2) | h2) | h2
      · exact Or.inr (Or.inr (Or.inl (hks1 kv h2)))
      · rw [h2]
        exact Or.inr (Or.inl rfl)
      · exact Or.inr (Or.inr (Or.inr (hks2 kv h2)))
      · rw [h2]
        exact Or.inl rfl
theorem initStructureArgs (dm : Key → Option Int) (sm : Key → Option (List String)) :
    ∀ (es : ExprList) (L L' : InitState), TmapWf L →
    visitInitArgs dm sm es L = some L' →
    InitStep L L' ∧ KeysAdded L L' (exprKeysL es)
  | .nil, L, L', hwf, h => by
    simp only [visitInitArgs, Option.some.injEq] at h
    rw [← h]
    exact ⟨InitStep.rfl_ L, ⟨[], by simp⟩⟩
  | .cons a rest, L, L', hwf, h => by
    simp only [visitInitArgs] at h
    rcases ha : visitInit dm sm a L with _ | ⟨L1, toks⟩ <;> rw [ha] at h
    · simp at h
    simp only [Option.bind_eq_bind, Option.some_bind] at h
    obtain ⟨hs1, hk1, hc1, hlt1⟩ := initStructure dm sm a L L1 toks hwf ha
    have hsInc : InitStep L ⟨incRefs L1.arena toks, L1.tmap⟩ :=
      incStep_initStep toks hs1 hc1
    have hwfInc : TmapWf ⟨incRefs L1.arena toks, L1.tmap⟩ := by
      intro k ps hlk p hp
      dsimp only at hlk ⊢
      rw [incRefs_length]
      exact hs1.wfPres hwf k ps hlk p hp
    obtain ⟨hs2, hk2⟩ := initStructureArgs dm sm rest _ L' hwfInc h
    refine ⟨hsInc.comp hs2, ?_⟩
    have hkInc : KeysAdded L ⟨incRefs L1.arena toks, L1.tmap⟩ (exprKeysL (.cons a rest)) := by
      obtain ⟨suf, hsuf, hks⟩ := hk1
      refine ⟨suf, by dsimp only; rw [hsuf], ?_⟩
      intro kv hkv
      simp only [exprKeysL, List.mem_append]
      exact Or.inl (hks kv hkv)
    refine KeysAdded_comp hkInc (KeysAdded_mono hk2 ?_)
    intro k hk
    simp only [exprKeysL, List.mem_append]
    exact Or.inr hk
theorem initStructureFields (dm : Key → Option Int) (sm : Key → Option (List String)) :
    ∀ (es : ExprList) (L L' : InitState) (ts : List Nat), TmapWf L →
    visitInitFields dm sm es L = some (L', ts) →
    InitStep L L' ∧ KeysAdded L L' (exprKeysL es) ∧ RetClass L ts ∧
      (∀ t ∈ ts, t < L'.arena.length)
  | .nil, L, L', ts, hwf, h => by
    simp only [visitInitFields, Option.some.injEq, Prod.mk.injEq] at h
    obtain ⟨rfl, rfl⟩ := h
    refine ⟨InitStep.rfl_ L, ⟨[], by simp⟩, ?_, ?_⟩
    · intro t ht
      cases ht
    · intro t ht
      cases ht
  | .cons f rest, L, L', ts, hwf, h => by
    simp only [visitInitFields] at h
    rcases hf : visitInit dm sm f L with _ | ⟨L1, t1⟩ <;> rw [hf] at h
    · simp at h
    simp only [Option.bind_eq_bind, Option.some_bind] at h
    rcases hrest : visitInitFields dm sm rest L1 with _ | ⟨L2, t2⟩ <;> rw [hrest] at h
    · simp at h
    simp only [Option.bind_eq_bind, Option.some_bind, Option.pure_def, Option.some.injEq,
      Prod.mk.injEq] at h
    obtain ⟨rfl, rfl⟩ := h
    obtain ⟨hs1, hk1, hc1, hlt1⟩ := initStructure dm sm f L L1 t1 hwf hf
    obtain ⟨hs2, hk2, hc2, hlt2⟩ :=
      initStructureFields dm sm rest L1 L2 t2 (hs1.wfPres hwf) hrest
    refine ⟨hs1.comp hs2, ?_, ?_, ?_⟩
    · refine KeysAdded_comp (KeysAdded_mono hk1 ?_) (KeysAdded_mono hk2 ?_)
      · intro k hk
        simp only [exprKeysL, List.mem_append]
        exact Or.inl hk
      · intro k hk
        simp only [exprKeysL, List.mem_append]
        exact Or.inr hk
    · intro t ht
      rcases List.mem_append.mp ht with h2 | h2
      · exact hc1 t h2
      · exact RetClass_mono hs1 hc2 t h2
    · intro t ht
      rcases List.mem_append.mp ht with h2 | h2
      · exact lt_of_lt_of_le (hlt1 t h2) hs2.ext.1
      · exact hlt2 t h2
end

/-! ## Coupling helper lemmas -/

theorem servingOf_append_no_assign (tr suf : List Ev) (t : Nat)
    (h : ∀ q, Ev.assign t q ∉ suf) : servingOf (tr ++ suf) t = servingOf tr t := by
  induction suf generalizing tr with
  | nil => rw [List.append_nil]
  | cons e rest ih =>
    have : tr ++ e :: rest = (tr ++ [e]) ++ rest := by simp
    rw [this, ih _ (fun q hq => h q (List.mem_cons_of_mem _ hq))]
    match e with
    | .assign t2 p2 =>
      rw [servingOf_snoc_assign, if_neg]
      intro hc
      exact h p2 (by rw [hc]; exact List.mem_cons_self _ _)
    | .fresh t2 => rw [servingOf_snoc_fresh]
    | .rel t2 r b ins => rw [servingOf_snoc_rel]

theorem servingOf_isSome_mono (tr suf : List Ev) (t : Nat)
    (h : (servingOf tr t).isSome) : (servingOf (tr ++ suf) t).isSome := by
  induction suf generalizing tr with
  | nil => rw [List.append_nil]; exact h
  | cons e rest ih =>
    have he : tr ++ e :: rest = (tr ++ [e]) ++ rest := by simp
    rw [he]
    refine ih _ ?_
    match e with
    | .assign t2 p2 =>
      rw [servingOf_snoc_assign]
      split
      · rfl
      · exact h
    | .fresh t2 => rw [servingOf_snoc_fresh]; exact h
    | .rel t2 r b ins => rw [servingOf_snoc_rel]; exact h

theorem pinB_append_no_fresh (tr suf : List Ev) (t : Nat)
    (h : Ev.fresh t ∉ suf) : pinB (tr ++ suf) t = pinB tr t := by
  unfold pinB
  rcases Decidable.em (Ev.fresh t ∈ tr) with hm | hm
  · rw [if_pos hm, if_pos (List.mem_append_left _ hm)]
  · rw [if_neg hm, if_neg]
    intro hc
    rcases List.mem_append.mp hc with h2 | h2
    · exact hm h2
    · exact h h2

theorem lookupTM_none_of_keys (m : List (Key × List Nat)) (k : Key)
    (h : ∀ kv ∈ m, kv.1 ≠ k) : lookupTM m k = none := by
  unfold lookupTM
  have hf : m.find? (fun e => decide (e.1 = k)) = none := by
    rw [List.find?_eq_none]
    intro kv hkv
    simp only [decide_eq_true_eq]
    exact h kv hkv
  rw [hf]
  rfl

theorem lookupTM_mem_keys (m : List (Key × List Nat)) (k : Key) (v : List Nat)
    (h : lookupTM m k = some v) : ∃ kv ∈ m, kv.1 = k := by
  unfold lookupTM at h
  rcases hf : m.find? (fun e => decide (e.1 = k)) with _ | e
  · rw [hf] at h; cases h
  · have hm := List.find?_some hf
    simp only [decide_eq_true_eq] at hm
    exact ⟨e, List.mem_of_find?_eq_some hf, hm⟩

theorem SafeS_snoc_nonrel (S : Nat → Prop) (tr : List Ev) (e : Ev)
    (hs : SafeS S tr) (he : ∀ t r b ins, e ≠ .rel t r b ins) : SafeS S (tr ++ [e]) := by
  intro i j t p r b ins hi hS hj hij
  rcases Nat.lt_or_ge j tr.length with hj2 | hj2
  · rw [List.get?_append hj2] at hj
    rw [List.get?_append (lt_trans hij hj2)] at hi
    exact hs i j t p r b ins hi hS hj hij
  · rcases Nat.lt_or_ge j (tr ++ [e]).length with hj3 | hj3
    · have : j = tr.length := by
        simp only [List.length_append, List.length_singleton] at hj3
        omega
      rw [this, List.get?_concat_length] at hj
      exact absurd (Option.some.inj hj) (he t r b ins)
    · rw [List.get?_eq_none.mpr hj3] at hj
      cases hj

theorem SafeS_snoc_rel (S : Nat → Prop) (tr : List Ev) (t : Nat) (r : Int) (b ins : Bool)
    (hs : SafeS S tr)
    (hnew : ∀ p, Ev.assign t p ∈ tr → S p → 1 ≤ r ∧ ins = false) :
    SafeS S (tr ++ [.rel t r b ins]) := by
  intro i j t2 p r2 b2 ins2 hi hS hj hij
  rcases Nat.lt_or_ge j tr.length with hj2 | hj2
  · rw [List.get?_append hj2] at hj
    rw [List.get?_append (lt_trans hij hj2)] at hi
    exact hs i j t2 p r2 b2 ins2 hi hS hj hij
  · rcases Nat.lt_or_ge j (tr ++ [Ev.rel t r b ins]).length with hj3 | hj3
    · have hjl : j = tr.length := by
        simp only [List.length_append, List.length_singleton] at hj3
        omega
      rw [hjl, List.get?_concat_length] at hj
      have he := Option.some.inj hj
      injection he with h1 h2 h3 h4
      rw [List.get?_append (by omega : i < tr.length)] at hi
      have hmem : Ev.assign t2 p ∈ tr := List.get?_mem hi
      rw [← h1] at hmem
      obtain ⟨hr, hins⟩ := hnew p hmem hS
      rw [← h2, ← h4]
      exact ⟨hr, hins⟩
    · rw [List.get?_eq_none.mpr hj3] at hj
      cases hj

theorem insertFree_perm (k v : Nat) (l : List (Nat × Nat)) :
    (insertFree k v l).Perm ((k, v) :: l) := by
  induction l with
  | nil => exact List.Perm.refl _
  | cons e rest ih =>
    unfold insertFree
    split
    · exact List.Perm.refl _
    · exact (List.Perm.cons e ih).trans (List.Perm.swap _ _ _)

theorem couple_perm {S : Nat → Prop} {LF : InitState} {pend pend2 : List Nat}
    {L : InitState} {A : AssignState} (hperm : pend.Perm pend2)
    (hC : Coupled S LF pend L A) : Coupled S LF pend2 L A := by
  refine ⟨hC.lenA, hC.lenL, hC.tmapWfL, hC.scopeA, hC.untouched, hC.servingRange,
    hC.servingInj, ?_, hC.pinnedServing, hC.nonPinnedGlobal, ?_, hC.align, hC.free1WF,
    hC.free1Nodup, hC.free2E, hC.relServed, hC.sServing, hC.safePinned, hC.safe2D,
    hC.safeS, hC.traceProtoLt, hC.servedSelf, hC.sidServed, hC.sidCounter⟩
  · intro t p h
    rw [← hperm.count_eq]
    exact hC.servingFormula t p h
  · intro t ht
    exact hC.pendServed t (hperm.mem_iff.mpr ht)

/-- `PairOK` only reads `L.arena`, so any step that preserves the arena and
the reference counters preserves it. -/
theorem PairOK_arena {LF L : InitState} {A : AssignState} {p t : Nat}
    (m : List (Key × List Nat)) (h : PairOK LF L A p t) :
    PairOK LF ⟨L.arena, m⟩ A p t := h

/-- Generic growth of the liveness replay under an unchanged assignment
state: lengths grow within `LF`, old tokens are untouched, well-formedness
holds, old map entries survive. -/
theorem couple_Lext {S : Nat → Prop} {LF : InitState} {pend : List Nat}
    {L L1 : InitState} {A : AssignState} (hC : Coupled S LF pend L A)
    (hlen : L.arena.length ≤ L1.arena.length)
    (hlenF : L1.arena.length ≤ LF.arena.length)
    (hold : ∀ p, p < L.arena.length → getTok L1.arena p = getTok L.arena p)
    (hwf : TmapWf L1)
    (hlk : ∀ k v, lookupTM L.tmap k = some v → lookupTM L1.tmap k = some v) :
    Coupled S LF pend L1 A := by
  refine ⟨hC.lenA, hlenF, hwf, hC.scopeA, hC.untouched, ?_, hC.servingInj, ?_,
    hC.pinnedServing, hC.nonPinnedGlobal, hC.pendServed, ?_, hC.free1WF, hC.free1Nodup,
    hC.free2E, hC.relServed, hC.sServing, hC.safePinned, hC.safe2D, hC.safeS, ?_,
    hC.servedSelf, hC.sidServed, hC.sidCounter⟩
  · intro t p h
    obtain ⟨h1, h2⟩ := hC.servingRange t p h
    exact ⟨lt_of_lt_of_le h1 hlen, lt_of_lt_of_le h2 hlen⟩
  · intro t p h
    rw [hold p (hC.servingRange t p h).2]
    exact hC.servingFormula t p h
  · intro k ts hk
    obtain ⟨ps, hps, hpairs⟩ := hC.align k ts hk
    refine ⟨ps, hlk k ps hps, ?_⟩
    refine hpairs.imp ?_
    intro p t hp
    obtain ⟨hp1, hp2, hp3, hp4⟩ := hp
    refine ⟨lt_of_lt_of_le hp1 hlen, lt_of_lt_of_le hp2 hlen, hp3, ?_⟩
    intro hne
    rw [hold p hp1]
    exact hp4 hne
  · intro t q h
    exact lt_of_lt_of_le (hC.traceProtoLt t q h) hlen

/-- Replaying `StorageAllocaInit::CreateToken` on the liveness side leaves
the coupling intact. -/
theorem couple_createInitReplay {S : Nat → Prop} {LF : InitState} {pend : List Nat}
    {L L1 : InitState} {A : AssignState} {ps : List Nat}
    (dm : Key → Option Int) (sm : Key → Option (List String)) (k : Key)
    (tys : List TensorType)
    (hC : Coupled S LF pend L A)
    (h : createTokenInit dm sm k tys L = some (L1, ps))
    (hlenF : L1.arena.length ≤ LF.arena.length) :
    Coupled S LF pend L1 A := by
  obtain ⟨hs, _, _, _⟩ := createTokenInit_initStep dm sm k tys L L1 ps h
  obtain ⟨_, _, _, _, _, hold, _, _⟩ := createTokenInit_spec dm sm k tys L L1 ps h
  exact couple_Lext hC hs.ext.1 hlenF hold (hs.wfPres hC.tmapWfL)
    (fun k2 v hv => by
      obtain ⟨suf, hsuf⟩ := hs.ext.2.2
      rw [hsuf]
      exact lookupTM_append_of_some _ _ _ _ hv)

/-- Appending one alias entry to the liveness map. -/
theorem couple_appendL {S : Nat → Prop} {LF : InitState} {pend : List Nat}
    {L : InitState} {A : AssignState} (k : Key) (ps : List Nat)
    (hC : Coupled S LF pend L A)
    (hps : ∀ p ∈ ps, p < L.arena.length) :
    Coupled S LF pend ⟨L.arena, L.tmap ++ [(k, ps)]⟩ A := by
  refine couple_Lext hC (le_refl _) hC.lenL (fun p _ => rfl) ?_
    (fun k2 v hv => lookupTM_append_of_some _ _ _ _ hv)
  intro k2 ts hk2 p hp
  dsimp only at hk2 ⊢
  rcases hlk : lookupTM L.tmap k2 with _ | v
  · rw [lookupTM_append_of_none _ _ _ hlk] at hk2
    by_cases he : k2 = k
    · subst he
      rw [lookupTM_single] at hk2
      have hv := Option.some.inj hk2
      exact hps p (by rw [hv]; exact hp)
    · rw [lookupTM_single_ne _ _ _ (fun hc => he hc.symm)] at hk2
      cases hk2
  · rw [lookupTM_append_of_some _ _ _ _ hlk] at hk2
    have hv := Option.some.inj hk2
    exact hC.tmapWfL k2 v hlk p (by rw [hv]; exact hp)

/-- Appending one aligned entry to the assignment map. -/
theorem couple_appendA {S : Nat → Prop} {LF : InitState} {pend : List Nat}
    {L : InitState} {A : AssignState} (k : Key) (ps ts : List Nat)
    (hC : Coupled S LF pend L A)
    (hlkL : lookupTM L.tmap k = some ps)
    (hlkA : lookupTM A.tmap k = none)
    (hpairs : List.Forall₂ (PairOK LF L A) ps ts) :
    Coupled S LF pend L { A with tmap := A.tmap ++ [(k, ts)] } := by
  refine ⟨hC.lenA, hC.lenL, hC.tmapWfL, hC.scopeA, hC.untouched, hC.servingRange,
    hC.servingInj, hC.servingFormula, hC.pinnedServing, hC.nonPinnedGlobal,
    hC.pendServed, ?_, hC.free1WF, hC.free1Nodup, hC.free2E, hC.relServed,
    hC.sServing, hC.safePinned, hC.safe2D, hC.safeS, hC.traceProtoLt,
    hC.servedSelf, hC.sidServed, hC.sidCounter⟩
  intro k2 ts2 hk2
  dsimp only at hk2
  rcases hlk : lookupTM A.tmap k2 with _ | v
  · rw [lookupTM_append_of_none _ _ _ hlk] at hk2
    by_cases he : k2 = k
    · subst he
      rw [lookupTM_single] at hk2
      have hv := Option.some.inj hk2
      exact ⟨ps, hlkL, by rw [← hv]; exact hpairs⟩
    · rw [lookupTM_single_ne _ _ _ (fun hc => he hc.symm)] at hk2
      cases hk2
  · rw [lookupTM_append_of_some _ _ _ _ hlk] at hk2
    have hv := Option.some.inj hk2
    rw [← hv]
    exact hC.align k2 v hlk

/-- A still-incrementable prototype's pair survives one replayed increment on
a (possibly different) prototype `p`. -/
theorem PairOK_incHead {LF L : InitState} {A : AssignState} {q t2 p : Nat}
    (h : PairOK LF L A q t2)
    (hlt : (getTok L.arena p).ref_counter + 1 ≤ (getTok LF.arena p).ref_counter) :
    PairOK LF
      ⟨setTok L.arena p (fun tk => { tk with ref_counter := tk.ref_counter + 1 }),
       L.tmap⟩ A q t2 := by
  obtain ⟨h1, h2, h3, h4⟩ := h
  refine ⟨by rw [length_setTok]; exact h1, by rw [length_setTok]; exact h2, h3, ?_⟩
  intro hne
  have hd := h4 hne
  dsimp only
  by_cases hqp : q = p
  · subst hqp
    omega
  · rw [getTok_setTok_ne _ _ _ _ (fun hc => hqp hc.symm)]
    exact hd

/-- One replayed `ref_counter += 1` of the liveness argument loop, coupled
with owing one more pending decrement on the aligned assignment token. -/
theorem couple_inc1 {S : Nat → Prop} {LF : InitState} {pend : List Nat}
    {L : InitState} {A : AssignState} {p t : Nat}
    (hC : Coupled S LF pend L A) (hpair : PairOK LF L A p t)
    (hlt : (getTok L.arena p).ref_counter + 1 ≤ (getTok LF.arena p).ref_counter) :
    Coupled S LF (t :: pend)
      ⟨setTok L.arena p (fun tk => { tk with ref_counter := tk.ref_counter + 1 }),
       L.tmap⟩ A := by
  obtain ⟨hplt, htlt, hsome, hdead⟩ := hpair
  have hserv : servingOf A.trace t = some p := by
    by_contra hne
    have := hdead hne
    omega
  refine ⟨hC.lenA, by rw [length_setTok]; exact hC.lenL, ?_, hC.scopeA, hC.untouched,
    ?_, hC.servingInj, ?_, hC.pinnedServing, hC.nonPinnedGlobal, ?_, ?_, hC.free1WF,
    hC.free1Nodup, hC.free2E, hC.relServed, hC.sServing, hC.safePinned, hC.safe2D,
    hC.safeS, ?_, hC.servedSelf, hC.sidServed, hC.sidCounter⟩
  · intro k ps hk q hq
    dsimp only at hk ⊢
    rw [length_setTok]
    exact hC.tmapWfL k ps hk q hq
  · intro t2 q h
    obtain ⟨ha, hb⟩ := hC.servingRange t2 q h
    rw [length_setTok]
    exact ⟨ha, hb⟩
  · intro t2 q h
    by_cases ht2 : t2 = t
    · rw [ht2] at h
      have hq : q = p := Option.some.inj (h.symm.trans hserv)
      rw [ht2, hq]
      have hform := hC.servingFormula t p hserv
      simp only [getTok_setTok_self _ _ _ hplt, List.count_cons_self]
      push_cast
      push_cast at hform
      omega
    · have hq : q ≠ p := by
        intro hc
        subst hc
        exact ht2 (hC.servingInj t2 t q h hserv)
      dsimp only
      rw [getTok_setTok_ne _ _ _ _ (fun hc => hq hc.symm),
        List.count_cons_of_ne (fun hc => ht2 hc)]
      exact hC.servingFormula t2 q h
  · intro t2 ht2
    rcases List.mem_cons.mp ht2 with h2 | h2
    · rw [h2, hserv]; rfl
    · exact hC.pendServed t2 h2
  · intro k ts hk
    obtain ⟨ps, hps, hpairs⟩ := hC.align k ts hk
    exact ⟨ps, hps, hpairs.imp (fun a b hp => PairOK_incHead hp hlt)⟩
  · intro t2 q h
    rw [length_setTok]
    exact hC.traceProtoLt t2 q h

/-- The whole argument-epilogue of one liveness argument: `ref_counter += 1`
per returned token occurrence, coupled with queuing the aligned assignment
tokens as pending decrements. -/
theorem couple_incList {S : Nat → Prop} {LF : InitState} {A : AssignState} :
    ∀ (ps ts : List Nat) (pend : List Nat) (L : InitState),
    Coupled S LF pend L A → List.Forall₂ (PairOK LF L A) ps ts →
    (∀ p, p < L.arena.length →
      (getTok (incRefs L.arena ps) p).ref_counter ≤ (getTok LF.arena p).ref_counter) →
    Coupled S LF (ts.reverse ++ pend) ⟨incRefs L.arena ps, L.tmap⟩ A
  | [], [], pend, L, hC, _, _ => by
    simp only [List.reverse_nil, List.nil_append, incRefs]
    exact couple_Lext hC (le_refl _) hC.lenL (fun p _ => rfl) hC.tmapWfL
      (fun k v hv => hv)
  | p :: ps, t :: ts, pend, L, hC, hpairs, hmax => by
    have hpair := List.forall₂_cons.mp hpairs
    have hplt : p < L.arena.length := hpair.1.1
    have hlt : (getTok L.arena p).ref_counter + 1 ≤ (getTok LF.arena p).ref_counter := by
      have h1 := hmax p hplt
      rw [incRefs_cons] at h1
      rw [incRefs_ref _ _ _ (by rw [length_setTok]; exact hplt)] at h1
      rw [getTok_setTok_self _ _ _ hplt] at h1
      have hcnt : (0 : Int) ≤ (ps.count p : Int) := by positivity
      simp only at h1
      omega
    have hC1 := couple_inc1 hC hpair.1 hlt
    have hpairs1 : List.Forall₂
        (PairOK LF
          ⟨setTok L.arena p (fun tk => { tk with ref_counter := tk.ref_counter + 1 }),
           L.tmap⟩ A) ps ts :=
      hpair.2.imp (fun a b hp => PairOK_incHead hp hlt)
    have hmax1 : ∀ q, q <
        (setTok L.arena p
          (fun tk => { tk with ref_counter := tk.ref_counter + 1 })).length →
        (getTok (incRefs (setTok L.arena p
            (fun tk => { tk with ref_counter := tk.ref_counter + 1 })) ps) q).ref_counter
          ≤ (getTok LF.arena q).ref_counter := by
      intro q hq
      rw [length_setTok] at hq
      rw [← incRefs_cons]
      exact hmax q hq
    have hrec := couple_incList ps ts (t :: pend) _ hC1 hpairs1 hmax1
    rw [incRefs_cons]
    refine couple_perm ?_ hrec
    simp only [List.reverse_cons, List.append_assoc, List.singleton_append]
    exact List.Perm.refl _

/-- One `tok->ref_counter -= 1` of the assignment pass's call epilogue,
coupled with discharging one owed pending decrement. -/
theorem couple_dec1 {S : Nat → Prop} {LF : InitState} {pend : List Nat}
    {L : InitState} {A : AssignState} {t : Nat}
    (hC : Coupled S LF pend L A) (ht : t ∈ pend)
    (hdom : ∀ q, q < L.arena.length →
      (getTok L.arena q).ref_counter ≤ (getTok LF.arena q).ref_counter) :
    Coupled S LF (pend.erase t) L
      { A with
          arena := setTok A.arena t (fun tk => { tk with ref_counter := tk.ref_counter - 1 }) }
      := by
  have hsome := hC.pendServed t ht
  obtain ⟨p, hserv⟩ := Option.isSome_iff_exists.mp hsome
  obtain ⟨htl, hpl⟩ := hC.servingRange t p hserv
  have htA : t < A.arena.length := by
    rw [hC.lenA]
    exact lt_of_lt_of_le htl hC.lenL
  have hcnt1 : 1 ≤ pend.count t := List.count_pos_iff_mem.mpr ht
  refine ⟨by dsimp only; rw [length_setTok]; exact hC.lenA, hC.lenL, hC.tmapWfL, ?_, ?_,
    hC.servingRange, hC.servingInj, ?_, hC.pinnedServing, ?_, ?_, ?_, ?_, hC.free1Nodup,
    hC.free2E, hC.relServed, hC.sServing, hC.safePinned, hC.safe2D, hC.safeS,
    hC.traceProtoLt, hC.servedSelf, ?_, hC.sidCounter⟩
  · intro t2
    dsimp only
    by_cases ht2 : t2 = t
    · subst ht2
      rw [getTok_setTok_self _ _ _ htA]
      exact hC.scopeA t2
    · rw [getTok_setTok_ne _ _ _ _ (fun hc => ht2 hc.symm)]
      exact hC.scopeA t2
  · intro t2 hn
    have ht2 : t2 ≠ t := by
      intro hc
      rw [hc, hserv] at hn
      cases hn
    dsimp only
    rw [getTok_setTok_ne _ _ _ _ (fun hc => ht2 hc.symm)]
    exact hC.untouched t2 hn
  · intro t2 q h
    dsimp only
    by_cases ht2 : t2 = t
    · rw [ht2] at h
      have hq : q = p := Option.some.inj (h.symm.trans hserv)
      rw [ht2, hq]
      have hform := hC.servingFormula t p hserv
      rw [getTok_setTok_self _ _ _ htA]
      have hce : (pend.erase t).count t = pend.count t - 1 := List.count_erase_self t pend
      simp only [hce]
      push_cast [hcnt1]
      push_cast at hform
      omega
    · rw [getTok_setTok_ne _ _ _ _ (fun hc => ht2 hc.symm),
        List.count_erase_of_ne ht2]
      exact hC.servingFormula t2 q h
  · intro t2 q h hf
    dsimp only
    by_cases ht2 : t2 = t
    · rw [ht2]
      rw [getTok_setTok_self _ _ _ htA]
      rw [ht2] at h hf
      exact hC.nonPinnedGlobal t q h hf
    · rw [getTok_setTok_ne _ _ _ _ (fun hc => ht2 hc.symm)]
      exact hC.nonPinnedGlobal t2 q h hf
  · intro t2 ht2
    exact hC.pendServed t2 (List.mem_of_mem_erase ht2)
  · intro k ts hk
    exact hC.align k ts hk
  · intro e he
    obtain ⟨h0, hsome2, hfr⟩ := hC.free1WF e he
    have het : e.2 ≠ t := by
      intro hc
      obtain ⟨q2, hq2⟩ := Option.isSome_iff_exists.mp hsome2
      have hform := hC.servingFormula e.2 q2 hq2
      have hql : q2 < L.arena.length := (hC.servingRange e.2 q2 hq2).2
      have hdq := hdom q2 hql
      have hpin := pinB_nonneg A.trace t
      rw [hc] at hform
      have : (1 : Int) ≤ (pend.count t : Int) := by exact_mod_cast hcnt1
      rw [hc] at h0
      omega
    dsimp only
    rw [getTok_setTok_ne _ _ _ _ (fun hc => het hc.symm)]
    exact ⟨h0, hsome2, hfr⟩
  · intro t2 hsome2
    dsimp only
    by_cases ht2 : t2 = t
    · rw [ht2, getTok_setTok_self _ _ _ htA]
      rw [ht2] at hsome2
      exact hC.sidServed t hsome2
    · rw [getTok_setTok_ne _ _ _ _ (fun hc => ht2 hc.symm)]
      exact hC.sidServed t2 hsome2

/-- A token appearing in no `assign` event serves nothing. -/
theorem servingOf_none_of_no_assign (tr : List Ev) (t : Nat)
    (h : ∀ q, Ev.assign t q ∉ tr) : servingOf tr t = none := by
  rcases hs : servingOf tr t with _ | q
  · rfl
  · exact absurd (assign_mem_of_servingOf tr t q hs) (h q)

/-- Fresh allocation of a never-assigned prototype `p` (the `Alloc` branches
of the assignment pass, with or without the `ref_counter += 1` pin).  The
state change is abstracted by equations so that both sub-allocators and both
branches instantiate it. -/
theorem couple_assignSelf {S : Nat → Prop} {LF : InitState} {pend : List Nat}
    {L : InitState} {A A1 : AssignState} {p : Nat} (pin : Bool)
    (g : StorageToken → StorageToken)
    (hC : Coupled S LF pend L A)
    (hplt : p < L.arena.length)
    (hfreshP : ∀ t2, Ev.assign t2 p ∉ A.trace)
    (hp0 : (getTok L.arena p).ref_counter = 0)
    (harena : A1.arena = setTok A.arena p g)
    (hg_ref : ∀ tk, (g tk).ref_counter = tk.ref_counter + (if pin then 1 else 0))
    (hg_scope : ∀ tk, (g tk).storage_scope = tk.storage_scope)
    (hg_sid : 0 ≤ (g (getTok A.arena p)).storage_id)
    (htmap : A1.tmap = A.tmap)
    (htrace : A1.trace = A.trace ++ [Ev.assign p p]
      ++ (if pin then [Ev.fresh p] else []))
    (hfree1 : A1.alloc.t1.free_ = A.alloc.t1.free_)
    (hfree2 : A1.alloc.t2.free_list_ = A.alloc.t2.free_list_)
    (hsid : 0 ≤ A1.alloc.storage_ids_)
    (hscope : pin = false → (getTok A.arena p).storage_scope = "global") :
    Coupled S LF pend L A1 ∧ servingOf A1.trace p = some p := by
  have hpnoserve : servingOf A.trace p = none := by
    rcases hs : servingOf A.trace p with _ | q
    · rfl
    · exact absurd (hC.servedSelf p (by rw [hs]; rfl)) (hfreshP p)
  have hnot_pend : p ∉ pend := by
    intro hm
    have := hC.pendServed p hm
    rw [hpnoserve] at this
    cases this
  have hcnt0 : pend.count p = 0 := List.count_eq_zero.mpr hnot_pend
  have hpfresh0 : Ev.fresh p ∉ A.trace := by
    intro hm
    have := hC.pinnedServing p hm
    rw [hpnoserve] at this
    cases this
  have hpA : p < A.arena.length := by
    rw [hC.lenA]
    exact lt_of_lt_of_le hplt hC.lenL
  have huntouched := hC.untouched p hpnoserve
  have hpinSufNoAssign : ∀ t2 q,
      Ev.assign t2 q ∉ (if pin then [Ev.fresh p] else []) := by
    intro t2 q hm
    split at hm
    · simp at hm
    · simp at hm
  have hserv : ∀ t2, servingOf A1.trace t2 =
      if p = t2 then some p else servingOf A.trace t2 := by
    intro t2
    rw [htrace, servingOf_append_no_assign _ _ _ (fun q => hpinSufNoAssign t2 q),
      servingOf_snoc_assign]
  have hservP : servingOf A1.trace p = some p := by rw [hserv, if_pos rfl]
  have hpinB : ∀ t2, t2 ≠ p → pinB A1.trace t2 = pinB A.trace t2 := by
    intro t2 hne
    rw [htrace, List.append_assoc, pinB_append_no_fresh]
    intro hm
    rcases List.mem_append.mp hm with hm | hm
    · simp at hm
    · split at hm
      · simp at hm
        exact hne hm
      · simp at hm
  have hpinBP : pinB A1.trace p = (if pin then 1 else 0) := by
    rcases pin with _ | _
    · simp only [if_neg Bool.false_ne_true]
      rw [htrace]
      simp only [if_neg Bool.false_ne_true, List.append_nil]
      rw [pinB_append_no_fresh _ _ _ (by intro hm; simp at hm), pinB_of_not_fresh _ _ hpfresh0]
    · simp only [if_pos rfl]
      rw [htrace]
      simp only [if_pos rfl, ← List.append_assoc]
      exact pinB_snoc_fresh_self _ _
  have hmemtr : ∀ e, e ∈ A1.trace ↔ e ∈ A.trace ∨ e = Ev.assign p p ∨
      (pin = true ∧ e = Ev.fresh p) := by
    intro e
    rw [htrace]
    rcases pin with _ | _ <;> simp [or_assoc]
  have harena_ne : ∀ t2, t2 ≠ p → getTok A1.arena t2 = getTok A.arena t2 := by
    intro t2 hne
    rw [harena]
    exact getTok_setTok_ne _ _ _ _ (fun hc => hne hc.symm)
  have harena_p : getTok A1.arena p = g (getTok A.arena p) := by
    rw [harena]
    exact getTok_setTok_self _ _ _ hpA
  have hself_ref : (getTok A1.arena p).ref_counter
      = (getTok LF.arena p).ref_counter + (if pin then 1 else 0) := by
    rw [harena_p, hg_ref, huntouched]
  refine ⟨⟨?_, hC.lenL, hC.tmapWfL, ?_, ?_, ?_, ?_, ?_, ?_, ?_, ?_, ?_, ?_, ?_, ?_, ?_,
    ?_, ?_, ?_, ?_, ?_, ?_, ?_, hsid⟩, hservP⟩
  · rw [harena, length_setTok]
    exact hC.lenA
  · intro t2
    by_cases ht2 : t2 = p
    · rw [ht2, harena_p, hg_scope]
      exact hC.scopeA p
    · rw [harena_ne t2 ht2]
      exact hC.scopeA t2
  · intro t2 hn
    rw [hserv] at hn
    split at hn
    · cases hn
    · rename_i hne
      rw [harena_ne t2 (fun hc => hne hc.symm)]
      exact hC.untouched t2 hn
  · intro t2 q h
    rw [hserv] at h
    split at h
    · rename_i he
      obtain rfl := he
      have hq := Option.some.inj h
      rw [← hq]
      exact ⟨hplt, hplt⟩
    · exact hC.servingRange t2 q h
  · intro t2 t3 q h2 h3
    rw [hserv] at h2 h3
    split at h2 <;> split at h3
    · rename_i ha hb
      rw [← ha, ← hb]
    · rename_i ha hb
      obtain rfl := Option.some.inj h2
      exact absurd (assign_mem_of_servingOf _ _ _ h3) (hfreshP t3)
    · rename_i ha hb
      obtain rfl := Option.some.inj h3
      exact absurd (assign_mem_of_servingOf _ _ _ h2) (hfreshP t2)
    · exact hC.servingInj t2 t3 q h2 h3
  · intro t2 q h
    rw [hserv] at h
    split at h
    · rename_i he
      obtain rfl := he
      obtain rfl : p = q := Option.some.inj h
      rw [hself_ref, hpinBP, hp0, hcnt0]
      push_cast
      ring
    · rename_i hne
      have hq : q ≠ p := by
        intro hc
        rw [hc] at h
        exact absurd (assign_mem_of_servingOf _ _ _ h) (hfreshP t2)
      rw [harena_ne t2 (fun hc => hne hc.symm), hpinB t2 (fun hc => hne hc.symm)]
      exact hC.servingFormula t2 q h
  · intro t2 hm
    rw [hmemtr] at hm
    rcases hm with hm | hm | hm
    · have := hC.pinnedServing t2 hm
      rw [hserv]
      split
      · rename_i he
        rw [← he] at this
        rw [hpnoserve] at this
        cases this
      · exact this
    · cases hm
    · obtain ⟨_, he⟩ := hm
      have ht2 : t2 = p := by injection he
      rw [ht2]
      exact hservP
  · intro t2 q h hf
    rw [hserv] at h
    split at h
    · rename_i he
      obtain rfl := he
      rcases hpin : pin with _ | _
      · rw [harena_p, hg_scope]
        exact hscope hpin
      · exfalso
        apply hf
        rw [hmemtr]
        exact Or.inr (Or.inr ⟨hpin, rfl⟩)
    · rename_i hne
      rw [harena_ne t2 (fun hc => hne hc.symm)]
      refine hC.nonPinnedGlobal t2 q h ?_
      intro hm
      apply hf
      rw [hmemtr]
      exact Or.inl hm
  · intro t2 ht2
    rw [hserv]
    split
    · rfl
    · exact hC.pendServed t2 ht2
  · intro k ts hk
    rw [htmap] at hk
    obtain ⟨ps, hps, hpairs⟩ := hC.align k ts hk
    refine ⟨ps, hps, hpairs.imp ?_⟩
    intro a b hp
    obtain ⟨h1, h2, h3, h4⟩ := hp
    have hbne : b ≠ p := by
      intro hc
      rw [hc, hpnoserve] at h3
      cases h3
    refine ⟨h1, h2, by rw [hserv, if_neg (fun hc => hbne hc.symm)]; exact h3, ?_⟩
    rw [hserv, if_neg (fun hc => hbne hc.symm)]
    exact h4
  · intro e he
    rw [hfree1] at he
    obtain ⟨h0, hsome2, hfr⟩ := hC.free1WF e he
    have hene : e.2 ≠ p := by
      intro hc
      rw [hc, hpnoserve] at hsome2
      cases hsome2
    refine ⟨by rw [harena_ne _ hene]; exact h0, ?_, ?_⟩
    · rw [hserv, if_neg (fun hc => hene hc.symm)]
      exact hsome2
    · intro hm
      rw [hmemtr] at hm
      rcases hm with hm | hm | hm
      · exact hfr hm
      · cases hm
      · refine hene ?_
        have h2 := hm.2
        injection h2
  · rw [hfree1]
    exact hC.free1Nodup
  · rw [hfree2]
    exact hC.free2E
  · intro t2 r b ins hm
    rw [hmemtr] at hm
    rcases hm with hm | hm | hm
    · have := hC.relServed t2 r b ins hm
      rw [hserv]
      split
      · rfl
      · exact this
    · cases hm
    · cases hm.2
  · intro t2 q hm hS2
    rw [hmemtr] at hm
    rcases hm with hm | hm | hm
    · have := hC.sServing t2 q hm hS2
      rw [hserv]
      split
      · rename_i he
        rw [← he] at this
        rw [hpnoserve] at this
        cases this
      · exact this
    · have ht2 : t2 = p := by injection hm
      have hq : q = p := by injection hm
      rw [ht2, hq]
      exact hservP
    · cases hm.2
  · intro t2 r b ins hm hf
    rw [hmemtr] at hm
    rcases hm with hm | hm | hm
    · rw [hmemtr] at hf
      rcases hf with hf | hf | hf
      · exact hC.safePinned t2 r b ins hm hf
      · cases hf
      · have ht2 : t2 = p := by
          have h2 := hf.2
          injection h2
        rw [ht2] at hm
        exact absurd (hC.relServed p r b ins hm) (by rw [hpnoserve]; intro hc; cases hc)
    · cases hm
    · cases hm.2
  · intro t2 r ins hm
    rw [hmemtr] at hm
    rcases hm with hm | hm | hm
    · exact hC.safe2D t2 r ins hm
    · cases hm
    · cases hm.2
  · rw [htrace]
    rcases pin with _ | _
    · simp only [if_neg Bool.false_ne_true, List.append_nil]
      exact SafeS_snoc_nonrel S _ _ hC.safeS (by intro t r b ins hc; cases hc)
    · simp only [if_pos rfl, ← List.append_assoc]
      refine SafeS_snoc_nonrel S _ _ ?_ (by intro t r b ins hc; cases hc)
      exact SafeS_snoc_nonrel S _ _ hC.safeS (by intro t r b ins hc; cases hc)
  · intro t2 q hm
    rw [hmemtr] at hm
    rcases hm with hm | hm | hm
    · exact hC.traceProtoLt t2 q hm
    · have hq : q = p := by injection hm
      rw [hq]
      exact hplt
    · cases hm.2
  · intro t2 hsm
    rw [hserv] at hsm
    rw [hmemtr]
    split at hsm
    · rename_i he
      obtain rfl := he
      exact Or.inr (Or.inl rfl)
    · exact Or.inl (hC.servedSelf t2 hsm)
  · intro t2 hsm
    rw [hserv] at hsm
    split at hsm
    · rename_i he
      obtain rfl := he
      rw [harena_p]
      exact hg_sid
    · rename_i hne
      rw [harena_ne t2 (fun hc => hne hc.symm)]
      exact hC.sidServed t2 hsm

theorem scan1D_found_spec (arena : List StorageToken) (dev : Int) :
    ∀ (l : List (Nat × Nat)) (e : Nat × Nat), scan1D arena dev l = .found e →
      (getTok arena e.2).device_type = dev ∧ (getTok arena e.2).ref_counter = 0 := by
  intro l
  induction l with
  | nil => intro e h; simp [scan1D] at h
  | cons a rest ih =>
    intro e h
    unfold scan1D at h
    split at h
    · exact ih e h
    · rename_i hdev
      split at h
      · cases h
      · rename_i href
        rw [Scan1.found.injEq] at h
        subst h
        simp only [ne_eq, Decidable.not_not] at hdev href
        exact ⟨hdev, href⟩

/-- Inversion of a 1D `Request` reuse hit: the returned token comes off one
free-list entry, gets its size bumped and the prototype's count copied. -/
theorem Request1D_hit_inv (arena : List StorageToken) (st : Alloc1D) (proto tok : Nat)
    (arena2 : List StorageToken) (st2 : Alloc1D)
    (h : Request1D arena st proto = .hit tok arena2 st2) :
    ∃ e, e ∈ st.free_ ∧ tok = e.2 ∧
      arena2 = setTok arena e.2 (fun t =>
        { t with max_bytes := max (GetMemorySize (getTok arena proto)) t.max_bytes,
                 ref_counter := (getTok arena proto).ref_counter }) ∧
      st2 = { st with free_ := st.free_.erase e } ∧
      (getTok arena e.2).device_type = (getTok arena proto).device_type ∧
      (getTok arena e.2).ref_counter = 0 := by
  unfold Request1D at h
  dsimp only at h
  split at h
  · cases h
  · split at h
    · cases h
    · rename_i e hscan
      unfold hit1D at h
      rw [Res1.hit.injEq] at h
      obtain ⟨h1, h2, h3⟩ := h
      obtain ⟨hdev, href⟩ := scan1D_found_spec _ _ _ _ hscan
      have hmemU := scan1D_found_mem _ _ _ _ hscan
      have hmem : e ∈ st.free_ := by
        unfold upCands at hmemU
        exact List.mem_of_mem_filter hmemU
      exact ⟨e, hmem, h1.symm, h2.symm, h3.symm, hdev, href⟩
    · split at h
      · cases h
      · rename_i e hscan
        unfold hit1D at h
        rw [Res1.hit.injEq] at h
        obtain ⟨h1, h2, h3⟩ := h
        obtain ⟨hdev, href⟩ := scan1D_found_spec _ _ _ _ hscan
        have hmemD := scan1D_found_mem _ _ _ _ hscan
        have hmem : e ∈ st.free_ := by
          unfold downCands at hmemD
          rw [List.mem_reverse] at hmemD
          exact List.mem_of_mem_filter hmemD
        exact ⟨e, hmem, h1.symm, h2.symm, h3.symm, hdev, href⟩
      · cases h

/-- In a `snd`-distinct pair list, erasing an element removes its token for
good. -/
theorem erase_snd_ne (free : List (Nat × Nat)) (e : Nat × Nat)
    (hnd : (free.map Prod.snd).Nodup) (he : e ∈ free) :
    ∀ e2 ∈ free.erase e, e2.2 ≠ e.2 := by
  obtain ⟨l1, l2, hnm, heq, herase⟩ := List.exists_erase_eq he
  intro e2 he2 hc
  rw [herase] at he2
  rw [heq, List.map_append, List.map_cons] at hnd
  have hnm2 := (List.nodup_cons.mp (List.nodup_middle.mp hnd)).1
  apply hnm2
  rw [← List.map_append]
  rw [← hc]
  exact List.mem_map_of_mem Prod.snd he2

/-- A 1D reuse hit for a never-assigned prototype `p`: the reused token comes
off the free list, starts serving `p`, and every invariant survives. -/
theorem couple_requestHit {S : Nat → Prop} {LF : InitState} {pend : List Nat}
    {L : InitState} {A : AssignState} {p tok : Nat} {arena2 : List StorageToken}
    {t1x : Alloc1D}
    (hC : Coupled S LF pend L A)
    (hplt : p < L.arena.length)
    (hfreshP : ∀ t2, Ev.assign t2 p ∉ A.trace)
    (hp0 : (getTok L.arena p).ref_counter = 0)
    (hdom : ∀ q, q < L.arena.length →
      (getTok L.arena q).ref_counter ≤ (getTok LF.arena q).ref_counter)
    (hS : ∀ q, S q → q < L.arena.length →
      (getTok L.arena q).ref_counter < (getTok LF.arena q).ref_counter)
    (hreq : Request1D A.arena A.alloc.t1 p = .hit tok arena2 t1x) :
    Coupled S LF pend L
      { A with
          arena := arena2
          alloc := { A.alloc with t1 := t1x }
          trace := A.trace ++ [Ev.assign tok p] } ∧
    servingOf (A.trace ++ [Ev.assign tok p]) tok = some p ∧
    (∀ e2 ∈ t1x.free_, e2 ∈ A.alloc.t1.free_ ∧ e2.2 ≠ tok) := by
  obtain ⟨e, hmem, htok, harena2, ht1x, hdev, href0⟩ :=
    Request1D_hit_inv _ _ _ _ _ _ hreq
  subst htok
  obtain ⟨h0, hsome0, hfr⟩ := hC.free1WF e hmem
  obtain ⟨q0, hq0⟩ := Option.isSome_iff_exists.mp hsome0
  obtain ⟨htokL, hq0L⟩ := hC.servingRange e.2 q0 hq0
  have htokA : e.2 < A.arena.length := by
    rw [hC.lenA]; exact lt_of_lt_of_le htokL hC.lenL
  have hpA : p < A.arena.length := by
    rw [hC.lenA]; exact lt_of_lt_of_le hplt hC.lenL
  have hpnoserve : servingOf A.trace p = none := by
    rcases hs : servingOf A.trace p with _ | q
    · rfl
    · exact absurd (hC.servedSelf p (by rw [hs]; rfl)) (hfreshP p)
  have huntouched := hC.untouched p hpnoserve
  have hform0 := hC.servingFormula e.2 q0 hq0
  rw [h0, pinB_of_not_fresh _ _ hfr] at hform0
  have hdq0 := hdom q0 hq0L
  have hcnt_nonneg : (0 : Int) ≤ (pend.count e.2 : Int) := by positivity
  have hq0dead : (getTok L.arena q0).ref_counter = (getTok LF.arena q0).ref_counter := by
    omega
  have hcnt0tok : (pend.count e.2 : Int) = 0 := by omega
  have hscopeTok : (getTok A.arena e.2).storage_scope = "global" :=
    hC.nonPinnedGlobal e.2 q0 hq0 hfr
  have hq0ne : q0 ≠ p := by
    intro hc
    rw [hc] at hq0
    exact absurd (assign_mem_of_servingOf _ _ _ hq0) (hfreshP e.2)
  have hservNew : ∀ t2, servingOf (A.trace ++ [Ev.assign e.2 p]) t2 =
      if e.2 = t2 then some p else servingOf A.trace t2 := by
    intro t2
    rw [servingOf_snoc_assign]
  have hpinBNew : ∀ t2, pinB (A.trace ++ [Ev.assign e.2 p]) t2 = pinB A.trace t2 := by
    intro t2
    exact pinB_snoc_not_fresh _ _ _ (by intro hc; cases hc)
  have harena_tok : getTok arena2 e.2 =
      { getTok A.arena e.2 with
          max_bytes := max (GetMemorySize (getTok A.arena p)) (getTok A.arena e.2).max_bytes
          ref_counter := (getTok A.arena p).ref_counter } := by
    rw [harena2]
    exact getTok_setTok_self _ _ _ htokA
  have harena_ne : ∀ t2, t2 ≠ e.2 → getTok arena2 t2 = getTok A.arena t2 := by
    intro t2 hne
    rw [harena2]
    exact getTok_setTok_ne _ _ _ _ (fun hc => hne hc.symm)
  have hfree_rest : ∀ e2 ∈ t1x.free_, e2 ∈ A.alloc.t1.free_ ∧ e2.2 ≠ e.2 := by
    intro e2 he2
    rw [ht1x] at he2
    dsimp only at he2
    exact ⟨List.mem_of_mem_erase he2, erase_snd_ne _ _ hC.free1Nodup hmem e2 he2⟩
  have hmemtr : ∀ ev, ev ∈ A.trace ++ [Ev.assign e.2 p] ↔
      ev ∈ A.trace ∨ ev = Ev.assign e.2 p := by
    intro ev
    simp
  refine ⟨⟨?_, hC.lenL, hC.tmapWfL, ?_, ?_, ?_, ?_, ?_, ?_, ?_, ?_, ?_, ?_, ?_, ?_, ?_,
    ?_, ?_, ?_, ?_, ?_, ?_, ?_, hC.sidCounter⟩,
    by rw [hservNew, if_pos rfl], hfree_rest⟩
  · rw [harena2, length_setTok]
    exact hC.lenA
  · intro t2
    by_cases ht2 : t2 = e.2
    · rw [ht2, harena_tok]
      exact hC.scopeA e.2
    · rw [harena_ne t2 ht2]
      exact hC.scopeA t2
  · intro t2 hn
    rw [hservNew] at hn
    split at hn
    · cases hn
    · rename_i hne
      rw [harena_ne t2 (fun hc => hne hc.symm)]
      exact hC.untouched t2 hn
  · intro t2 q h
    rw [hservNew] at h
    split at h
    · rename_i he2
      rw [← he2]
      have hq := Option.some.inj h
      rw [← hq]
      exact ⟨htokL, hplt⟩
    · exact hC.servingRange t2 q h
  · intro t2 t3 q h2 h3
    rw [hservNew] at h2 h3
    split at h2 <;> split at h3
    · rename_i ha hb
      rw [← ha, ← hb]
    · rename_i ha hb
      obtain rfl := Option.some.inj h2
      exact absurd (assign_mem_of_servingOf _ _ _ h3) (hfreshP t3)
    · rename_i ha hb
      obtain rfl := Option.some.inj h3
      exact absurd (assign_mem_of_servingOf _ _ _ h2) (hfreshP t2)
    · exact hC.servingInj t2 t3 q h2 h3
  · intro t2 q h
    rw [hservNew] at h
    rw [hpinBNew]
    split at h
    · rename_i he2
      obtain rfl : p = q := Option.some.inj h
      rw [← he2, harena_tok]
      dsimp only
      rw [pinB_of_not_fresh _ _ hfr, hp0]
      have hFp : (getTok A.arena p).ref_counter = (getTok LF.arena p).ref_counter := by
        rw [huntouched]
      omega
    · rename_i hne
      have hq : q ≠ p := by
        intro hc
        rw [hc] at h
        exact absurd (assign_mem_of_servingOf _ _ _ h) (hfreshP t2)
      rw [harena_ne t2 (fun hc => hne hc.symm)]
      exact hC.servingFormula t2 q h
  · intro t2 hm
    rw [hmemtr] at hm
    rcases hm with hm | hm
    · have hp2 := hC.pinnedServing t2 hm
      rw [hservNew]
      split
      · rename_i he2
        exfalso
        rw [← he2] at hm
        exact hfr hm
      · exact hp2
    · cases hm
  · intro t2 q h hf
    rw [hservNew] at h
    split at h
    · rename_i he2
      rw [← he2, harena_tok]
      exact hscopeTok
    · rename_i hne
      rw [harena_ne t2 (fun hc => hne hc.symm)]
      refine hC.nonPinnedGlobal t2 q h ?_
      intro hm
      exact hf (List.mem_append_left _ hm)
  · intro t2 ht2
    rw [hservNew]
    split
    · rfl
    · exact hC.pendServed t2 ht2
  · intro k ts hk
    obtain ⟨ps, hps, hpairs⟩ := hC.align k ts hk
    refine ⟨ps, hps, hpairs.imp ?_⟩
    intro a b hp
    obtain ⟨h1, h2, h3, h4⟩ := hp
    refine ⟨h1, h2, ?_, ?_⟩
    · rw [hservNew]
      split
      · rfl
      · exact h3
    · intro hne
      rw [hservNew] at hne
      by_cases hb : e.2 = b
      · rw [if_pos hb] at hne
        by_cases hap : a = q0
        · rw [hap]
          exact hq0dead
        · refine h4 ?_
          rw [← hb, hq0]
          intro hc
          have := Option.some.inj hc
          exact hap this.symm
      · rw [if_neg hb] at hne
        exact h4 hne
  · intro e2 he2
    obtain ⟨hmem2, hne2⟩ := hfree_rest e2 he2
    obtain ⟨h02, hsome2, hfr2⟩ := hC.free1WF e2 hmem2
    refine ⟨by rw [harena_ne _ hne2]; exact h02, ?_, ?_⟩
    · rw [hservNew, if_neg (fun hc => hne2 hc.symm)]
      exact hsome2
    · intro hm
      rw [hmemtr] at hm
      rcases hm with hm | hm
      · exact hfr2 hm
      · cases hm
  · rw [ht1x]
    dsimp only
    exact List.Nodup.sublist (List.Sublist.map _ (List.erase_sublist _ _)) hC.free1Nodup
  · exact hC.free2E
  · intro t2 r b ins hm
    rw [hmemtr] at hm
    rcases hm with hm | hm
    · have := hC.relServed t2 r b ins hm
      rw [hservNew]
      split
      · rfl
      · exact this
    · cases hm
  · intro t2 q hm hS2
    rw [hmemtr] at hm
    rcases hm with hm | hm
    · have hold := hC.sServing t2 q hm hS2
      rw [hservNew]
      split
      · rename_i he2
        exfalso
        rw [← he2] at hold
        rw [hq0] at hold
        have hqq : q0 = q := by injection hold
        have := hS q0 (by rw [hqq]; exact hS2) hq0L
        omega
      · exact hold
    · have ht2 : t2 = e.2 := by injection hm
      have hqp : q = p := by injection hm
      rw [ht2, hqp, hservNew, if_pos rfl]
  · intro t2 r b ins hm hf
    rw [hmemtr] at hm
    rcases hm with hm | hm
    · refine hC.safePinned t2 r b ins hm ?_
      rcases List.mem_append.mp hf with hf2 | hf2
      · exact hf2
      · simp at hf2
    · cases hm
  · intro t2 r ins hm
    rw [hmemtr] at hm
    rcases hm with hm | hm
    · exact hC.safe2D t2 r ins hm
    · cases hm
  · exact SafeS_snoc_nonrel S _ _ hC.safeS (by intro t r b ins hc; cases hc)
  · intro t2 q hm
    rw [hmemtr] at hm
    rcases hm with hm | hm
    · exact hC.traceProtoLt t2 q hm
    · have : q = p := by injection hm
      rw [this]
      exact hplt
  · intro t2 hsm
    rw [hservNew] at hsm
    split at hsm
    · rename_i he2
      rw [← he2]
      exact List.mem_append_left _ (hC.servedSelf e.2 hsome0)
    · exact List.mem_append_left _ (hC.servedSelf t2 hsm)
  · intro t2 hsm
    rw [hservNew] at hsm
    split at hsm
    · rename_i he2
      rw [← he2, harena_tok]
      dsimp only
      exact hC.sidServed e.2 hsome0
    · rename_i hne
      rw [harena_ne t2 (fun hc => hne hc.symm)]
      exact hC.sidServed t2 hsm

theorem IsTextureStorage_global : IsTextureStorage "global" = false := by decide

theorem setTok_setTok (ar : List StorageToken) (i : Nat)
    (f g : StorageToken → StorageToken) :
    setTok (setTok ar i f) i g = setTok ar i (fun t => g (f t)) := by
  rcases Nat.lt_or_ge i ar.length with h | h
  · unfold setTok
    rw [show getTok (ar.set i (f (getTok ar i))) i = f (getTok ar i) from
      getTok_setTok_self ar i f h, List.set_set]
  · rw [setTok_oob _ _ _ (by rw [length_setTok]; exact h), setTok_oob _ _ _ h,
      setTok_oob _ _ _ h]

/-- One prototype through `StorageAllocator::CreateToken`'s per-token body:
reuse request (hit or miss) or pinned fresh allocation, for a prototype that
nothing has assigned yet. -/
theorem couple_assignOne {S : Nat → Prop} {LF : InitState} {pend : List Nat}
    {L : InitState} {A : AssignState} {p t : Nat} {A1 : AssignState} (cr : Bool)
    (hC : Coupled S LF pend L A)
    (hplt : p < L.arena.length)
    (hfreshP : ∀ t2, Ev.assign t2 p ∉ A.trace)
    (hp0 : (getTok L.arena p).ref_counter = 0)
    (hdom : ∀ q, q < L.arena.length →
      (getTok L.arena q).ref_counter ≤ (getTok LF.arena q).ref_counter)
    (hS : ∀ q, S q → q < L.arena.length →
      (getTok L.arena q).ref_counter < (getTok LF.arena q).ref_counter)
    (h : assignOne cr p A = some (t, A1)) :
    Coupled S LF pend L A1 ∧ servingOf A1.trace t = some p ∧
    (∃ suf, A1.trace = A.trace ++ suf ∧ ∀ t2 q, Ev.assign t2 q ∈ suf → q = p) ∧
    A1.tmap = A.tmap ∧
    (∀ e2 ∈ A1.alloc.t1.free_, e2 ∈ A.alloc.t1.free_ ∧ e2.2 ≠ t) ∧
    (∀ t2, (servingOf A.trace t2).isSome →
      (∀ e2 ∈ A.alloc.t1.free_, e2.2 ≠ t2) →
      servingOf A1.trace t2 = servingOf A.trace t2) := by
  have hnoservP : servingOf A.trace p = none := by
    rcases hs : servingOf A.trace p with _ | q2
    · rfl
    · exact absurd (hC.servedSelf p (by rw [hs]; rfl)) (hfreshP p)
  unfold assignOne at h
  split at h
  · -- reuse branch: can_realloc and global scope
    rename_i hguard
    obtain ⟨hcr, hscope⟩ := hguard
    unfold requestTok at h
    split at h
    · rename_i htex
      rw [hscope, IsTextureStorage_global] at htex
      cases htex
    rcases hreq : Request1D A.arena A.alloc.t1 p with _ | _ | ⟨tok, arena2, t1x⟩
    · rw [hreq] at h
      simp at h
    · -- miss: plain Alloc, no pin
      rw [hreq] at h
      dsimp only at h
      unfold allocTok at h
      split at h
      · rename_i htex
        rw [hscope, IsTextureStorage_global] at htex
        cases htex
      simp only [Alloc1Dfun, Option.some.injEq, Prod.mk.injEq] at h
      obtain ⟨hpt, hA1⟩ := h
      obtain ⟨hCnew, hserv⟩ := @couple_assignSelf S LF pend L A A1 p false
        (fun tk => { tk with
          max_bytes := GetMemorySize (getTok A.arena p)
          storage_id := A.alloc.storage_ids_ })
        hC hplt hfreshP hp0
        (by rw [← hA1])
        (by intro tk; simp)
        (by intro tk; rfl)
        (by dsimp only; exact hC.sidCounter)
        (by rw [← hA1])
        (by rw [← hA1]; simp)
        (by rw [← hA1])
        (by rw [← hA1])
        (by rw [← hA1]; dsimp only; have := hC.sidCounter; omega)
        (fun _ => hscope)
      rw [← hpt]
      refine ⟨hCnew, hserv, ⟨[Ev.assign p p], by rw [← hA1], ?_⟩,
        by rw [← hA1], ?_, ?_⟩
      · intro t2 q hm
        simp only [List.mem_singleton] at hm
        injection hm
      · intro e2 he2
        rw [← hA1] at he2
        dsimp only at he2
        refine ⟨he2, ?_⟩
        obtain ⟨_, hsome2, _⟩ := hC.free1WF e2 he2
        intro hc
        rw [hc, hnoservP] at hsome2
        cases hsome2
      · intro t2 hsm hnf
        have hne : ¬ p = t2 := by
          intro hc
          rw [← hc, hnoservP] at hsm
          cases hsm
        rw [← hA1]
        dsimp only
        rw [servingOf_snoc_assign, if_neg hne]
    · -- hit
      rw [hreq] at h
      dsimp only at h
      simp only [Option.some.injEq, Prod.mk.injEq] at h
      obtain ⟨hpt, hA1⟩ := h
      obtain ⟨hCnew, hserv, hfree⟩ := couple_requestHit hC hplt hfreshP hp0 hdom hS hreq
      rw [← hpt, ← hA1]
      refine ⟨hCnew, hserv, ⟨[Ev.assign tok p], by simp, ?_⟩, rfl, hfree, ?_⟩
      · intro t2 q hm
        simp only [List.mem_singleton] at hm
        injection hm
      · intro t2 hsm hnf
        obtain ⟨e, hmem, htokE, _, _, _, _⟩ := Request1D_hit_inv _ _ _ _ _ _ hreq
        dsimp only
        rw [servingOf_snoc_assign, if_neg]
        intro hc
        exact hnf e hmem (htokE ▸ hc)
  · -- fresh branch: Alloc plus the ref_counter += 1 pin
    rename_i hguard
    unfold assignFresh at h
    rcases halloc : allocTok A p with _ | r <;> rw [halloc] at h
    · cases h
    simp only [Option.map_some', Option.some.injEq, Prod.mk.injEq] at h
    obtain ⟨hpt, hA1⟩ := h
    unfold allocTok at halloc
    split at halloc
    · -- texture scope: the 2D allocator's Alloc
      rename_i htex
      rcases h2d : Alloc2Dfun A.arena A.alloc.t2 p A.alloc.storage_ids_ with _ | r2 <;>
        rw [h2d] at halloc
      · cases halloc
      simp only [Option.map_some', Option.some.injEq] at halloc
      unfold Alloc2Dfun at h2d
      rcases hsz : GetSize2D (getTok A.arena p) with _ | shape <;> rw [hsz] at h2d
      · cases h2d
      simp only [Option.map_some', Option.some.injEq] at h2d
      rw [← halloc, ← h2d] at hpt hA1
      dsimp only at hpt hA1
      obtain ⟨hCnew, hserv⟩ := @couple_assignSelf S LF pend L A A1 p true
        (fun tk =>
          { tk with
              storage_id := A.alloc.storage_ids_
              device_type := (getTok (setTok A.arena p
                (fun tk2 => { tk2 with storage_id := A.alloc.storage_ids_ })) p).device_type
              ref_counter := tk.ref_counter + 1 })
        hC hplt hfreshP hp0
        (by rw [← hA1]; dsimp only; rw [setTok_setTok])
        (by intro tk; simp)
        (by intro tk; rfl)
        (by dsimp only; exact hC.sidCounter)
        (by rw [← hA1])
        (by rw [← hA1]; simp)
        (by rw [← hA1])
        (by rw [← hA1])
        (by rw [← hA1]; dsimp only; have := hC.sidCounter; omega)
        (by intro hc; cases hc)
      rw [← hpt]
      refine ⟨hCnew, hserv, ⟨[Ev.assign p p, Ev.fresh p], by rw [← hA1]; simp, ?_⟩,
        by rw [← hA1], ?_, ?_⟩
      · intro t2 q hm
        rcases List.mem_cons.mp hm with hm | hm
        · injection hm
        · simp only [List.mem_singleton] at hm
          cases hm
      · intro e2 he2
        rw [← hA1] at he2
        dsimp only at he2
        refine ⟨he2, ?_⟩
        obtain ⟨_, hsome2, _⟩ := hC.free1WF e2 he2
        intro hc
        rw [hc, hnoservP] at hsome2
        cases hsome2
      · intro t2 hsm hnf
        have hne : ¬ p = t2 := by
          intro hc
          rw [← hc, hnoservP] at hsm
          cases hsm
        rw [← hA1]
        dsimp only
        rw [servingOf_snoc_fresh, servingOf_snoc_assign, if_neg hne]
    · -- non-texture scope: the 1D allocator's Alloc
      simp only [Alloc1Dfun, Option.some.injEq] at halloc
      rw [← halloc] at hpt hA1
      dsimp only at hpt hA1
      obtain ⟨hCnew, hserv⟩ := @couple_assignSelf S LF pend L A A1 p true
        (fun tk =>
          { tk with
              max_bytes := GetMemorySize (getTok A.arena p)
              storage_id := A.alloc.storage_ids_
              device_type := (getTok (setTok A.arena p
                (fun tk2 => { tk2 with
                  max_bytes := GetMemorySize (getTok A.arena p)
                  storage_id := A.alloc.storage_ids_ })) p).device_type
              ref_counter := tk.ref_counter + 1 })
        hC hplt hfreshP hp0
        (by rw [← hA1]; dsimp only; rw [setTok_setTok])
        (by intro tk; simp)
        (by intro tk; rfl)
        (by dsimp only; exact hC.sidCounter)
        (by rw [← hA1])
        (by rw [← hA1]; simp)
        (by rw [← hA1])
        (by rw [← hA1])
        (by rw [← hA1]; dsimp only; have := hC.sidCounter; omega)
        (by intro hc; cases hc)
      rw [← hpt]
      refine ⟨hCnew, hserv, ⟨[Ev.assign p p, Ev.fresh p], by rw [← hA1]; simp, ?_⟩,
        by rw [← hA1], ?_, ?_⟩
      · intro t2 q hm
        rcases List.mem_cons.mp hm with hm | hm
        · injection hm
        · simp only [List.mem_singleton] at hm
          cases hm
      · intro e2 he2
        rw [← hA1] at he2
        dsimp only at he2
        refine ⟨he2, ?_⟩
        obtain ⟨_, hsome2, _⟩ := hC.free1WF e2 he2
        intro hc
        rw [hc, hnoservP] at hsome2
        cases hsome2
      · intro t2 hsm hnf
        have hne : ¬ p = t2 := by
          intro hc
          rw [← hc, hnoservP] at hsm
          cases hsm
        rw [← hA1]
        dsimp only
        rw [servingOf_snoc_fresh, servingOf_snoc_assign, if_neg hne]


theorem forall₂_mem_right {α β : Type} {R : α → β → Prop} :
    ∀ {l1 : List α} {l2 : List β}, List.Forall₂ R l1 l2 → ∀ b ∈ l2, ∃ a ∈ l1, R a b := by
  intro l1 l2 h
  induction h with
  | nil => intro b hb; cases hb
  | @cons a b2 l1x l2x hr _ ih =>
    intro b hb
    rcases List.mem_cons.mp hb with hb | hb
    · exact ⟨a, List.mem_cons_self _ _, hb ▸ hr⟩
    · obtain ⟨a2, ha2, hr2⟩ := ih b hb
      exact ⟨a2, List.mem_cons_of_mem _ ha2, hr2⟩

/-- The prototype loop of `StorageAllocator::CreateToken` over a list of
distinct, not-yet-assigned prototypes. -/
theorem couple_assignTokens {S : Nat → Prop} {LF : InitState} (cr : Bool) :
    ∀ (ps : List Nat) (pend : List Nat) (L : InitState) (A A2 : AssignState)
      (ts : List Nat),
    Coupled S LF pend L A →
    assignTokens cr ps A = some (A2, ts) →
    (∀ p ∈ ps, p < L.arena.length ∧ (getTok L.arena p).ref_counter = 0 ∧
      ∀ t2, Ev.assign t2 p ∉ A.trace) →
    ps.Nodup →
    (∀ q, q < L.arena.length →
      (getTok L.arena q).ref_counter ≤ (getTok LF.arena q).ref_counter) →
    (∀ q, S q → q < L.arena.length →
      (getTok L.arena q).ref_counter < (getTok LF.arena q).ref_counter) →
    Coupled S LF pend L A2 ∧
    List.Forall₂ (fun p t => servingOf A2.trace t = some p) ps ts ∧
    ts.Nodup ∧
    (∀ e2 ∈ A2.alloc.t1.free_, e2 ∈ A.alloc.t1.free_ ∧ ∀ t2 ∈ ts, e2.2 ≠ t2) ∧
    (∃ suf, A2.trace = A.trace ++ suf ∧ ∀ t2 q, Ev.assign t2 q ∈ suf → q ∈ ps) ∧
    A2.tmap = A.tmap ∧
    (∀ t2, (servingOf A.trace t2).isSome →
      (∀ e2 ∈ A.alloc.t1.free_, e2.2 ≠ t2) →
      servingOf A2.trace t2 = servingOf A.trace t2)
  | [], pend, L, A, A2, ts, hC, h, hps, hnd, hdom, hS => by
    simp only [assignTokens, Option.some.injEq, Prod.mk.injEq] at h
    obtain ⟨hA2, hts⟩ := h
    rw [← hA2, ← hts]
    exact ⟨hC, List.Forall₂.nil, List.nodup_nil,
      fun e2 he2 => ⟨he2, fun t2 ht2 => absurd ht2 (List.not_mem_nil t2)⟩,
      ⟨[], by simp, fun t2 q hm => absurd hm (List.not_mem_nil _)⟩, rfl,
      fun t2 _ _ => rfl⟩
  | p :: ps, pend, L, A, A2, ts, hC, h, hps, hnd, hdom, hS => by
    simp only [assignTokens] at h
    rcases h1 : assignOne cr p A with _ | ⟨t, A1⟩ <;> rw [h1] at h
    · simp at h
    simp only [Option.bind_eq_bind, Option.some_bind] at h
    rcases h2 : assignTokens cr ps A1 with _ | ⟨A2x, tsx⟩ <;> rw [h2] at h
    · simp at h
    simp only [Option.bind_eq_bind, Option.some_bind, Option.pure_def, Option.some.injEq,
      Prod.mk.injEq] at h
    obtain ⟨hA2, hts⟩ := h
    obtain ⟨hp1, hp2, hp3⟩ := hps p (List.mem_cons_self p ps)
    obtain ⟨hC1, hserv1, ⟨suf1, hsuf1, hsufP⟩, htmap1, hfree1, hpres1⟩ :=
      couple_assignOne cr hC hp1 hp3 hp2 hdom hS h1
    have hnd2 := List.nodup_cons.mp hnd
    have hfreshRest : ∀ q ∈ ps, ∀ t2, Ev.assign t2 q ∉ A1.trace := by
      intro q hq t2 hm
      rw [hsuf1] at hm
      rcases List.mem_append.mp hm with hm | hm
      · exact (hps q (List.mem_cons_of_mem p hq)).2.2 t2 hm
      · exact hnd2.1 (by rw [← hsufP t2 q hm]; exact hq)
    obtain ⟨hC2, hserv2, hndts, hfree2, ⟨suf2, hsuf2, hsufP2⟩, htmap2, hpres2⟩ :=
      couple_assignTokens cr ps pend L A1 A2x tsx hC1 h2
        (fun q hq => ⟨(hps q (List.mem_cons_of_mem p hq)).1,
          (hps q (List.mem_cons_of_mem p hq)).2.1, hfreshRest q hq⟩)
        hnd2.2 hdom hS
    have hservT : servingOf A2x.trace t = some p := by
      rw [hpres2 t (by rw [hserv1]; rfl) (fun e2 he2 => (hfree1 e2 he2).2)]
      exact hserv1
    rw [← hA2, ← hts]
    refine ⟨hC2, List.Forall₂.cons hservT hserv2, ?_, ?_, ?_, htmap2.trans htmap1, ?_⟩
    · rw [List.nodup_cons]
      refine ⟨?_, hndts⟩
      intro hmem
      obtain ⟨q, hq, hqserv⟩ := forall₂_mem_right hserv2 t hmem
      rw [hservT] at hqserv
      exact hnd2.1 (by rw [Option.some.inj hqserv]; exact hq)
    · intro e2 he2
      obtain ⟨hm1, hne1⟩ := hfree2 e2 he2
      obtain ⟨hm0, hne0⟩ := hfree1 e2 hm1
      refine ⟨hm0, ?_⟩
      intro t2 ht2
      rcases List.mem_cons.mp ht2 with ht2 | ht2
      · rw [ht2]; exact hne0
      · exact hne1 t2 ht2
    · refine ⟨suf1 ++ suf2, by rw [hsuf2, hsuf1, List.append_assoc], ?_⟩
      intro t2 q hm
      rcases List.mem_append.mp hm with hm | hm
      · rw [hsufP t2 q hm]
        exact List.mem_cons_self p ps
      · exact List.mem_cons_of_mem p (hsufP2 t2 q hm)
    · intro t2 hsm hnf
      have hstep1 : servingOf A1.trace t2 = servingOf A.trace t2 := hpres1 t2 hsm hnf
      rw [hpres2 t2 (by rw [hstep1]; exact hsm)
        (fun e2 he2 => (hfree1 e2 he2).1 |> hnf e2), hstep1]

/-- Appending one `rel` ghost event with no state change preserves the
coupling, given the event is safe. -/
theorem couple_relSnoc {S : Nat → Prop} {LF : InitState} {pend : List Nat}
    {L : InitState} {A : AssignState} (t : Nat) (r : Int) (b ins : Bool)
    (hC : Coupled S LF pend L A)
    (hservSome : (servingOf A.trace t).isSome)
    (hsafePin : Ev.fresh t ∈ A.trace → 1 ≤ r ∧ ins = false)
    (hsafe2D : b = true → ins = false)
    (hsafeS : ∀ p, servingOf A.trace t = some p → S p → 1 ≤ r ∧ ins = false) :
    Coupled S LF pend L { A with trace := A.trace ++ [Ev.rel t r b ins] } := by
  have hservEq : ∀ t2, servingOf (A.trace ++ [Ev.rel t r b ins]) t2
      = servingOf A.trace t2 := fun t2 => servingOf_snoc_rel _ _ _ _ _ _
  have hpinEq : ∀ t2, pinB (A.trace ++ [Ev.rel t r b ins]) t2 = pinB A.trace t2 :=
    fun t2 => pinB_snoc_not_fresh _ _ _ (by intro hc; cases hc)
  have hmemtr : ∀ ev, ev ∈ A.trace ++ [Ev.rel t r b ins] ↔
      ev ∈ A.trace ∨ ev = Ev.rel t r b ins := by intro ev; simp
  refine ⟨hC.lenA, hC.lenL, hC.tmapWfL, hC.scopeA, ?_, ?_, ?_, ?_, ?_, ?_, ?_, ?_,
    ?_, hC.free1Nodup, hC.free2E, ?_, ?_, ?_, ?_, ?_, ?_, ?_, ?_,
    hC.sidCounter⟩
  · intro t2 hn
    rw [hservEq] at hn
    exact hC.untouched t2 hn
  · intro t2 q hq
    rw [hservEq] at hq
    exact hC.servingRange t2 q hq
  · intro t2 t3 q h2 h3
    rw [hservEq] at h2 h3
    exact hC.servingInj t2 t3 q h2 h3
  · intro t2 q hq
    rw [hservEq] at hq
    rw [hpinEq]
    exact hC.servingFormula t2 q hq
  · intro t2 hm
    rw [hmemtr] at hm
    rw [hservEq]
    rcases hm with hm | hm
    · exact hC.pinnedServing t2 hm
    · cases hm
  · intro t2 q hq hf
    rw [hservEq] at hq
    refine hC.nonPinnedGlobal t2 q hq ?_
    intro hm
    exact hf ((hmemtr _).mpr (Or.inl hm))
  · intro t2 ht2
    rw [hservEq]
    exact hC.pendServed t2 ht2
  · intro k ts hk
    obtain ⟨ps, hps, hpairs⟩ := hC.align k ts hk
    refine ⟨ps, hps, hpairs.imp ?_⟩
    intro a b2 hp
    obtain ⟨h1, h2, h3, h4⟩ := hp
    refine ⟨h1, h2, by rw [hservEq]; exact h3, by rw [hservEq]; exact h4⟩
  · intro e2 he2
    obtain ⟨h0, hsm, hfr⟩ := hC.free1WF e2 he2
    refine ⟨h0, by rw [hservEq]; exact hsm, ?_⟩
    intro hm
    rw [hmemtr] at hm
    rcases hm with hm | hm
    · exact hfr hm
    · cases hm
  · intro t2 r2 b2 ins2 hm
    rw [hmemtr] at hm
    rw [hservEq]
    rcases hm with hm | hm
    · exact hC.relServed t2 r2 b2 ins2 hm
    · have ht2 : t2 = t := by injection hm
      rw [ht2]
      exact hservSome
  · intro t2 q hm hS2
    rw [hmemtr] at hm
    rw [hservEq]
    rcases hm with hm | hm
    · exact hC.sServing t2 q hm hS2
    · cases hm
  · intro t2 r2 b2 ins2 hm hf
    rw [hmemtr] at hm
    rcases hm with hm | hm
    · refine hC.safePinned t2 r2 b2 ins2 hm ?_
      rw [hmemtr] at hf
      rcases hf with hf | hf
      · exact hf
      · cases hf
    · have ht2 : t2 = t := by injection hm
      have hr2 : r2 = r := by injection hm
      have hins2 : ins2 = ins := by injection hm
      rw [hmemtr] at hf
      rcases hf with hf | hf
      · rw [ht2] at hf
        obtain ⟨ha, hb⟩ := hsafePin hf
        rw [hr2, hins2]
        exact ⟨ha, hb⟩
      · cases hf
  · intro t2 r2 ins2 hm
    rw [hmemtr] at hm
    rcases hm with hm | hm
    · exact hC.safe2D t2 r2 ins2 hm
    · have hb : b = true := by
        injection hm with h1 h2 h3 h4
        exact h3.symm
      have hins2 : ins2 = ins := by
        injection hm with h1 h2 h3 h4
      rw [hins2]
      exact hsafe2D hb
  · refine SafeS_snoc_rel S _ _ _ _ _ hC.safeS ?_
    intro q hq hS2
    have hsv := hC.sServing t q hq hS2
    exact hsafeS q hsv hS2
  · intro t2 q hm
    rw [hmemtr] at hm
    rcases hm with hm | hm
    · exact hC.traceProtoLt t2 q hm
    · cases hm
  · intro t2 hsm
    rw [hservEq] at hsm
    exact (hmemtr _).mpr (Or.inl (hC.servedSelf t2 hsm))
  · intro t2 hsm
    rw [hservEq] at hsm
    exact hC.sidServed t2 hsm

/-- Inserting a dead, unpinned, served token into the 1D free list preserves
the coupling. -/
theorem couple_freeInsert {S : Nat → Prop} {LF : InitState} {pend : List Nat}
    {L : InitState} {A : AssignState} (mb t : Nat)
    (hC : Coupled S LF pend L A)
    (h0 : (getTok A.arena t).ref_counter = 0)
    (hsm : (servingOf A.trace t).isSome)
    (hfr : Ev.fresh t ∉ A.trace)
    (hnot : ∀ e2 ∈ A.alloc.t1.free_, e2.2 ≠ t) :
    Coupled S LF pend L
      { A with
          alloc := { A.alloc with t1 := { A.alloc.t1 with
            free_ := insertFree mb t A.alloc.t1.free_ } } } := by
  refine ⟨hC.lenA, hC.lenL, hC.tmapWfL, hC.scopeA, hC.untouched, hC.servingRange,
    hC.servingInj, hC.servingFormula, hC.pinnedServing, hC.nonPinnedGlobal,
    hC.pendServed, hC.align, ?_, ?_, hC.free2E, hC.relServed, hC.sServing,
    hC.safePinned, hC.safe2D, hC.safeS, hC.traceProtoLt, hC.servedSelf,
    hC.sidServed, hC.sidCounter⟩
  · intro e2 he2
    dsimp only at he2
    have hm := (insertFree_perm mb t A.alloc.t1.free_).mem_iff.mp he2
    rcases List.mem_cons.mp hm with hm | hm
    · rw [hm]
      exact ⟨h0, hsm, hfr⟩
    · exact hC.free1WF e2 hm
  · dsimp only
    have hp := ((insertFree_perm mb t A.alloc.t1.free_).map Prod.snd)
    rw [hp.nodup_iff]
    rw [List.map_cons, List.nodup_cons]
    refine ⟨?_, hC.free1Nodup⟩
    intro hmem
    obtain ⟨e2, he2, hsnd⟩ := List.mem_map.mp hmem
    exact hnot e2 he2 hsnd

/-- `TokenAllocator::CheckForRelease` on a served token that is not in the
free list: the coupling survives, the arena and maps are untouched, one `rel`
event is appended, and the free list gains at most the released token. -/
theorem couple_checkRelease {S : Nat → Prop} {LF : InitState} {pend : List Nat}
    {L : InitState} {A : AssignState} {t p : Nat} {A1 : AssignState}
    (hC : Coupled S LF pend L A)
    (hserv : servingOf A.trace t = some p)
    (hdom : ∀ q, q < L.arena.length →
      (getTok L.arena q).ref_counter ≤ (getTok LF.arena q).ref_counter)
    (hS : ∀ q, S q → q < L.arena.length →
      (getTok L.arena q).ref_counter < (getTok LF.arena q).ref_counter)
    (hnotfree : ∀ e2 ∈ A.alloc.t1.free_, e2.2 ≠ t)
    (h : checkForRelease A t = some A1) :
    Coupled S LF pend L A1 ∧
    A1.arena = A.arena ∧ A1.tmap = A.tmap ∧
    (∀ t2, servingOf A1.trace t2 = servingOf A.trace t2) ∧
    (∃ suf, A1.trace = A.trace ++ suf ∧ ∀ t2 q, Ev.assign t2 q ∉ suf) ∧
    (∀ e2 ∈ A1.alloc.t1.free_, e2 ∈ A.alloc.t1.free_ ∨ e2.2 = t) := by
  have hplt : p < L.arena.length := (hC.servingRange t p hserv).2
  have hform := hC.servingFormula t p hserv
  have hdp := hdom p hplt
  have hpin0 := pinB_nonneg A.trace t
  have hcnt0 : (0 : Int) ≤ (pend.count t : Int) := by positivity
  unfold checkForRelease at h
  dsimp only at h
  split at h
  · cases h
  split at h
  · cases h
  split at h
  · -- texture-scope dispatch: the token must be pinned, so never inserted
    rename_i htex
    have hfrmem : Ev.fresh t ∈ A.trace := by
      by_contra hfr
      have := hC.nonPinnedGlobal t p hserv hfr
      rw [this, IsTextureStorage_global] at htex
      cases htex
    have hpin1 : pinB A.trace t = 1 := pinB_of_fresh _ _ hfrmem
    have href1 : 1 ≤ (getTok A.arena t).ref_counter := by
      rw [hform, hpin1]
      omega
    split at h
    · rename_i hzero
      rw [hzero] at href1
      omega
    · rename_i hnz
      simp only [Option.some.injEq] at h
      rw [← h]
      refine ⟨couple_relSnoc t _ true false hC (by rw [hserv]; rfl)
        (fun _ => ⟨href1, rfl⟩) (fun _ => rfl) (fun q _ _ => ⟨href1, rfl⟩),
        rfl, rfl, fun t2 => servingOf_snoc_rel _ _ _ _ _ _,
        ⟨[Ev.rel t (getTok A.arena t).ref_counter true false], rfl, ?_⟩,
        fun e2 he2 => Or.inl he2⟩
      intro t2 q hm
      simp only [List.mem_singleton] at hm
      cases hm
  · -- 1D dispatch
    split at h
    · -- ref_counter == 0: insert into the free list
      rename_i hzero
      have hfrnot : Ev.fresh t ∉ A.trace := by
        intro hm
        rw [hform, pinB_of_fresh _ _ hm] at hzero
        omega
      have hnotS : ¬ S p := by
        intro hSp
        have := hS p hSp hplt
        rw [hform, pinB_of_not_fresh _ _ hfrnot] at hzero
        omega
      simp only [Option.some.injEq] at h
      rw [← h]
      have hCi := couple_freeInsert (getTok A.arena t).max_bytes t hC hzero
        (by rw [hserv]; rfl) hfrnot hnotfree
      refine ⟨?_, rfl, rfl, fun t2 => servingOf_snoc_rel _ _ _ _ _ _,
        ⟨[Ev.rel t (getTok A.arena t).ref_counter false true], rfl, ?_⟩, ?_⟩
      · have := @couple_relSnoc S LF pend L
          { A with
              alloc := { A.alloc with t1 := { A.alloc.t1 with
                free_ := insertFree (getTok A.arena t).max_bytes t A.alloc.t1.free_ } } }
          t (getTok A.arena t).ref_counter false true hCi
          (by rw [hserv]; rfl)
          (fun hm => absurd hm hfrnot)
          (fun hc => by cases hc)
          (fun q hq hSq => by
            rw [hserv] at hq
            have hqp : p = q := Option.some.inj hq
            exact absurd hSq (hqp ▸ hnotS))
        exact this
      · intro t2 q hm
        simp only [List.mem_singleton] at hm
        cases hm
      · intro e2 he2
        dsimp only at he2
        have hm := (insertFree_perm _ _ _).mem_iff.mp he2
        rcases List.mem_cons.mp hm with hm | hm
        · exact Or.inr (by rw [hm])
        · exact Or.inl hm
    · -- positive count: no insertion
      rename_i hnz
      have href1 : 1 ≤ (getTok A.arena t).ref_counter := by
        rename_i hnneg _
        simp only [not_lt] at hnneg
        omega
      simp only [Option.some.injEq] at h
      rw [← h]
      refine ⟨couple_relSnoc t _ false false hC (by rw [hserv]; rfl)
        (fun _ => ⟨href1, rfl⟩) (fun hc => by cases hc) (fun q _ _ => ⟨href1, rfl⟩),
        rfl, rfl, fun t2 => servingOf_snoc_rel _ _ _ _ _ _,
        ⟨[Ev.rel t (getTok A.arena t).ref_counter false false], rfl, ?_⟩,
        fun e2 he2 => Or.inl he2⟩
      intro t2 q hm
      simp only [List.mem_singleton] at hm
      cases hm

/-- The orphan-release loop of the call case: `CheckForRelease` over the
node's own (distinct, served, not-free) tokens. -/
theorem couple_releaseAll {S : Nat → Prop} {LF : InitState} {pend : List Nat}
    {L : InitState} :
    ∀ (ts : List Nat) (A A1 : AssignState),
    Coupled S LF pend L A →
    releaseAll ts A = some A1 →
    (∀ t ∈ ts, (servingOf A.trace t).isSome) →
    ts.Nodup →
    (∀ t ∈ ts, ∀ e2 ∈ A.alloc.t1.free_, e2.2 ≠ t) →
    (∀ q, q < L.arena.length →
      (getTok L.arena q).ref_counter ≤ (getTok LF.arena q).ref_counter) →
    (∀ q, S q → q < L.arena.length →
      (getTok L.arena q).ref_counter < (getTok LF.arena q).ref_counter) →
    Coupled S LF pend L A1 ∧ A1.arena = A.arena ∧ A1.tmap = A.tmap ∧
    (∀ t2, servingOf A1.trace t2 = servingOf A.trace t2) ∧
    (∃ suf, A1.trace = A.trace ++ suf ∧ ∀ t2 q, Ev.assign t2 q ∉ suf)
  | [], A, A1, hC, h, hsv, hnd, hnf, hdom, hS => by
    simp only [releaseAll, Option.some.injEq] at h
    rw [← h]
    exact ⟨hC, rfl, rfl, fun t2 => rfl, ⟨[], by simp, fun t2 q hm => List.not_mem_nil _ hm⟩⟩
  | t :: ts, A, A1, hC, h, hsv, hnd, hnf, hdom, hS => by
    simp only [releaseAll] at h
    rcases h1 : checkForRelease A t with _ | Ax <;> rw [h1] at h
    · simp at h
    simp only [Option.bind_eq_bind, Option.some_bind] at h
    obtain ⟨p, hp⟩ := Option.isSome_iff_exists.mp (hsv t (List.mem_cons_self t ts))
    obtain ⟨hCx, harena, htmap, hservEq, ⟨suf1, hsuf1, hsufA⟩, hfreex⟩ :=
      couple_checkRelease hC hp hdom hS (hnf t (List.mem_cons_self t ts)) h1
    have hnd2 := List.nodup_cons.mp hnd
    obtain ⟨hC2, harena2, htmap2, hservEq2, ⟨suf2, hsuf2, hsufA2⟩⟩ :=
      couple_releaseAll ts Ax A1 hCx h
        (fun t2 ht2 => by rw [hservEq]; exact hsv t2 (List.mem_cons_of_mem t ht2))
        hnd2.2
        (fun t2 ht2 e2 he2 => by
          rcases hfreex e2 he2 with hm | hm
          · exact hnf t2 (List.mem_cons_of_mem t ht2) e2 hm
          · rw [hm]
            intro hc
            exact hnd2.1 (by rw [hc]; exact ht2))
        hdom hS
    refine ⟨hC2, harena2.trans harena, htmap2.trans htmap,
      fun t2 => (hservEq2 t2).trans (hservEq t2),
      ⟨suf1 ++ suf2, by rw [hsuf2, hsuf1, List.append_assoc], ?_⟩⟩
    intro t2 q hm
    rcases List.mem_append.mp hm with hm | hm
    · exact hsufA t2 q hm
    · exact hsufA2 t2 q hm

/-- The argument epilogue of the call case: per owed occurrence, decrement
and `CheckForRelease`, discharging the pending-decrement queue. -/
theorem couple_decReleaseAll {S : Nat → Prop} {LF : InitState} {L : InitState} :
    ∀ (ts rest : List Nat) (A A1 : AssignState),
    Coupled S LF (ts ++ rest) L A →
    decReleaseAll ts A = some A1 →
    (∀ q, q < L.arena.length →
      (getTok L.arena q).ref_counter ≤ (getTok LF.arena q).ref_counter) →
    (∀ q, S q → q < L.arena.length →
      (getTok L.arena q).ref_counter < (getTok LF.arena q).ref_counter) →
    Coupled S LF rest L A1 ∧ A1.tmap = A.tmap ∧
    (∃ suf, A1.trace = A.trace ++ suf ∧ ∀ t2 q, Ev.assign t2 q ∉ suf)
  | [], rest, A, A1, hC, h, hdom, hS => by
    simp only [decReleaseAll, Option.some.injEq] at h
    rw [← h]
    exact ⟨hC, rfl, ⟨[], by simp, fun t2 q hm => List.not_mem_nil _ hm⟩⟩
  | t :: ts, rest, A, A1, hC, h, hdom, hS => by
    simp only [decReleaseAll] at h
    have hmem : t ∈ (t :: ts) ++ rest := List.mem_cons_self _ _
    have hnotfree : ∀ e2 ∈ A.alloc.t1.free_, e2.2 ≠ t := by
      intro e2 he2 hc
      obtain ⟨h0, hsm, hfr⟩ := hC.free1WF e2 he2
      obtain ⟨q2, hq2⟩ := Option.isSome_iff_exists.mp hsm
      have hform := hC.servingFormula e2.2 q2 hq2
      have hdq := hdom q2 (hC.servingRange e2.2 q2 hq2).2
      have hpin := pinB_nonneg A.trace e2.2
      have hcnt : 1 ≤ ((t :: ts) ++ rest).count e2.2 :=
        List.count_pos_iff_mem.mpr (by rw [hc]; exact hmem)
      have hcnt2 : (1 : Int) ≤ (((t :: ts) ++ rest).count e2.2 : Int) := by
        exact_mod_cast hcnt
      omega
    have hC1 := couple_dec1 hC hmem hdom
    rw [show ((t :: ts) ++ rest).erase t = ts ++ rest from by
      rw [List.cons_append, List.erase_cons_head]] at hC1
    rcases h1 : checkForRelease
        { A with
            arena := setTok A.arena t (fun tk => { tk with ref_counter := tk.ref_counter - 1 }) }
        t
      with _ | Ax <;> rw [h1] at h
    · simp at h
    simp only [Option.bind_eq_bind, Option.some_bind] at h
    obtain ⟨p, hp⟩ := Option.isSome_iff_exists.mp (hC.pendServed t hmem)
    obtain ⟨hCx, harena, htmap, hservEq, ⟨suf1, hsuf1, hsufA⟩, hfreex⟩ :=
      couple_checkRelease hC1 hp hdom hS hnotfree h1
    obtain ⟨hC2, htmap2, ⟨suf2, hsuf2, hsufA2⟩⟩ :=
      couple_decReleaseAll ts rest Ax A1 hCx h hdom hS
    refine ⟨hC2, htmap2.trans htmap,
      ⟨suf1 ++ suf2, by rw [hsuf2, hsuf1]; dsimp only; rw [List.append_assoc], ?_⟩⟩
    intro t2 q hm
    rcases List.mem_append.mp hm with hm | hm
    · exact hsufA t2 q hm
    · exact hsufA2 t2 q hm

theorem InitExt_trans {L1 L2 L3 : InitState} (h1 : InitExt L1 L2) (h2 : InitExt L2 L3) :
    InitExt L1 L3 := by
  obtain ⟨ha1, hb1, s1, hs1⟩ := h1
  obtain ⟨ha2, hb2, s2, hs2⟩ := h2
  refine ⟨le_trans ha1 ha2, ?_, ⟨s1 ++ s2, by rw [hs2, hs1, List.append_assoc]⟩⟩
  intro p hp
  obtain ⟨a1, b1, c1, d1, e1, f1⟩ := hb1 p hp
  obtain ⟨a2, b2, c2, d2, e2, f2⟩ := hb2 p (lt_of_lt_of_le hp ha1)
  exact ⟨a2.trans a1, b2.trans b1, c2.trans c1, d2.trans d1, e2.trans e1, le_trans f1 f2⟩

theorem InitExt_refl (L : InitState) : InitExt L L :=
  ⟨le_refl _, fun p _ => ⟨rfl, rfl, rfl, rfl, rfl, le_refl _⟩, ⟨[], by simp⟩⟩

/-- Domination of the replayed counters by the final ones, read off an
extension into the final state. -/
theorem dom_of_ext {L LF : InitState} (h : InitExt L LF) :
    ∀ q, q < L.arena.length →
      (getTok L.arena q).ref_counter ≤ (getTok LF.arena q).ref_counter :=
  fun q hq => (h.2.1 q hq).2.2.2.2.2

/-- The output-headroom hypothesis transports backwards along extensions. -/
theorem headroom_mono {S : Nat → Prop} {L1 L2 LF : InitState} (hext : InitExt L1 L2)
    (h : ∀ q, S q → q < L2.arena.length →
      (getTok L2.arena q).ref_counter < (getTok LF.arena q).ref_counter) :
    ∀ q, S q → q < L1.arena.length →
      (getTok L1.arena q).ref_counter < (getTok LF.arena q).ref_counter := by
  intro q hS hq
  have h1 := (hext.2.1 q hq).2.2.2.2.2
  have h2 := h q hS (lt_of_lt_of_le hq hext.1)
  omega

theorem range_map_nodup (c n : Nat) : ((List.range n).map (fun i => c + i)).Nodup :=
  (List.nodup_range n).map (fun a b h => by omega)

theorem lookupTM_none_append (m suf : List (Key × List Nat)) (k : Key)
    (h1 : lookupTM m k = none) (h2 : ∀ kv ∈ suf, kv.1 ≠ k) :
    lookupTM (m ++ suf) k = none := by
  rw [lookupTM_append_of_none _ _ _ h1]
  exact lookupTM_none_of_keys _ _ h2

/-- Matching `token_map_` entries on the two sides are pairwise aligned. -/
theorem align_pairs {S : Nat → Prop} {LF : InitState} {pend : List Nat}
    {L : InitState} {A : AssignState} (hC : Coupled S LF pend L A) {kk : Key}
    {ps ts : List Nat}
    (hkL : lookupTM L.tmap kk = some ps) (hkA : lookupTM A.tmap kk = some ts) :
    List.Forall₂ (PairOK LF L A) ps ts := by
  obtain ⟨ps2, hps2, hpairs⟩ := hC.align kk ts hkA
  rw [hkL] at hps2
  rw [Option.some.inj hps2]
  exact hpairs

/-- `StorageAllocator::CreateToken` against an already-replayed liveness
entry: runs the prototype loop and records the result under the node's key. -/
theorem couple_createAssign {S : Nat → Prop} {LF : InitState} {pend : List Nat}
    {L : InitState} {A Ax : AssignState} {k : Key} {pts ats : List Nat}
    (cr : Bool) (pm : List (Key × List Nat))
    (hC : Coupled S LF pend L A)
    (hlkL : lookupTM L.tmap k = some pts)
    (hpm : ∃ suf, pm = L.tmap ++ suf)
    (hps : ∀ p ∈ pts, p < L.arena.length ∧ (getTok L.arena p).ref_counter = 0 ∧
      ∀ t2, Ev.assign t2 p ∉ A.trace)
    (hnd : pts.Nodup)
    (hdom : ∀ q, q < L.arena.length →
      (getTok L.arena q).ref_counter ≤ (getTok LF.arena q).ref_counter)
    (hS : ∀ q, S q → q < L.arena.length →
      (getTok L.arena q).ref_counter < (getTok LF.arena q).ref_counter)
    (h : createTokenAssign pm cr k A = some (Ax, ats)) :
    Coupled S LF pend L Ax ∧
    lookupTM Ax.tmap k = some ats ∧
    (∀ t ∈ ats, (servingOf Ax.trace t).isSome) ∧
    ats.Nodup ∧
    (∀ t ∈ ats, ∀ e2 ∈ Ax.alloc.t1.free_, e2.2 ≠ t) ∧
    (∃ suf, Ax.trace = A.trace ++ suf ∧ ∀ t2 q, Ev.assign t2 q ∈ suf → q ∈ pts) ∧
    Ax.tmap = A.tmap ++ [(k, ats)] := by
  unfold createTokenAssign at h
  split at h
  · cases h
  rename_i hchk
  rw [Option.not_isSome_iff_eq_none] at hchk
  obtain ⟨sufpm, hsufpm⟩ := hpm
  have hlkpm : lookupTM pm k = some pts := by
    rw [hsufpm]
    exact lookupTM_append_of_some _ _ _ _ hlkL
  rw [hlkpm] at h
  simp only [Option.bind_eq_bind, Option.some_bind] at h
  rcases hloop : assignTokens cr pts A with _ | ⟨A2, ts2⟩ <;> rw [hloop] at h
  · simp at h
  simp only [Option.bind_eq_bind, Option.some_bind, Option.pure_def, Option.some.injEq,
    Prod.mk.injEq] at h
  obtain ⟨hAx, hats⟩ := h
  obtain ⟨hC2, hserv2, hnd2, hfree2, ⟨suf, hsuf, hsufP⟩, htmap2, hpres2⟩ :=
    couple_assignTokens cr pts pend L A A2 ts2 hC hloop hps hnd hdom hS
  have hpairs : List.Forall₂ (PairOK LF L A2) pts ts2 := by
    refine hserv2.imp ?_
    intro a b hab
    obtain ⟨ha, hb⟩ := hC2.servingRange b a hab
    exact ⟨hb, ha, by rw [hab]; rfl, fun hne => absurd hab hne⟩
  have hlkA2 : lookupTM A2.tmap k = none := by rw [htmap2]; exact hchk
  have hCx := couple_appendA k pts ts2 hC2 hlkL hlkA2 hpairs
  rw [← hats]
  refine ⟨by rw [← hAx]; exact hCx, ?_, ?_, hnd2, ?_, ?_, ?_⟩
  · rw [← hAx]
    dsimp only
    rw [lookupTM_append_of_none _ _ _ hlkA2, lookupTM_single]
  · intro t ht
    rw [← hAx]
    dsimp only
    obtain ⟨p2, hp2mem, hp2⟩ := forall₂_mem_right hserv2 t ht
    rw [hp2]
    rfl
  · intro t ht e2 he2
    rw [← hAx] at he2
    dsimp only at he2
    exact (hfree2 e2 he2).2 t ht
  · rw [← hAx]
    dsimp only
    exact ⟨suf, hsuf, hsufP⟩
  · rw [← hAx]
    dsimp only
    rw [htmap2]

theorem InitExt_tmapAppend (L : InitState) (s : List (Key × List Nat)) :
    InitExt L ⟨L.arena, L.tmap ++ s⟩ :=
  ⟨le_refl _, fun p _ => ⟨rfl, rfl, rfl, rfl, rfl, le_refl _⟩, ⟨s, rfl⟩⟩

theorem InitExt_incRefs (L : InitState) (ts : List Nat) :
    InitExt L ⟨incRefs L.arena ts, L.tmap⟩ := by
  refine ⟨by rw [incRefs_length], ?_, ⟨[], by simp⟩⟩
  intro p hp
  obtain ⟨a, b, c, d, e⟩ := incRefs_nonref L.arena ts p
  refine ⟨a, b, c, d, e, ?_⟩
  rw [incRefs_ref _ _ _ hp]
  have : (0 : Int) ≤ (ts.count p : Int) := by positivity
  omega

mutual
/-- The per-node lockstep between the liveness pass and the assignment pass:
from coupled states, visiting the same tree node on both sides lands in
coupled states again, the returned token lists are backed by one shared
`token_map_` key, and the new trace events assign only prototypes at or above
the entry liveness arena size. -/
theorem lockstep (dm : Key → Option Int) (sm : Key → Option (List String))
    (pm : List (Key × List Nat)) (S : Nat → Prop) (LF : InitState) :
    ∀ (e : Expr) (pend : List Nat) (L L' : InitState) (A A' : AssignState)
      (pts ats : List Nat),
    Coupled S LF pend L A →
    visitInit dm sm e L = some (L', pts) →
    visitAssign pm e A = some (A', ats) →
    (exprKeys e).Nodup →
    (∀ k ∈ exprKeys e, lookupTM L.tmap k = none) →
    (∀ k ∈ exprKeys e, lookupTM A.tmap k = none) →
    (∃ suf, pm = L'.tmap ++ suf) →
    InitExt L' LF →
    (∀ q, S q → q < L'.arena.length →
      (getTok L'.arena q).ref_counter < (getTok LF.arena q).ref_counter) →
    Coupled S LF pend L' A' ∧
    (∃ kk, lookupTM L'.tmap kk = some pts ∧ lookupTM A'.tmap kk = some ats) ∧
    (∃ suf, A'.trace = A.trace ++ suf ∧
      ∀ t2 q, Ev.assign t2 q ∈ suf → L.arena.length ≤ q) ∧
    (∃ suf, A'.tmap = A.tmap ++ suf ∧ ∀ kv ∈ suf, kv.1 ∈ exprKeys e)
  | .var v, pend, L, L', A, A', pts, ats, hC, hvi, hva, hnd, hfL, hfA, hpm, hext,
      hS => by
    simp only [visitInit] at hvi
    simp only [visitAssign] at hva
    rcases hlkL : lookupTM L.tmap (.inl v) with _ | psv
    · rw [hlkL] at hvi; cases hvi
    rcases hlkA : lookupTM A.tmap (.inl v) with _ | tsv
    · rw [hlkA] at hva; cases hva
    rw [hlkL] at hvi
    rw [hlkA] at hva
    simp only [Option.map_some', Option.some.injEq, Prod.mk.injEq] at hvi hva
    obtain ⟨hL', hpts⟩ := hvi
    obtain ⟨hA', hats⟩ := hva
    rw [← hL', ← hpts, ← hA', ← hats]
    exact ⟨hC, ⟨.inl v, hlkL, hlkA⟩,
      ⟨[], by simp, fun t2 q hm => absurd hm (List.not_mem_nil _)⟩,
      ⟨[], by simp, fun kv hm => absurd hm (List.not_mem_nil _)⟩⟩
  | .constant nid tys, pend, L, L', A, A', pts, ats, hC, hvi, hva, hnd, hfL, hfA,
      hpm, hext, hS => by
    simp only [visitInit] at hvi
    simp only [visitAssign] at hva
    obtain ⟨hfresh0, hptsEq, harena, htmapL, hlen, hold, hnew, hrange⟩ :=
      createTokenInit_spec dm sm _ tys L L' pts hvi
    have hC1 := couple_createInitReplay dm sm _ tys hC hvi hext.1
    have hlkL2 : lookupTM L'.tmap (.inr nid) = some pts := by
      rw [htmapL]
      rw [lookupTM_append_of_none _ _ _ hfresh0, lookupTM_single]
    have hps : ∀ p ∈ pts, p < L'.arena.length ∧
        (getTok L'.arena p).ref_counter = 0 ∧
        ∀ t2, Ev.assign t2 p ∉ A.trace := by
      intro p hp
      refine ⟨(hrange p hp).2, hnew p (hrange p hp).1, ?_⟩
      intro t2 hm
      have h1 := hC.traceProtoLt t2 p hm
      have h2 := (hrange p hp).1
      omega
    have hnd2 : pts.Nodup := by
      rw [hptsEq]
      exact range_map_nodup _ _
    obtain ⟨hC2, hlkA2, hserv, hndts, hnotfree, ⟨suf, hsuf, hsufP⟩, htmapA⟩ :=
      couple_createAssign false pm hC1 hlkL2 hpm hps hnd2 (dom_of_ext hext) hS hva
    refine ⟨hC2, ⟨.inr nid, hlkL2, hlkA2⟩, ⟨suf, hsuf, ?_⟩,
      ⟨[(.inr nid, ats)], htmapA, ?_⟩⟩
    · intro t2 q hm
      exact (hrange q (hsufP t2 q hm)).1
    · intro kv hm
      simp only [List.mem_singleton] at hm
      rw [hm]
      simp [exprKeys]
  | .call nid tys args, pend, L, L', A, A', pts, ats, hC, hvi, hva, hnd, hfL, hfA,
      hpm, hext, hS => by
    simp only [exprKeys] at hnd hfL hfA
    simp only [visitInit] at hvi
    simp only [visitAssign] at hva
    rcases hcr : createTokenInit dm sm (.inr nid) tys L with _ | ⟨L1, ptsc⟩ <;>
      rw [hcr] at hvi
    · simp at hvi
    simp only [Option.bind_eq_bind, Option.some_bind] at hvi
    rcases hargs : visitInitArgs dm sm args L1 with _ | L2 <;> rw [hargs] at hvi
    · simp at hvi
    simp only [Option.bind_eq_bind, Option.some_bind, Option.pure_def,
      Option.some.injEq, Prod.mk.injEq] at hvi
    obtain ⟨hL', hpts⟩ := hvi
    rcases hvargs : visitAssignList pm args A with _ | ⟨A1, argToks⟩ <;>
      rw [hvargs] at hva
    · simp at hva
    simp only [Option.bind_eq_bind, Option.some_bind] at hva
    rcases hvcr : createTokenAssign pm true (.inr nid) A1 with _ | ⟨A2, atsc⟩ <;>
      rw [hvcr] at hva
    · simp at hva
    simp only [Option.bind_eq_bind, Option.some_bind] at hva
    rcases hvrel : releaseAll atsc A2 with _ | A3 <;> rw [hvrel] at hva
    · simp at hva
    simp only [Option.bind_eq_bind, Option.some_bind] at hva
    rcases hvdec : decReleaseAll argToks A3 with _ | A4 <;> rw [hvdec] at hva
    · simp at hva
    simp only [Option.bind_eq_bind, Option.some_bind, Option.pure_def,
      Option.some.injEq, Prod.mk.injEq] at hva
    obtain ⟨hA', hats⟩ := hva
    obtain ⟨hfresh0, hptsEq, harenaC, htmapL1, hlenC, holdC, hnewC, hrangeC⟩ :=
      createTokenInit_spec dm sm _ tys L L1 ptsc hcr
    obtain ⟨hstepC, _, _, _⟩ := createTokenInit_initStep dm sm _ tys L L1 ptsc hcr
    have hwf1 : TmapWf L1 := hstepC.wfPres hC.tmapWfL
    obtain ⟨hstepArgs, hkeysArgs⟩ := initStructureArgs dm sm args L1 L2 hwf1 hargs
    have hnd2 := List.nodup_cons.mp hnd
    have hC1 := couple_createInitReplay dm sm _ tys hC hcr
      (le_trans hstepArgs.ext.1 (by rw [hL']; exact hext.1))
    have hfL1 : ∀ k ∈ exprKeysL args, lookupTM L1.tmap k = none := by
      intro k hk
      rw [htmapL1]
      refine lookupTM_none_append _ _ _ (hfL k (List.mem_cons_of_mem _ hk)) ?_
      intro kv hkv
      simp only [List.mem_singleton] at hkv
      have h1 : kv.1 = Sum.inr nid := by rw [hkv]
      intro hc
      rw [h1] at hc
      exact hnd2.1 (by rw [hc]; exact hk)
    have hextL2 : InitExt L2 LF := by rw [← hL'] at hext; exact hext
    have hSL2 : ∀ q, S q → q < L2.arena.length →
        (getTok L2.arena q).ref_counter < (getTok LF.arena q).ref_counter := by
      rw [← hL'] at hS
      exact hS
    have hpmL2 : ∃ suf, pm = L2.tmap ++ suf := by rw [← hL'] at hpm; exact hpm
    obtain ⟨hC2, ⟨sufargs, hsufargs, hsufargsP⟩, ⟨sufAargs, hsufAargs, hsufAargsK⟩⟩ :=
      lockstepArgs dm sm pm S LF args pend L1 L2 A A1 argToks hC1 hargs hvargs
        hnd2.2 hfL1 (fun k hk => hfA k (List.mem_cons_of_mem _ hk))
        hpmL2 hextL2 hSL2
    have hlkL2 : lookupTM L2.tmap (.inr nid) = some ptsc := by
      obtain ⟨sufL2, hsufL2, _⟩ := hkeysArgs
      rw [hsufL2, htmapL1]
      refine lookupTM_append_of_some _ _ _ _ ?_
      rw [lookupTM_append_of_none _ _ _ hfresh0, lookupTM_single]
    have hps : ∀ p ∈ ptsc, p < L2.arena.length ∧
        (getTok L2.arena p).ref_counter = 0 ∧
        ∀ t2, Ev.assign t2 p ∉ A1.trace := by
      intro p hp
      have hpL1 := (hrangeC p hp).2
      have hpge := (hrangeC p hp).1
      refine ⟨lt_of_lt_of_le hpL1 hstepArgs.ext.1, ?_, ?_⟩
      · have href1 : (getTok L1.arena p).ref_counter = 0 := hnewC p hpge
        by_contra hne
        rcases hstepArgs.touchVar p (by rw [href1]; exact hne) with
          ⟨v, ps, hlk, hpm2⟩ | hge
        · rw [htmapL1] at hlk
          rcases hlk0 : lookupTM L.tmap (.inl v) with _ | ps2
          · rw [lookupTM_append_of_none _ _ _ hlk0,
              lookupTM_single_ne _ _ _ (by intro hc; cases hc)] at hlk
            cases hlk
          · rw [lookupTM_append_of_some _ _ _ _ hlk0] at hlk
            have := hC.tmapWfL _ _ hlk0 p (by rw [Option.some.inj hlk]; exact hpm2)
            omega
        · omega
      · intro t2 hm
        rw [hsufargs] at hm
        rcases List.mem_append.mp hm with hm | hm
        · have := hC.traceProtoLt t2 p hm
          omega
        · have := hsufargsP t2 p hm
          omega
    have hndpts : ptsc.Nodup := by
      rw [hptsEq]
      exact range_map_nodup _ _
    obtain ⟨hC3, hlkA2, hservc, hndc, hnotfreec, ⟨sufc, hsufc, hsufcP⟩, htmapA2⟩ :=
      couple_createAssign true pm hC2 hlkL2 hpmL2 hps hndpts
        (dom_of_ext hextL2) hSL2 hvcr
    obtain ⟨hC4, harena3, htmap3, hservEq3, ⟨sufr, hsufr, hsufrA⟩⟩ :=
      couple_releaseAll atsc A2 A3 hC3 hvrel hservc hndc hnotfreec
        (dom_of_ext hextL2) hSL2
    have hC5 := couple_perm ((List.reverse_perm argToks).append_right pend) hC4
    obtain ⟨hC6, htmap4, ⟨sufd, hsufd, hsufdA⟩⟩ :=
      couple_decReleaseAll argToks pend A3 A4 hC5 hvdec (dom_of_ext hextL2) hSL2
    have hlkA4 : lookupTM A4.tmap (.inr nid) = some atsc := by
      rw [htmap4, htmap3, htmapA2, hsufAargs]
      have hnone : lookupTM (A.tmap ++ sufAargs) (.inr nid) = none := by
        refine lookupTM_none_append _ _ _ (hfA _ (List.mem_cons_self _ _)) ?_
        intro kv hkv hc
        exact hnd2.1 (by rw [← hc]; exact hsufAargsK kv hkv)
      rw [lookupTM_append_of_none _ _ _ hnone, lookupTM_single]
    rw [← hL', ← hpts, ← hA', ← hats]
    refine ⟨hC6, ⟨.inr nid, hlkL2, hlkA4⟩,
      ⟨sufargs ++ sufc ++ sufr ++ sufd, ?_, ?_⟩,
      ⟨sufAargs ++ [(.inr nid, atsc)], ?_, ?_⟩⟩
    · rw [hsufd, hsufr, hsufc, hsufargs]
      simp [List.append_assoc]
    · intro t2 q hm
      rcases List.mem_append.mp hm with hm | hm
      · rcases List.mem_append.mp hm with hm | hm
        · rcases List.mem_append.mp hm with hm | hm
          · exact le_trans hstepC.ext.1 (hsufargsP t2 q hm)
          · exact (hrangeC q (hsufcP t2 q hm)).1
        · exact absurd hm (hsufrA t2 q)
      · exact absurd hm (hsufdA t2 q)
    · rw [htmap4, htmap3, htmapA2, hsufAargs, List.append_assoc]
    · intro kv hkv
      rcases List.mem_append.mp hkv with hkv | hkv
      · simp only [exprKeys, List.mem_cons]
        exact Or.inr (hsufAargsK kv hkv)
      · simp only [List.mem_singleton] at hkv
        rw [hkv]
        simp [exprKeys]
  | .tuple nid fields, pend, L, L', A, A', pts, ats, hC, hvi, hva, hnd, hfL, hfA,
      hpm, hext, hS => by
    simp only [exprKeys] at hnd hfL hfA
    simp only [visitInit] at hvi
    simp only [visitAssign] at hva
    rcases hvf : visitInitFields dm sm fields L with _ | ⟨L1, ptsf⟩ <;>
      rw [hvf] at hvi
    · simp at hvi
    simp only [Option.bind_eq_bind, Option.some_bind, Option.pure_def,
      Option.some.injEq, Prod.mk.injEq] at hvi
    obtain ⟨hL', hpts⟩ := hvi
    rcases hvaf : visitAssignList pm fields A with _ | ⟨A1, atsf⟩ <;>
      rw [hvaf] at hva
    · simp at hva
    simp only [Option.bind_eq_bind, Option.some_bind, Option.pure_def,
      Option.some.injEq, Prod.mk.injEq] at hva
    obtain ⟨hA', hats⟩ := hva
    have hnd2 := List.nodup_cons.mp hnd
    obtain ⟨hstepF, hkeysF, hclsF, hltF⟩ :=
      initStructureFields dm sm fields L L1 ptsf hC.tmapWfL hvf
    have hextL1 : InitExt L1 LF := by
      refine InitExt_trans (InitExt_tmapAppend L1 [(.inr nid, ptsf)]) ?_
      rw [← hL'] at hext
      exact hext
    have hSL1 : ∀ q, S q → q < L1.arena.length →
        (getTok L1.arena q).ref_counter < (getTok LF.arena q).ref_counter := by
      rw [← hL'] at hS
      exact hS
    obtain ⟨hC1, hpairs, ⟨suft, hsuft, hsuftP⟩, ⟨sufm, hsufm, hsufmK⟩⟩ :=
      lockstepFields dm sm pm S LF fields pend L L1 A A1 ptsf atsf hC hvf hvaf
        hnd2.2 (fun k hk => hfL k (List.mem_cons_of_mem _ hk))
        (fun k hk => hfA k (List.mem_cons_of_mem _ hk))
        (by rw [← hL'] at hpm
            obtain ⟨s, hs⟩ := hpm
            exact ⟨[(.inr nid, ptsf)] ++ s, by rw [hs]; simp⟩)
        hextL1 hSL1
    have hC2 := couple_appendL (.inr nid) ptsf hC1 hltF
    have hlkL1none : lookupTM L1.tmap (.inr nid) = none := by
      obtain ⟨sufL, hsufL, hsufLK⟩ := hkeysF
      rw [hsufL]
      refine lookupTM_none_append _ _ _ (hfL _ (List.mem_cons_self _ _)) ?_
      intro kv hkv hc
      exact hnd2.1 (by rw [← hc]; exact hsufLK kv hkv)
    have hlkA1none : lookupTM A1.tmap (.inr nid) = none := by
      rw [hsufm]
      refine lookupTM_none_append _ _ _ (hfA _ (List.mem_cons_self _ _)) ?_
      intro kv hkv hc
      exact hnd2.1 (by rw [← hc]; exact hsufmK kv hkv)
    have hlkL2 : lookupTM (L1.tmap ++ [(.inr nid, ptsf)]) (.inr nid) = some ptsf := by
      rw [lookupTM_append_of_none _ _ _ hlkL1none, lookupTM_single]
    have hC3 := couple_appendA (.inr nid) ptsf atsf hC2 hlkL2 hlkA1none
      (hpairs.imp (fun a b hp => PairOK_arena _ hp))
    rw [← hL', ← hpts, ← hA', ← hats]
    refine ⟨hC3, ⟨.inr nid, hlkL2, ?_⟩, ⟨suft, hsuft, hsuftP⟩,
      ⟨sufm ++ [(.inr nid, atsf)], by rw [hsufm]; simp, ?_⟩⟩
    · dsimp only
      rw [lookupTM_append_of_none _ _ _ hlkA1none, lookupTM_single]
    · intro kv hkv
      rcases List.mem_append.mp hkv with hkv | hkv
      · simp only [exprKeys, List.mem_cons]
        exact Or.inr (hsufmK kv hkv)
      · simp only [List.mem_singleton] at hkv
        rw [hkv]
        simp [exprKeys]
  | .proj nid tup i, pend, L, L', A, A', pts, ats, hC, hvi, hva, hnd, hfL, hfA,
      hpm, hext, hS => by
    simp only [exprKeys] at hnd hfL hfA
    simp only [visitInit] at hvi
    simp only [visitAssign] at hva
    rcases hvt : visitInit dm sm tup L with _ | ⟨L1, ptst⟩ <;> rw [hvt] at hvi
    · simp at hvi
    simp only [Option.bind_eq_bind, Option.some_bind] at hvi
    rcases hvat : visitAssign pm tup A with _ | ⟨A1, atst⟩ <;> rw [hvat] at hva
    · simp at hva
    simp only [Option.bind_eq_bind, Option.some_bind] at hva
    split at hvi
    swap
    · simp at hvi
    rename_i hdimL
    split at hva
    swap
    · simp at hva
    rename_i hdimA
    simp only [Option.pure_def, Option.some.injEq, Prod.mk.injEq] at hvi hva
    obtain ⟨hL', hpts⟩ := hvi
    obtain ⟨hA', hats⟩ := hva
    have hnd2 := List.nodup_cons.mp hnd
    obtain ⟨hstepT, hkeysT, hclsT, hltT⟩ :=
      initStructure dm sm tup L L1 ptst hC.tmapWfL hvt
    have hextL1 : InitExt L1 LF := by
      refine InitExt_trans (InitExt_tmapAppend L1 [(.inr nid, [ptst.get ⟨i, hdimL⟩])]) ?_
      rw [← hL'] at hext
      exact hext
    have hSL1 : ∀ q, S q → q < L1.arena.length →
        (getTok L1.arena q).ref_counter < (getTok LF.arena q).ref_counter := by
      rw [← hL'] at hS
      exact hS
    obtain ⟨hC1, ⟨kk, hkkL, hkkA⟩, ⟨suft, hsuft, hsuftP⟩, ⟨sufm, hsufm, hsufmK⟩⟩ :=
      lockstep dm sm pm S LF tup pend L L1 A A1 ptst atst hC hvt hvat
        hnd2.2 (fun k hk => hfL k (List.mem_cons_of_mem _ hk))
        (fun k hk => hfA k (List.mem_cons_of_mem _ hk))
        (by rw [← hL'] at hpm
            obtain ⟨s, hs⟩ := hpm
            exact ⟨[(.inr nid, [ptst.get ⟨i, hdimL⟩])] ++ s, by rw [hs]; simp⟩)
        hextL1 hSL1
    have hpairs := align_pairs hC1 hkkL hkkA
    have hpair1 : PairOK LF L1 A1 (ptst.get ⟨i, hdimL⟩) (atst.get ⟨i, hdimA⟩) := by
      obtain ⟨hlen, hget⟩ := List.forall₂_iff_get.mp hpairs
      exact hget i hdimL hdimA
    have hC2 := couple_appendL (.inr nid) [ptst.get ⟨i, hdimL⟩] hC1
      (by intro t ht
          rw [List.mem_singleton.mp ht]
          exact hltT _ (List.get_mem _ _ _))
    have hlkL1none : lookupTM L1.tmap (.inr nid) = none := by
      obtain ⟨sufL, hsufL, hsufLK⟩ := hkeysT
      rw [hsufL]
      refine lookupTM_none_append _ _ _ (hfL _ (List.mem_cons_self _ _)) ?_
      intro kv hkv hc
      exact hnd2.1 (by rw [← hc]; exact hsufLK kv hkv)
    have hlkA1none : lookupTM A1.tmap (.inr nid) = none := by
      rw [hsufm]
      refine lookupTM_none_append _ _ _ (hfA _ (List.mem_cons_self _ _)) ?_
      intro kv hkv hc
      exact hnd2.1 (by rw [← hc]; exact hsufmK kv hkv)
    have hlkL2 : lookupTM (L1.tmap ++ [(.inr nid, [ptst.get ⟨i, hdimL⟩])]) (.inr nid)
        = some [ptst.get ⟨i, hdimL⟩] := by
      rw [lookupTM_append_of_none _ _ _ hlkL1none, lookupTM_single]
    have hC3 := couple_appendA (.inr nid) [ptst.get ⟨i, hdimL⟩]
      [atst.get ⟨i, hdimA⟩] hC2 hlkL2 hlkA1none
      (List.Forall₂.cons (PairOK_arena _ hpair1) List.Forall₂.nil)
    rw [← hL', ← hpts, ← hA', ← hats]
    refine ⟨hC3, ⟨.inr nid, hlkL2, ?_⟩, ⟨suft, hsuft, hsuftP⟩,
      ⟨sufm ++ [(.inr nid, [atst.get ⟨i, hdimA⟩])], by rw [hsufm]; simp, ?_⟩⟩
    · dsimp only
      rw [lookupTM_append_of_none _ _ _ hlkA1none, lookupTM_single]
    · intro kv hkv
      rcases List.mem_append.mp hkv with hkv | hkv
      · simp only [exprKeys, List.mem_cons]
        exact Or.inr (hsufmK kv hkv)
      · simp only [List.mem_singleton] at hkv
        rw [hkv]
        simp [exprKeys]
  | .letE nid vid v b, pend, L, L', A, A', pts, ats, hC, hvi, hva, hnd, hfL, hfA,
      hpm, hext, hS => by
    simp only [exprKeys] at hnd hfL hfA
    simp only [visitInit] at hvi
    simp only [visitAssign] at hva
    rcases hvv : visitInit dm sm v L with _ | ⟨L1, ptv⟩ <;> rw [hvv] at hvi
    · simp at hvi
    simp only [Option.bind_eq_bind, Option.some_bind] at hvi
    rcases hvb : visitInit dm sm b ⟨L1.arena, L1.tmap ++ [(.inl vid, ptv)]⟩ with
      _ | ⟨L2, ptb⟩ <;> rw [hvb] at hvi
    · simp at hvi
    simp only [Option.bind_eq_bind, Option.some_bind, Option.pure_def,
      Option.some.injEq, Prod.mk.injEq] at hvi
    obtain ⟨hL', hpts⟩ := hvi
    rcases hvav : visitAssign pm v A with _ | ⟨A1, atv⟩ <;> rw [hvav] at hva
    · simp at hva
    simp only [Option.bind_eq_bind, Option.some_bind] at hva
    rcases hvab : visitAssign pm b { A1 with tmap := A1.tmap ++ [(.inl vid, atv)] }
      with _ | ⟨A2, atb⟩ <;> rw [hvab] at hva
    · simp at hva
    simp only [Option.bind_eq_bind, Option.some_bind, Option.pure_def,
      Option.some.injEq, Prod.mk.injEq] at hva
    obtain ⟨hA', hats⟩ := hva
    have hnd2 := List.nodup_cons.mp hnd
    have hnd3 := List.nodup_cons.mp hnd2.2
    have hndvb := List.nodup_append.mp hnd3.2
    obtain ⟨hstepV, hkeysV, hclsV, hltV⟩ :=
      initStructure dm sm v L L1 ptv hC.tmapWfL hvv
    have hstepVar : InitStep L ⟨L1.arena, L1.tmap ++ [(.inl vid, ptv)]⟩ :=
      appendEntry_initStep _ _ hstepV hclsV hltV
    have hwfVar : TmapWf ⟨L1.arena, L1.tmap ++ [(.inl vid, ptv)]⟩ :=
      hstepVar.wfPres hC.tmapWfL
    obtain ⟨hstepB, hkeysB, hclsB, hltB⟩ :=
      initStructure dm sm b _ L2 ptb hwfVar hvb
    have hextL2 : InitExt L2 LF := by
      refine InitExt_trans (InitExt_tmapAppend L2 [(.inr nid, ptb)]) ?_
      rw [← hL'] at hext
      exact hext
    have hextL1 : InitExt L1 LF :=
      InitExt_trans (InitExt_tmapAppend L1 [(.inl vid, ptv)])
        (InitExt_trans hstepB.ext hextL2)
    have hSL2 : ∀ q, S q → q < L2.arena.length →
        (getTok L2.arena q).ref_counter < (getTok LF.arena q).ref_counter := by
      rw [← hL'] at hS
      exact hS
    have hSL1 : ∀ q, S q → q < L1.arena.length →
        (getTok L1.arena q).ref_counter < (getTok LF.arena q).ref_counter :=
      headroom_mono (InitExt_trans (InitExt_tmapAppend L1 [(.inl vid, ptv)])
        hstepB.ext) hSL2
    have hpmL2 : ∃ suf, pm = L2.tmap ++ suf := by
      rw [← hL'] at hpm
      obtain ⟨s, hs⟩ := hpm
      exact ⟨[(.inr nid, ptb)] ++ s, by rw [hs]; simp⟩
    have hpmL1 : ∃ suf, pm = L1.tmap ++ suf := by
      obtain ⟨s, hs⟩ := hpmL2
      obtain ⟨sb, hsb, _⟩ := hkeysB
      refine ⟨[(.inl vid, ptv)] ++ sb ++ s, ?_⟩
      rw [hs, hsb]
      dsimp only
      simp [List.append_assoc]
    obtain ⟨hC1, ⟨kkv, hkkvL, hkkvA⟩, ⟨sufv, hsufv, hsufvP⟩,
        ⟨sufmv, hsufmv, hsufmvK⟩⟩ :=
      lockstep dm sm pm S LF v pend L L1 A A1 ptv atv hC hvv hvav
        hndvb.1
        (fun k hk => hfL k (List.mem_cons_of_mem _
          (List.mem_cons_of_mem _ (List.mem_append_left _ hk))))
        (fun k hk => hfA k (List.mem_cons_of_mem _
          (List.mem_cons_of_mem _ (List.mem_append_left _ hk))))
        hpmL1 hextL1 hSL1
    have hpairsV := align_pairs hC1 hkkvL hkkvA
    have hC2 := couple_appendL (.inl vid) ptv hC1 hltV
    have hvidNotV : (Sum.inl vid : Key) ∉ exprKeys v := fun hc =>
      hnd3.1 (List.mem_append_left _ hc)
    have hvidNotB : (Sum.inl vid : Key) ∉ exprKeys b := fun hc =>
      hnd3.1 (List.mem_append_right _ hc)
    have hlkL1vid : lookupTM L1.tmap (.inl vid) = none := by
      obtain ⟨sufL, hsufL, hsufLK⟩ := hkeysV
      rw [hsufL]
      refine lookupTM_none_append _ _ _
        (hfL _ (List.mem_cons_of_mem _ (List.mem_cons_self _ _))) ?_
      intro kv hkv hc
      exact hvidNotV (by rw [← hc]; exact hsufLK kv hkv)
    have hlkA1vid : lookupTM A1.tmap (.inl vid) = none := by
      rw [hsufmv]
      refine lookupTM_none_append _ _ _
        (hfA _ (List.mem_cons_of_mem _ (List.mem_cons_self _ _))) ?_
      intro kv hkv hc
      exact hvidNotV (by rw [← hc]; exact hsufmvK kv hkv)
    have hlkLvid : lookupTM (L1.tmap ++ [(.inl vid, ptv)]) (.inl vid) = some ptv := by
      rw [lookupTM_append_of_none _ _ _ hlkL1vid, lookupTM_single]
    have hC3 := couple_appendA (.inl vid) ptv atv hC2 hlkLvid hlkA1vid
      (hpairsV.imp (fun a b2 hp => PairOK_arena _ hp))
    obtain ⟨hC4, ⟨kkb, hkkbL, hkkbA⟩, ⟨sufb, hsufb, hsufbP⟩,
        ⟨sufmb, hsufmb, hsufmbK⟩⟩ :=
      lockstep dm sm pm S LF b pend ⟨L1.arena, L1.tmap ++ [(.inl vid, ptv)]⟩ L2
        { A1 with tmap := A1.tmap ++ [(.inl vid, atv)] } A2 ptb atb hC3 hvb hvab
        hndvb.2.1
        (by intro k hk
            dsimp only
            obtain ⟨sufL, hsufL, hsufLK⟩ := hkeysV
            rw [hsufL]
            have hkNotV : k ∉ exprKeys v := fun hkv => hndvb.2.2 hkv hk
            rw [List.append_assoc]
            refine lookupTM_none_append _ _ _
              (hfL k (List.mem_cons_of_mem _
                (List.mem_cons_of_mem _ (List.mem_append_right _ hk)))) ?_
            intro kv hkv hc
            rcases List.mem_append.mp hkv with hkv | hkv
            · exact hkNotV (by rw [← hc]; exact hsufLK kv hkv)
            · simp only [List.mem_singleton] at hkv
              have h1 : kv.1 = Sum.inl vid := by rw [hkv]
              rw [h1] at hc
              exact hvidNotB (by rw [hc]; exact hk))
        (by intro k hk
            dsimp only
            rw [hsufmv, List.append_assoc]
            have hkNotV : k ∉ exprKeys v := fun hkv => hndvb.2.2 hkv hk
            refine lookupTM_none_append _ _ _
              (hfA k (List.mem_cons_of_mem _
                (List.mem_cons_of_mem _ (List.mem_append_right _ hk)))) ?_
            intro kv hkv hc
            rcases List.mem_append.mp hkv with hkv | hkv
            · exact hkNotV (by rw [← hc]; exact hsufmvK kv hkv)
            · simp only [List.mem_singleton] at hkv
              have h1 : kv.1 = Sum.inl vid := by rw [hkv]
              rw [h1] at hc
              exact hvidNotB (by rw [hc]; exact hk))
        hpmL2 hextL2 hSL2
    have hpairsB := align_pairs hC4 hkkbL hkkbA
    have hC5 := couple_appendL (.inr nid) ptb hC4 hltB
    have hnidNotV : (Sum.inr nid : Key) ∉ exprKeys v := fun hc =>
      hnd2.1 (List.mem_cons_of_mem _ (List.mem_append_left _ hc))
    have hnidNotB : (Sum.inr nid : Key) ∉ exprKeys b := fun hc =>
      hnd2.1 (List.mem_cons_of_mem _ (List.mem_append_right _ hc))
    have hlkL2nid : lookupTM L2.tmap (.inr nid) = none := by
      obtain ⟨sufL2, hsufL2, hsufL2K⟩ := hkeysB
      rw [hsufL2]
      dsimp only
      obtain ⟨sufL, hsufL, hsufLK⟩ := hkeysV
      rw [hsufL, List.append_assoc, List.append_assoc]
      refine lookupTM_none_append _ _ _ (hfL _ (List.mem_cons_self _ _)) ?_
      intro kv hkv hc
      rcases List.mem_append.mp hkv with hkv | hkv
      · exact hnidNotV (by rw [← hc]; exact hsufLK kv hkv)
      · rcases List.mem_append.mp hkv with hkv | hkv
        · simp only [List.mem_singleton] at hkv
          rw [hkv] at hc
          cases hc
        · exact hnidNotB (by rw [← hc]; exact hsufL2K kv hkv)
    have hlkA2nid : lookupTM A2.tmap (.inr nid) = none := by
      rw [hsufmb]
      dsimp only
      rw [hsufmv, List.append_assoc, List.append_assoc]
      refine lookupTM_none_append _ _ _ (hfA _ (List.mem_cons_self _ _)) ?_
      intro kv hkv hc
      rcases List.mem_append.mp hkv with hkv | hkv
      · exact hnidNotV (by rw [← hc]; exact hsufmvK kv hkv)
      · rcases List.mem_append.mp hkv with hkv | hkv
        · simp only [List.mem_singleton] at hkv
          rw [hkv] at hc
          cases hc
        · exact hnidNotB (by rw [← hc]; exact hsufmbK kv hkv)
    have hlkLnid : lookupTM (L2.tmap ++ [(.inr nid, ptb)]) (.inr nid)
        = some ptb := by
      rw [lookupTM_append_of_none _ _ _ hlkL2nid, lookupTM_single]
    have hC6 := couple_appendA (.inr nid) ptb atb hC5 hlkLnid hlkA2nid
      (hpairsB.imp (fun a b2 hp => PairOK_arena _ hp))
    rw [← hL', ← hpts, ← hA', ← hats]
    refine ⟨hC6, ⟨.inr nid, hlkLnid, ?_⟩,
      ⟨sufv ++ sufb, ?_, ?_⟩,
      ⟨sufmv ++ [(.inl vid, atv)] ++ sufmb ++ [(.inr nid, atb)], ?_, ?_⟩⟩
    · dsimp only
      rw [lookupTM_append_of_none _ _ _ hlkA2nid, lookupTM_single]
    · rw [hsufb]
      dsimp only
      rw [hsufv, List.append_assoc]
    · intro t2 q hm
      rcases List.mem_append.mp hm with hm | hm
      · exact hsufvP t2 q hm
      · exact le_trans hstepV.ext.1 (hsufbP t2 q hm)
    · rw [hsufmb]
      dsimp only
      rw [hsufmv]
      simp [List.append_assoc]
    · intro kv hkv
      simp only [List.mem_append, List.mem_singleton] at hkv
      rcases hkv with ((hkv | hkv) | hkv) | hkv
      · simp only [exprKeys, List.mem_cons, List.mem_append]
        exact Or.inr (Or.inr (Or.inl (hsufmvK kv hkv)))
      · rw [hkv]
        simp [exprKeys]
      · simp only [exprKeys, List.mem_cons, List.mem_append]
        exact Or.inr (Or.inr (Or.inr (hsufmbK kv hkv)))
      · rw [hkv]
        simp [exprKeys]
theorem lockstepArgs (dm : Key → Option Int) (sm : Key → Option (List String))
    (pm : List (Key × List Nat)) (S : Nat → Prop) (LF : InitState) :
    ∀ (es : ExprList) (pend : List Nat) (L L' : InitState) (A A' : AssignState)
      (ats : List Nat),
    Coupled S LF pend L A →
    visitInitArgs dm sm es L = some L' →
    visitAssignList pm es A = some (A', ats) →
    (exprKeysL es).Nodup →
    (∀ k ∈ exprKeysL es, lookupTM L.tmap k = none) →
    (∀ k ∈ exprKeysL es, lookupTM A.tmap k = none) →
    (∃ suf, pm = L'.tmap ++ suf) →
    InitExt L' LF →
    (∀ q, S q → q < L'.arena.length →
      (getTok L'.arena q).ref_counter < (getTok LF.arena q).ref_counter) →
    Coupled S LF (ats.reverse ++ pend) L' A' ∧
    (∃ suf, A'.trace = A.trace ++ suf ∧
      ∀ t2 q, Ev.assign t2 q ∈ suf → L.arena.length ≤ q) ∧
    (∃ suf, A'.tmap = A.tmap ++ suf ∧ ∀ kv ∈ suf, kv.1 ∈ exprKeysL es)
  | .nil, pend, L, L', A, A', ats, hC, hvi, hva, hnd, hfL, hfA, hpm, hext, hS => by
    simp only [visitInitArgs, Option.some.injEq] at hvi
    simp only [visitAssignList, Option.some.injEq, Prod.mk.injEq] at hva
    obtain ⟨hA', hats⟩ := hva
    rw [← hvi, ← hA', ← hats]
    exact ⟨by simpa using hC,
      ⟨[], by simp, fun t2 q hm => absurd hm (List.not_mem_nil _)⟩,
      ⟨[], by simp, fun kv hm => absurd hm (List.not_mem_nil _)⟩⟩
  | .cons a rest, pend, L, L', A, A', ats, hC, hvi, hva, hnd, hfL, hfA, hpm,
      hext, hS => by
    simp only [exprKeysL] at hnd hfL hfA
    have hndp := List.nodup_append.mp hnd
    simp only [visitInitArgs] at hvi
    simp only [visitAssignList] at hva
    rcases hva1 : visitInit dm sm a L with _ | ⟨L1, ptsa⟩ <;> rw [hva1] at hvi
    · simp at hvi
    simp only [Option.bind_eq_bind, Option.some_bind] at hvi
    rcases hvaa : visitAssign pm a A with _ | ⟨A1, atsa⟩ <;> rw [hvaa] at hva
    · simp at hva
    simp only [Option.bind_eq_bind, Option.some_bind] at hva
    rcases hvar : visitAssignList pm rest A1 with _ | ⟨A2, atsr⟩ <;> rw [hvar] at hva
    · simp at hva
    simp only [Option.bind_eq_bind, Option.some_bind, Option.pure_def,
      Option.some.injEq, Prod.mk.injEq] at hva
    obtain ⟨hA', hats⟩ := hva
    obtain ⟨hstepA, hkeysA, hclsA, hltA⟩ :=
      initStructure dm sm a L L1 ptsa hC.tmapWfL hva1
    have hwfInc : TmapWf ⟨incRefs L1.arena ptsa, L1.tmap⟩ := by
      intro k ps hlk p hp
      dsimp only at hlk ⊢
      rw [incRefs_length]
      exact hstepA.wfPres hC.tmapWfL k ps hlk p hp
    obtain ⟨hstepRest, hkeysRest⟩ :=
      initStructureArgs dm sm rest ⟨incRefs L1.arena ptsa, L1.tmap⟩ L' hwfInc hvi
    have hextL1 : InitExt L1 LF :=
      InitExt_trans (InitExt_incRefs L1 ptsa) (InitExt_trans hstepRest.ext hext)
    have hSL1 : ∀ q, S q → q < L1.arena.length →
        (getTok L1.arena q).ref_counter < (getTok LF.arena q).ref_counter :=
      headroom_mono (InitExt_trans (InitExt_incRefs L1 ptsa) hstepRest.ext) hS
    have hpmL1 : ∃ suf, pm = L1.tmap ++ suf := by
      obtain ⟨s, hs⟩ := hpm
      obtain ⟨sr, hsr, _⟩ := hkeysRest
      exact ⟨sr ++ s, by rw [hs, hsr]; dsimp only; rw [List.append_assoc]⟩
    obtain ⟨hC1, ⟨kka, hkkaL, hkkaA⟩, ⟨sufa, hsufa, hsufaP⟩,
        ⟨sufma, hsufma, hsufmaK⟩⟩ :=
      lockstep dm sm pm S LF a pend L L1 A A1 ptsa atsa hC hva1 hvaa
        hndp.1 (fun k hk => hfL k (List.mem_append_left _ hk))
        (fun k hk => hfA k (List.mem_append_left _ hk)) hpmL1 hextL1 hSL1
    have hpairsA := align_pairs hC1 hkkaL hkkaA
    have hmax : ∀ p, p < L1.arena.length →
        (getTok (incRefs L1.arena ptsa) p).ref_counter
          ≤ (getTok LF.arena p).ref_counter := by
      intro p hp
      have h1 := (hstepRest.ext.2.1 p (by dsimp only; rw [incRefs_length]; exact hp)
        ).2.2.2.2.2
      have h2 := dom_of_ext hext p (lt_of_lt_of_le
        (by dsimp only at *; rw [incRefs_length] at *; exact hp) hstepRest.ext.1)
      dsimp only at h1
      omega
    have hCinc := couple_incList ptsa atsa pend L1 hC1 hpairsA hmax
    have hfLinc : ∀ k ∈ exprKeysL rest,
        lookupTM (⟨incRefs L1.arena ptsa, L1.tmap⟩ : InitState).tmap k = none := by
      intro k hk
      dsimp only
      obtain ⟨sufL, hsufL, hsufLK⟩ := hkeysA
      rw [hsufL]
      refine lookupTM_none_append _ _ _ (hfL k (List.mem_append_right _ hk)) ?_
      intro kv hkv hc
      exact (fun hkv => hndp.2.2 hkv hk) (by rw [← hc]; exact hsufLK kv hkv)
    have hfAinc : ∀ k ∈ exprKeysL rest, lookupTM A1.tmap k = none := by
      intro k hk
      rw [hsufma]
      refine lookupTM_none_append _ _ _ (hfA k (List.mem_append_right _ hk)) ?_
      intro kv hkv hc
      exact (fun hkv => hndp.2.2 hkv hk) (by rw [← hc]; exact hsufmaK kv hkv)
    obtain ⟨hC2, ⟨sufr, hsufr, hsufrP⟩, ⟨sufmr, hsufmr, hsufmrK⟩⟩ :=
      lockstepArgs dm sm pm S LF rest (atsa.reverse ++ pend)
        ⟨incRefs L1.arena ptsa, L1.tmap⟩ L' A1 A2 atsr hCinc hvi hvar
        hndp.2.1 hfLinc hfAinc hpm hext hS
    rw [← hA', ← hats]
    refine ⟨?_, ⟨sufa ++ sufr, ?_, ?_⟩, ⟨sufma ++ sufmr, ?_, ?_⟩⟩
    · rw [List.reverse_append, List.append_assoc]
      exact hC2
    · rw [hsufr, hsufa, List.append_assoc]
    · intro t2 q hm
      rcases List.mem_append.mp hm with hm | hm
      · exact hsufaP t2 q hm
      · have := hsufrP t2 q hm
        dsimp only at this
        rw [incRefs_length] at this
        exact le_trans hstepA.ext.1 this
    · rw [hsufmr, hsufma, List.append_assoc]
    · intro kv hkv
      rcases List.mem_append.mp hkv with hkv | hkv
      · exact List.mem_append_left _ (hsufmaK kv hkv)
      · exact List.mem_append_right _ (hsufmrK kv hkv)
theorem lockstepFields (dm : Key → Option Int) (sm : Key → Option (List String))
    (pm : List (Key × List Nat)) (S : Nat → Prop) (LF : InitState) :
    ∀ (es : ExprList) (pend : List Nat) (L L' : InitState) (A A' : AssignState)
      (pts ats : List Nat),
    Coupled S LF pend L A →
    visitInitFields dm sm es L = some (L', pts) →
    visitAssignList pm es A = some (A', ats) →
    (exprKeysL es).Nodup →
    (∀ k ∈ exprKeysL es, lookupTM L.tmap k = none) →
    (∀ k ∈ exprKeysL es, lookupTM A.tmap k = none) →
    (∃ suf, pm = L'.tmap ++ suf) →
    InitExt L' LF →
    (∀ q, S q → q < L'.arena.length →
      (getTok L'.arena q).ref_counter < (getTok LF.arena q).ref_counter) →
    Coupled S LF pend L' A' ∧
    List.Forall₂ (PairOK LF L' A') pts ats ∧
    (∃ suf, A'.trace = A.trace ++ suf ∧
      ∀ t2 q, Ev.assign t2 q ∈ suf → L.arena.length ≤ q) ∧
    (∃ suf, A'.tmap = A.tmap ++ suf ∧ ∀ kv ∈ suf, kv.1 ∈ exprKeysL es)
  | .nil, pend, L, L', A, A', pts, ats, hC, hvi, hva, hnd, hfL, hfA, hpm, hext,
      hS => by
    simp only [visitInitFields, Option.some.injEq, Prod.mk.injEq] at hvi
    simp only [visitAssignList, Option.some.injEq, Prod.mk.injEq] at hva
    obtain ⟨hL', hpts⟩ := hvi
    obtain ⟨hA', hats⟩ := hva
    rw [← hL', ← hpts, ← hA', ← hats]
    exact ⟨hC, List.Forall₂.nil,
      ⟨[], by simp, fun t2 q hm => absurd hm (List.not_mem_nil _)⟩,
      ⟨[], by simp, fun kv hm => absurd hm (List.not_mem_nil _)⟩⟩
  | .cons f rest, pend, L, L', A, A', pts, ats, hC, hvi, hva, hnd, hfL, hfA, hpm,
      hext, hS => by
    simp only [exprKeysL] at hnd hfL hfA
    have hndp := List.nodup_append.mp hnd
    simp only [visitInitFields] at hvi
    simp only [visitAssignList] at hva
    rcases hvf : visitInit dm sm f L with _ | ⟨L1, t1L⟩ <;> rw [hvf] at hvi
    · simp at hvi
    simp only [Option.bind_eq_bind, Option.some_bind] at hvi
    rcases hvr : visitInitFields dm sm rest L1 with _ | ⟨L2, t2L⟩ <;> rw [hvr] at hvi
    · simp at hvi
    simp only [Option.bind_eq_bind, Option.some_bind, Option.pure_def,
      Option.some.injEq, Prod.mk.injEq] at hvi
    obtain ⟨hL', hpts⟩ := hvi
    rcases hvaf : visitAssign pm f A with _ | ⟨A1, t1A⟩ <;> rw [hvaf] at hva
    · simp at hva
    simp only [Option.bind_eq_bind, Option.some_bind] at hva
    rcases hvar : visitAssignList pm rest A1 with _ | ⟨A2, t2A⟩ <;> rw [hvar] at hva
    · simp at hva
    simp only [Option.bind_eq_bind, Option.some_bind, Option.pure_def,
      Option.some.injEq, Prod.mk.injEq] at hva
    obtain ⟨hA', hats⟩ := hva
    obtain ⟨hstepF, hkeysF, hclsF, hltF⟩ :=
      initStructure dm sm f L L1 t1L hC.tmapWfL hvf
    obtain ⟨hstepR, hkeysR, hclsR, hltR⟩ :=
      initStructureFields dm sm rest L1 L2 t2L (hstepF.wfPres hC.tmapWfL) hvr
    have hextL1 : InitExt L1 LF := InitExt_trans hstepR.ext (by rw [hL']; exact hext)
    have hSL1 : ∀ q, S q → q < L1.arena.length →
        (getTok L1.arena q).ref_counter < (getTok LF.arena q).ref_counter :=
      headroom_mono hstepR.ext (by rw [← hL'] at hS; exact hS)
    have hpmL1 : ∃ suf, pm = L1.tmap ++ suf := by
      rw [← hL'] at hpm
      obtain ⟨s, hs⟩ := hpm
      obtain ⟨sr, hsr, _⟩ := hkeysR
      exact ⟨sr ++ s, by rw [hs, hsr, List.append_assoc]⟩
    obtain ⟨hC1, ⟨kkf, hkkfL, hkkfA⟩, ⟨suff, hsuff, hsuffP⟩,
        ⟨sufmf, hsufmf, hsufmfK⟩⟩ :=
      lockstep dm sm pm S LF f pend L L1 A A1 t1L t1A hC hvf hvaf
        hndp.1 (fun k hk => hfL k (List.mem_append_left _ hk))
        (fun k hk => hfA k (List.mem_append_left _ hk)) hpmL1 hextL1 hSL1
    have hfL1 : ∀ k ∈ exprKeysL rest, lookupTM L1.tmap k = none := by
      intro k hk
      obtain ⟨sufL, hsufL, hsufLK⟩ := hkeysF
      rw [hsufL]
      refine lookupTM_none_append _ _ _ (hfL k (List.mem_append_right _ hk)) ?_
      intro kv hkv hc
      exact (fun hkv => hndp.2.2 hkv hk) (by rw [← hc]; exact hsufLK kv hkv)
    have hfA1 : ∀ k ∈ exprKeysL rest, lookupTM A1.tmap k = none := by
      intro k hk
      rw [hsufmf]
      refine lookupTM_none_append _ _ _ (hfA k (List.mem_append_right _ hk)) ?_
      intro kv hkv hc
      exact (fun hkv => hndp.2.2 hkv hk) (by rw [← hc]; exact hsufmfK kv hkv)
    obtain ⟨hC2, hpairsR, ⟨sufr, hsufr, hsufrP⟩, ⟨sufmr, hsufmr, hsufmrK⟩⟩ :=
      lockstepFields dm sm pm S LF rest pend L1 L2 A1 A2 t2L t2A hC1 hvr hvar
        hndp.2.1 hfL1 hfA1 (by rw [← hL'] at hpm; exact hpm)
        (by rw [← hL'] at hext; exact hext) (by rw [← hL'] at hS; exact hS)
    have hkkfL2 : lookupTM L2.tmap kkf = some t1L := by
      obtain ⟨sr, hsr, _⟩ := hkeysR
      rw [hsr]
      exact lookupTM_append_of_some _ _ _ _ hkkfL
    have hkkfA2 : lookupTM A2.tmap kkf = some t1A := by
      rw [hsufmr]
      exact lookupTM_append_of_some _ _ _ _ hkkfA
    have hpairsF := align_pairs hC2 hkkfL2 hkkfA2
    rw [← hL', ← hpts, ← hA', ← hats]
    refine ⟨hC2, List.rel_append hpairsF hpairsR, ⟨suff ++ sufr, ?_, ?_⟩,
      ⟨sufmf ++ sufmr, ?_, ?_⟩⟩
    · rw [hsufr, hsuff, List.append_assoc]
    · intro t2 q hm
      rcases List.mem_append.mp hm with hm | hm
      · exact hsuffP t2 q hm
      · exact le_trans hstepF.ext.1 (hsufrP t2 q hm)
    · rw [hsufmr, hsufmf, List.append_assoc]
    · intro kv hkv
      rcases List.mem_append.mp hkv with hkv | hkv
      · exact List.mem_append_left _ (hsufmfK kv hkv)
      · exact List.mem_append_right _ (hsufmrK kv hkv)
end

/-- Structural facts of the liveness parameter loop. -/
theorem initStructureParams (dm : Key → Option Int) (sm : Key → Option (List String)) :
    ∀ (prs : List (Nat × List TensorType)) (L L' : InitState), TmapWf L →
    runInitParams dm sm prs L = some L' →
    InitStep L L' ∧ KeysAdded L L' (prs.map (fun pr => (Sum.inl pr.1 : Key)))
  | [], L, L', hwf, h => by
    simp only [runInitParams, Option.some.injEq] at h
    rw [← h]
    exact ⟨InitStep.rfl_ L, ⟨[], by simp⟩⟩
  | (v, tys) :: rest, L, L', hwf, h => by
    simp only [runInitParams] at h
    rcases hcr : createTokenInit dm sm (.inl v) tys L with _ | ⟨L1, pts1⟩ <;>
      rw [hcr] at h
    · simp at h
    simp only [Option.bind_eq_bind, Option.some_bind] at h
    obtain ⟨hstep1, hkeys1, _, _⟩ := createTokenInit_initStep dm sm _ tys L L1 pts1 hcr
    obtain ⟨hstep2, hkeys2⟩ :=
      initStructureParams dm sm rest L1 L' (hstep1.wfPres hwf) h
    refine ⟨hstep1.comp hstep2, ?_⟩
    refine KeysAdded_comp (KeysAdded_mono hkeys1 ?_) (KeysAdded_mono hkeys2 ?_)
    · intro k hk
      simp only [List.mem_singleton] at hk
      rw [hk]
      simp
    · intro k hk
      simp only [List.map_cons, List.mem_cons]
      exact Or.inr hk

/-- The initial coupling: empty replay against the assignment pass's starting
state over the final liveness arena. -/
theorem couple_init (S : Nat → Prop) (LF : InitState) :
    Coupled S LF [] ⟨[], []⟩ ⟨LF.arena, [], initialAlloc, []⟩ := by
  refine ⟨rfl, Nat.zero_le _, ?_, fun t => rfl, fun t _ => rfl, ?_, ?_, ?_, ?_, ?_,
    ?_, ?_, ?_, List.nodup_nil, rfl, ?_, ?_, ?_, ?_, ?_, ?_, ?_, ?_, le_refl _⟩
  · intro k ps hk
    cases hk
  · intro t p h
    cases h
  · intro t t2 p h
    cases h
  · intro t p h
    cases h
  · intro t h
    cases h
  · intro t p h
    cases h
  · intro t h
    cases h
  · intro k ts hk
    cases hk
  · intro e he
    cases he
  · intro t r b ins h
    cases h
  · intro t q h
    cases h
  · intro t r b ins h
    cases h
  · intro t r ins h
    cases h
  · intro i j t p r b ins hi
    cases hi
  · intro t q h
    cases h
  · intro t h
    cases h
  · intro t h
    cases h

/-- The parameter-loop lockstep. -/
theorem lockstepParams (dm : Key → Option Int) (sm : Key → Option (List String))
    (pm : List (Key × List Nat)) (S : Nat → Prop) (LF : InitState) :
    ∀ (prs : List (Nat × List TensorType)) (pend : List Nat) (L L' : InitState)
      (A A' : AssignState),
    Coupled S LF pend L A →
    runInitParams dm sm prs L = some L' →
    runAssignParams pm prs A = some A' →
    (prs.map (fun pr => (Sum.inl pr.1 : Key))).Nodup →
    (∀ k ∈ prs.map (fun pr => (Sum.inl pr.1 : Key)), lookupTM L.tmap k = none) →
    (∀ k ∈ prs.map (fun pr => (Sum.inl pr.1 : Key)), lookupTM A.tmap k = none) →
    (∃ suf, pm = L'.tmap ++ suf) →
    InitExt L' LF →
    (∀ q, S q → q < L'.arena.length →
      (getTok L'.arena q).ref_counter < (getTok LF.arena q).ref_counter) →
    Coupled S LF pend L' A' ∧
    (∃ suf, A'.tmap = A.tmap ++ suf ∧
      ∀ kv ∈ suf, kv.1 ∈ prs.map (fun pr => (Sum.inl pr.1 : Key)))
  | [], pend, L, L', A, A', hC, hvi, hva, hnd, hfL, hfA, hpm, hext, hS => by
    simp only [runInitParams, Option.some.injEq] at hvi
    simp only [runAssignParams, Option.some.injEq] at hva
    rw [← hvi, ← hva]
    exact ⟨hC, ⟨[], by simp, fun kv hm => absurd hm (List.not_mem_nil _)⟩⟩
  | (v, tys) :: rest, pend, L, L', A, A', hC, hvi, hva, hnd, hfL, hfA, hpm, hext,
      hS => by
    simp only [runInitParams] at hvi
    simp only [runAssignParams] at hva
    rcases hcr : createTokenInit dm sm (.inl v) tys L with _ | ⟨L1, pts1⟩ <;>
      rw [hcr] at hvi
    · simp at hvi
    simp only [Option.bind_eq_bind, Option.some_bind] at hvi
    rcases hca : createTokenAssign pm false (.inl v) A with _ | ⟨A1, ats1⟩ <;>
      rw [hca] at hva
    · simp at hva
    simp only [Option.bind_eq_bind, Option.some_bind] at hva
    obtain ⟨hfresh0, hptsEq, harenaC, htmapL1, hlenC, holdC, hnewC, hrangeC⟩ :=
      createTokenInit_spec dm sm _ tys L L1 pts1 hcr
    obtain ⟨hstep1, _, _, _⟩ := createTokenInit_initStep dm sm _ tys L L1 pts1 hcr
    obtain ⟨hstepRest, hkeysRest⟩ :=
      initStructureParams dm sm rest L1 L' (hstep1.wfPres hC.tmapWfL) hvi
    have hnd2 := List.nodup_cons.mp (by
      rw [List.map_cons] at hnd
      exact hnd)
    have hC1 := couple_createInitReplay dm sm _ tys hC hcr
      (le_trans hstepRest.ext.1 hext.1)
    have hlkL1 : lookupTM L1.tmap (.inl v) = some pts1 := by
      rw [htmapL1]
      rw [lookupTM_append_of_none _ _ _ hfresh0, lookupTM_single]
    have hpmL1 : ∃ suf, pm = L1.tmap ++ suf := by
      obtain ⟨s, hs⟩ := hpm
      obtain ⟨sr, hsr, _⟩ := hkeysRest
      exact ⟨sr ++ s, by rw [hs, hsr, List.append_assoc]⟩
    have hps : ∀ p ∈ pts1, p < L1.arena.length ∧
        (getTok L1.arena p).ref_counter = 0 ∧
        ∀ t2, Ev.assign t2 p ∉ A.trace := by
      intro p hp
      refine ⟨(hrangeC p hp).2, hnewC p (hrangeC p hp).1, ?_⟩
      intro t2 hm
      have h1 := hC.traceProtoLt t2 p hm
      have h2 := (hrangeC p hp).1
      omega
    have hextL1 : InitExt L1 LF := InitExt_trans hstepRest.ext hext
    have hSL1 : ∀ q, S q → q < L1.arena.length →
        (getTok L1.arena q).ref_counter < (getTok LF.arena q).ref_counter :=
      headroom_mono hstepRest.ext hS
    obtain ⟨hC2, hlkA1, hserv1, hnd1, hnf1, ⟨suf1, hsuf1, hsuf1P⟩, htmapA1⟩ :=
      couple_createAssign false pm hC1 hlkL1 hpmL1 hps
        (by rw [hptsEq]; exact range_map_nodup _ _) (dom_of_ext hextL1) hSL1 hca
    obtain ⟨hC3, ⟨sufr, hsufr, hsufrK⟩⟩ :=
      lockstepParams dm sm pm S LF rest pend L1 L' A1 A' hC2 hvi hva
        hnd2.2
        (by intro k hk
            rw [htmapL1]
            refine lookupTM_none_append _ _ _ (hfL k (by
              rw [List.map_cons]
              exact List.mem_cons_of_mem _ hk)) ?_
            intro kv hkv hc
            simp only [List.mem_singleton] at hkv
            have h1 : kv.1 = Sum.inl v := by rw [hkv]
            rw [h1] at hc
            exact hnd2.1 (by rw [hc]; exact hk))
        (by intro k hk
            rw [htmapA1]
            refine lookupTM_none_append _ _ _ (hfA k (by
              rw [List.map_cons]
              exact List.mem_cons_of_mem _ hk)) ?_
            intro kv hkv hc
            simp only [List.mem_singleton] at hkv
            have h1 : kv.1 = Sum.inl v := by rw [hkv]
            rw [h1] at hc
            exact hnd2.1 (by rw [hc]; exact hk))
        hpm hext hS
    refine ⟨hC3, ⟨[(.inl v, ats1)] ++ sufr, ?_, ?_⟩⟩
    · rw [hsufr, htmapA1]
      simp [List.append_assoc]
    · intro kv hkv
      rcases List.mem_append.mp hkv with hkv | hkv
      · simp only [List.mem_singleton] at hkv
        rw [hkv]
        simp
      · rw [List.map_cons]
        exact List.mem_cons_of_mem _ (hsufrK kv hkv)

theorem forall₂_imp_mem {α β : Type} {R Q : α → β → Prop} :
    ∀ {l1 : List α} {l2 : List β}, List.Forall₂ R l1 l2 →
    (∀ a ∈ l1, ∀ b ∈ l2, R a b → Q a b) → List.Forall₂ Q l1 l2 := by
  intro l1 l2 h
  induction h with
  | nil => intro _; exact List.Forall₂.nil
  | @cons a b t1 t2 hr _ ih =>
    intro hmem
    refine List.Forall₂.cons
      (hmem a (List.mem_cons_self _ _) b (List.mem_cons_self _ _) hr) ?_
    exact ih (fun a2 ha2 b2 hb2 hr2 =>
      hmem a2 (List.mem_cons_of_mem _ ha2) b2 (List.mem_cons_of_mem _ hb2) hr2)

/-- The whole-plan lockstep: running the liveness pass and then the
assignment pass over the same function couples their final states, with the
function outputs as the reserved-headroom prototypes. -/
theorem runLockstep (dm : Key → Option Int) (sm : Key → Option (List String))
    (f : Func) (LF : InitState) (louts : List Nat) (asn : AssignState)
    (outs : List Nat)
    (hnod : (funcKeys f).Nodup)
    (hinit : runInit dm sm f = some (LF, louts))
    (hassign : runAssign LF.tmap f LF.arena = some (asn, outs)) :
    ∃ (LB : InitState) (Aend : AssignState),
      Coupled (fun p => p ∈ louts) LF [] LB Aend ∧
      asn.trace = Aend.trace ∧
      asn.tmap = Aend.tmap ∧
      asn.alloc = Aend.alloc ∧
      asn.arena = incRefs Aend.arena outs ∧
      List.Forall₂ (fun p t => servingOf Aend.trace t = some p) louts outs ∧
      InitExt LB LF ∧
      (∀ q ∈ louts, q < LB.arena.length ∧
        (getTok LB.arena q).ref_counter < (getTok LF.arena q).ref_counter) := by
  unfold runInit at hinit
  rcases hparams : runInitParams dm sm f.params ⟨[], []⟩ with _ | Lp <;>
    rw [hparams] at hinit
  · simp at hinit
  simp only [Option.bind_eq_bind, Option.some_bind] at hinit
  rcases hbody : visitInit dm sm f.body Lp with _ | ⟨LB, louts0⟩ <;>
    rw [hbody] at hinit
  · simp at hinit
  simp only [Option.bind_eq_bind, Option.some_bind, Option.pure_def,
    Option.some.injEq, Prod.mk.injEq] at hinit
  obtain ⟨hLF, hlouts⟩ := hinit
  unfold runAssign at hassign
  rcases haparams : runAssignParams LF.tmap f.params ⟨LF.arena, [], initialAlloc, []⟩
    with _ | Ap <;> rw [haparams] at hassign
  · simp at hassign
  simp only [Option.bind_eq_bind, Option.some_bind] at hassign
  rcases habody : visitAssign LF.tmap f.body Ap with _ | ⟨Aend, outs0⟩ <;>
    rw [habody] at hassign
  · simp at hassign
  simp only [Option.bind_eq_bind, Option.some_bind, Option.pure_def,
    Option.some.injEq, Prod.mk.injEq] at hassign
  obtain ⟨hasn, houts⟩ := hassign
  have hwf0 : TmapWf ⟨[], []⟩ := by
    intro k ps hk
    cases hk
  obtain ⟨hstepP, hkeysP⟩ := initStructureParams dm sm f.params ⟨[], []⟩ Lp hwf0 hparams
  obtain ⟨hstepB, hkeysB, hclsB, hltB⟩ :=
    initStructure dm sm f.body Lp LB louts0 (hstepP.wfPres hwf0) hbody
  have hLFarena : LF.arena = incRefs LB.arena louts0 := by rw [← hLF]
  have hLFtmap : LF.tmap = LB.tmap := by rw [← hLF]
  have hextLBLF : InitExt LB LF := by
    rw [← hLF]
    exact InitExt_incRefs LB louts0
  have hSLB : ∀ q, q ∈ louts0 → q < LB.arena.length →
      (getTok LB.arena q).ref_counter < (getTok LF.arena q).ref_counter := by
    intro q hq hql
    rw [hLFarena, incRefs_ref _ _ _ hql]
    have : 1 ≤ louts0.count q := List.count_pos_iff_mem.mpr hq
    have h2 : (1 : Int) ≤ (louts0.count q : Int) := by exact_mod_cast this
    omega
  have hfk := List.nodup_append.mp (by
    rw [show funcKeys f = f.params.map (fun pr => (Sum.inl pr.1 : Key))
      ++ exprKeys f.body from rfl] at hnod
    exact hnod)
  have hpmLp : ∃ suf, LF.tmap = Lp.tmap ++ suf := by
    obtain ⟨sb, hsb, _⟩ := hkeysB
    exact ⟨sb, by rw [hLFtmap, hsb]⟩
  have hextLp : InitExt Lp LF := InitExt_trans hstepB.ext hextLBLF
  have hSLp := @headroom_mono (fun p => p ∈ louts0) Lp LB LF hstepB.ext hSLB
  obtain ⟨hCp, ⟨sufPA, hsufPA, hsufPAK⟩⟩ :=
    lockstepParams dm sm LF.tmap (fun p => p ∈ louts0) LF f.params [] ⟨[], []⟩ Lp
      ⟨LF.arena, [], initialAlloc, []⟩ Ap (couple_init _ LF) hparams haparams
      hfk.1 (fun k _ => rfl) (fun k _ => rfl) hpmLp hextLp hSLp
  obtain ⟨sufP, hsufP, hsufPK⟩ := hkeysP
  have hfLbody : ∀ k ∈ exprKeys f.body, lookupTM Lp.tmap k = none := by
    intro k hk
    rw [hsufP]
    refine lookupTM_none_append _ _ _ rfl ?_
    intro kv hkv hc
    exact (hfk.2.2 (by rw [← hc]; exact hsufPK kv hkv)) hk
  have hfAbody : ∀ k ∈ exprKeys f.body, lookupTM Ap.tmap k = none := by
    intro k hk
    rw [hsufPA]
    refine lookupTM_none_append _ _ _ rfl ?_
    intro kv hkv hc
    exact (hfk.2.2 (by rw [← hc]; exact hsufPAK kv hkv)) hk
  obtain ⟨hCend, ⟨kk, hkkL, hkkA⟩, ⟨suft, hsuft, hsuftP⟩, ⟨sufm, hsufm, hsufmK⟩⟩ :=
    lockstep dm sm LF.tmap (fun p => p ∈ louts0) LF f.body [] Lp LB Ap Aend
      louts0 outs0 hCp hbody habody hfk.2.1 hfLbody hfAbody
      ⟨[], by rw [hLFtmap, List.append_nil]⟩ hextLBLF hSLB
  have hpairs := align_pairs hCend hkkL hkkA
  have hservPairs : List.Forall₂ (fun p t => servingOf Aend.trace t = some p)
      louts0 outs0 := by
    refine forall₂_imp_mem hpairs ?_
    intro p hp t ht hpair
    obtain ⟨hp1, hp2, hp3, hp4⟩ := hpair
    by_contra hne
    have hdead := hp4 hne
    have := hSLB p hp hp1
    omega
  rw [← hlouts, ← houts, ← hasn]
  exact ⟨LB, Aend, hCend, rfl, rfl, rfl, rfl, hservPairs, hextLBLF,
    fun q hq => ⟨lt_of_lt_of_le (hltB q hq) (le_refl _), hSLB q hq (hltB q hq)⟩⟩

/-- C2.  Over a whole plan (liveness pass, then assignment pass, on a
function whose `token_map_` keys are distinct), every token that went through
the fresh-allocation branch — marked by its `fresh` pin event — sees a
positive `ref_counter` at every `CheckForRelease` it undergoes and is never
inserted into a free list; no 2D release ever inserts; the 2D allocator's
free list is empty at the end; and every pinned token ends the plan with
`ref_counter ≥ 1`. -/
theorem C2_fresh_pinned (dm : Key → Option Int) (sm : Key → Option (List String))
    (f : Func) (LF : InitState) (louts : List Nat) (asn : AssignState)
    (outs : List Nat)
    (hnod : (funcKeys f).Nodup)
    (hinit : runInit dm sm f = some (LF, louts))
    (hassign : runAssign LF.tmap f LF.arena = some (asn, outs)) :
    (∀ t r b ins, Ev.fresh t ∈ asn.trace → Ev.rel t r b ins ∈ asn.trace →
      1 ≤ r ∧ ins = false) ∧
    (∀ t r ins, Ev.rel t r true ins ∈ asn.trace → ins = false) ∧
    asn.alloc.t2.free_list_ = [] ∧
    (∀ t, Ev.fresh t ∈ asn.trace → 1 ≤ (getTok asn.arena t).ref_counter) := by
  obtain ⟨LB, Aend, hC, htr, htm, hal, har, hpairs, hext, hlo⟩ :=
    runLockstep dm sm f LF louts asn outs hnod hinit hassign
  rw [htr, hal, har]
  refine ⟨fun t r b ins hf hr => hC.safePinned t r b ins hr hf,
    fun t r ins hr => hC.safe2D t r ins hr, hC.free2E, ?_⟩
  intro t hf
  have hserv := hC.pinnedServing t hf
  have hform := hC.servingFormula t t hserv
  obtain ⟨htl, _⟩ := hC.servingRange t t hserv
  have hd := dom_of_ext hext t htl
  have hcnt : (0 : Int) ≤ (([] : List Nat).count t : Int) := by positivity
  have hpin := pinB_of_fresh _ _ hf
  have htA : t < Aend.arena.length := by
    rw [hC.lenA]
    exact lt_of_lt_of_le htl hC.lenL
  rw [incRefs_ref _ _ _ htA]
  have hcnt2 : (0 : Int) ≤ (outs.count t : Int) := by positivity
  rw [hpin] at hform
  simp only [List.count_nil, Nat.cast_zero, add_zero] at hform
  omega

/-- C8 (amended).  Output pinning holds from the moment a token is assigned
to an output prototype: the outputs are exactly the tokens assigned to the
body's prototypes, any `CheckForRelease` after such an assignment sees
`ref_counter ≥ 1` and inserts nothing, output tokens are absent from the
final free list, the after-body `ref_counter += 1` pin is applied on top of
an already positive count, and the 2D free list stays empty. -/
theorem C8_output_pinning (dm : Key → Option Int) (sm : Key → Option (List String))
    (f : Func) (LF : InitState) (louts : List Nat) (asn : AssignState)
    (outs : List Nat)
    (hnod : (funcKeys f).Nodup)
    (hinit : runInit dm sm f = some (LF, louts))
    (hassign : runAssign LF.tmap f LF.arena = some (asn, outs)) :
    List.Forall₂ (fun p t => Ev.assign t p ∈ asn.trace) louts outs ∧
    SafeS (fun p => p ∈ louts) asn.trace ∧
    (∀ t ∈ outs, ∀ e ∈ asn.alloc.t1.free_, e.2 ≠ t) ∧
    (∃ Abody : AssignState, asn.arena = incRefs Abody.arena outs ∧
      ∀ t ∈ outs, 1 ≤ (getTok Abody.arena t).ref_counter ∧
        1 ≤ (getTok asn.arena t).ref_counter) := by
  obtain ⟨LB, Aend, hC, htr, htm, hal, har, hpairs, hext, hlo⟩ :=
    runLockstep dm sm f LF louts asn outs hnod hinit hassign
  have hrefend : ∀ t ∈ outs, 1 ≤ (getTok Aend.arena t).ref_counter := by
    intro t ht
    obtain ⟨p, hp, hserv⟩ := forall₂_mem_right hpairs t ht
    have hform := hC.servingFormula t p hserv
    obtain ⟨htl, hpl⟩ := hC.servingRange t p hserv
    have hhead := (hlo p hp).2
    have hpin := pinB_nonneg Aend.trace t
    simp only [List.count_nil, Nat.cast_zero, add_zero] at hform
    omega
  rw [htr, hal, har]
  refine ⟨hpairs.imp (fun p t hserv => assign_mem_of_servingOf _ _ _ hserv),
    hC.safeS, ?_, ⟨Aend, rfl, ?_⟩⟩
  · intro t ht e he
    obtain ⟨h0, _, _⟩ := hC.free1WF e he
    intro hc
    rw [hc] at h0
    have := hrefend t ht
    omega
  · intro t ht
    refine ⟨hrefend t ht, ?_⟩
    have htA : t < Aend.arena.length := by
      obtain ⟨p, hp, hserv⟩ := forall₂_mem_right hpairs t ht
      rw [hC.lenA]
      exact lt_of_lt_of_le (hC.servingRange t p hserv).1 hC.lenL
    rw [incRefs_ref _ _ _ htA]
    have hcnt : (0 : Int) ≤ (outs.count t : Int) := by positivity
    have := hrefend t ht
    omega

theorem C2_fresh_pinned_witness :
    ∃ (LF : InitState) (louts : List Nat) (asn : AssignState) (outs : List Nat),
      runInit dmNone smNone sF = some (LF, louts) ∧
      runAssign LF.tmap sF LF.arena = some (asn, outs) ∧
      ((∀ t r b ins, Ev.fresh t ∈ asn.trace → Ev.rel t r b ins ∈ asn.trace →
        1 ≤ r ∧ ins = false) ∧
       (∀ t r ins, Ev.rel t r true ins ∈ asn.trace → ins = false) ∧
       asn.alloc.t2.free_list_ = [] ∧
       (∀ t, Ev.fresh t ∈ asn.trace → 1 ≤ (getTok asn.arena t).ref_counter)) := by
  exact ⟨_, _, _, _, rfl, rfl,
    C2_fresh_pinned dmNone smNone sF _ _ _ _ (by decide) rfl rfl⟩

theorem C8_output_pinning_witness :
    ∃ (LF : InitState) (louts : List Nat) (asn : AssignState) (outs : List Nat),
      runInit dmNone smNone sF = some (LF, louts) ∧
      runAssign LF.tmap sF LF.arena = some (asn, outs) ∧
      (List.Forall₂ (fun p t => Ev.assign t p ∈ asn.trace) louts outs ∧
       SafeS (fun p => p ∈ louts) asn.trace ∧
       (∀ t ∈ outs, ∀ e ∈ asn.alloc.t1.free_, e.2 ≠ t) ∧
       (∃ Abody : AssignState, asn.arena = incRefs Abody.arena outs ∧
         ∀ t ∈ outs, 1 ≤ (getTok Abody.arena t).ref_counter ∧
           1 ≤ (getTok asn.arena t).ref_counter)) := by
  exact ⟨_, _, _, _, rfl, rfl,
    C8_output_pinning dmNone smNone sF _ _ _ _ (by decide) rfl rfl⟩
